import Mathlib

/-!
# Critical-locus tracing (teqp, `critical_tracing.hpp`)

Shallow embedding of `teqp::CriticalTracing`.

Conventions of the embedding.

* A C++ `double` is an element of a linearly ordered field `α` (exact
  arithmetic, no rounding).  Every definition is generic in `α`, so it runs on
  `ℚ` and is reasoned about on `ℝ`.  The polishers, whose only interesting
  behaviour is the `std::isfinite` test, are generic in an arbitrary carrier
  `β` with an `isfinite` predicate.
* `Eigen::ArrayXd` of length `N` is `Fin N → α`; an `N × N` `Eigen::MatrixXd`
  is `Matrix (Fin N) (Fin N) α`.  An empty array argument (`alignment_v0 = {}`)
  is `none`.
* A thrown `std::invalid_argument` is `Except.error (Error.invalid_argument msg)`.
* Code that lives outside this file of the repository is a parameter:
  the model (`Model`, `IsochoricDerivatives`), the linear-algebra library
  (`EigenLib`), the Newton solver, the odeint steppers (`Odeint`) and
  `std::sqrt`; the tracer takes them bundled as `Env`.
* The `int` variables of the tracer (`iter`, `retry_count`,
  `counter_T_converged` and the `int` options) are integers, without
  wrap-around.
* The `for` loop of `trace_critical_arclength_binary` has no bound on its
  number of passes; `trace_loop` takes a `fuel` bounding them, and the
  result `none` stands for a loop that is still running.
-/

namespace teqp

/-- The exceptions raised in `critical_tracing.hpp`: `std::invalid_argument` with its message. -/
inductive Error where
  | invalid_argument (what : String)
  deriving DecidableEq, Repr

/-- What the routines consume from the thermodynamic model, at composition dimension `N`.

* `R molefrac` is `model.R(molefrac)`;
* `build_Psir_Hessian T rhovec` is `IsochoricDerivatives::build_Psir_Hessian_mcx(model, T, rhovec)`;
* `diff_Psir T rhovec v0` is `diff_mcx1(wrapper, 0.0, 4, true)` for the wrapper
  `sigma_1 ↦ alphar(T, rhotot, molefrac) * R(molefrac) * T * rhotot` taken at
  `rhovec + sigma_1 * v0`, that is the values of orders 0 to 4. -/
structure Model (α : Type) (N : Nat) where
  R : (Fin N → α) → α
  build_Psir_Hessian : α → (Fin N → α) → Matrix (Fin N) (Fin N) α
  diff_Psir : α → (Fin N → α) → (Fin N → α) → Fin 5 → α

/-- What the routines consume from the Eigen library.

* `eigenvalues m H`, `eigenvectors m H`: the two accessors of
  `Eigen::SelfAdjointEigenSolver<MatrixXd> es(H)` for an `m × m` matrix;
* `colPivHouseholderQr_solve LHS RHS` is `LHS.colPivHouseholderQr().solve(RHS)`
  for a `2 × 2` system; like the C++ call it always returns a vector. -/
structure EigenLib (α : Type) where
  eigenvalues : (m : Nat) → Matrix (Fin m) (Fin m) α → Fin m → α
  eigenvectors : (m : Nat) → Matrix (Fin m) (Fin m) α → Matrix (Fin m) (Fin m) α
  colPivHouseholderQr_solve : Matrix (Fin 2) (Fin 2) α → (Fin 2 → α) → Fin 2 → α

/-- The function `sorted_eigen`: eigenvalues and eigenvectors (as columns) of the solver. -/
def sorted_eigen {α : Type} (lib : EigenLib α) {m : Nat} (H : Matrix (Fin m) (Fin m) α) :
    (Fin m → α) × Matrix (Fin m) (Fin m) α :=
  (lib.eigenvalues m H, lib.eigenvectors m H)

/-- The struct `EigenData`.  `eigenvalues` is a list because its length is `N` in the
non-degenerate regime and `N - 1` in the single-degenerate one. -/
structure EigenData (α : Type) (N : Nat) where
  v0 : Fin N → α
  v1 : Fin N → α
  eigenvalues : List α
  eigenvectorscols : Matrix (Fin N) (Fin N) α

section Field

variable {α : Type} [LinearOrderedField α]

/-- The array `mask = (rhovec != 0)`. -/
def mask {N : Nat} (rhovec : Fin N → α) : Fin N → Bool :=
  fun i => decide (rhovec i ≠ 0)

/-- The value `rhovec.sum()`. -/
def vsum {N : Nat} (rhovec : Fin N → α) : α :=
  ∑ i, rhovec i

/-- The array `rhovec / rhovec.sum()`. -/
def molefrac {N : Nat} (rhovec : Fin N → α) : Fin N → α :=
  fun i => rhovec i / vsum rhovec

/-- The matrix `H` of `eigen_problem` after the ideal-gas loop: the residual Hessian with
`R * T / rhovec[i]` added on the diagonal for every `i` with `mask[i]`. -/
def Psi_Hessian {N : Nat} (model : Model α N) (T : α) (rhovec : Fin N → α) :
    Matrix (Fin N) (Fin N) α :=
  fun i j =>
    model.build_Psir_Hessian T rhovec i j +
      (if i = j ∧ mask rhovec i = true then model.R (molefrac rhovec) * T / rhovec i else 0)

/-- The value `mask.count()`. -/
def nonzero_count {N : Nat} (rhovec : Fin N → α) : Nat :=
  (List.finRange N).countP (mask rhovec)

/-- The value `zero_count = N - nonzero_count`. -/
def zero_count {N : Nat} (rhovec : Fin N → α) : Nat :=
  N - nonzero_count rhovec

/-- Eigen's `v.minCoeff(&ind)`, the index part: the first index holding the minimum. -/
def minCoeffIndex {N : Nat} (hN : 0 < N) (v : Fin N → α) : Fin N :=
  (List.finRange N).foldl (fun best i => if v i < v best then i else best) ⟨0, hN⟩

/-- Eigen's `v.minCoeff()`: the smallest coefficient. -/
def minCoeff {N : Nat} (hN : 0 < N) (v : Fin N → α) : α :=
  (List.finRange N).foldl (fun m i => min m (v i)) (v ⟨0, hN⟩)

/-- The loop of `eigen_problem` that fills `indicesToKeep` and `badindex`
(`badindex = -1` is `none`). -/
def keep_loop {N : Nat} (rhovec : Fin N → α) : List (Fin N) × Option (Fin N) :=
  (List.finRange N).foldl
    (fun st i => if mask rhovec i = true then (st.1 ++ [i], st.2) else (st.1, some i))
    ([], none)

/-- The statement `U(i, indicesToKeep) = col`: entry `a` of `col` goes to row `i`,
column `indicesToKeep[a]`. -/
def set_row_at {N : Nat} (U : Matrix (Fin N) (Fin N) α) (i : Fin N) (keep : List (Fin N))
    (col : Fin keep.length → α) : Matrix (Fin N) (Fin N) α :=
  (List.finRange keep.length).foldl
    (fun M a => fun r c => if r = i ∧ c = keep.get a then col a else M r c) U

/-- The loop `for (i = 0; i < N - nonzero_count; ++i) U(i, indicesToKeep) = eigenvectors.col(i)`.
An index `i` outside the matrices (which the C++ code would not survive) writes nothing. -/
def fill_rows {N : Nat} (count : Nat) (keep : List (Fin N))
    (eigenvectors : Matrix (Fin keep.length) (Fin keep.length) α)
    (U : Matrix (Fin N) (Fin N) α) : Matrix (Fin N) (Fin N) α :=
  (List.range count).foldl
    (fun M i =>
      if h : i < N ∧ i < keep.length then
        set_row_at M ⟨i, h.1⟩ keep (fun a => eigenvectors a ⟨i, h.2⟩)
      else M) U

/-- The statement `ed.eigenvectorscols.col(0) *= -1`. -/
def negate_col0 {N : Nat} (hN : 0 < N) (M : Matrix (Fin N) (Fin N) α) :
    Matrix (Fin N) (Fin N) α :=
  fun r c => if c = ⟨0, hN⟩ then -(M r c) else M r c

/-- The last statements of `eigen_problem`: column 0 is negated when an alignment vector is
given and its dot product with column 0 is negative. -/
def align_col0 {N : Nat} (hN : 0 < N) (alignment_v0 : Option (Fin N → α))
    (cols : Matrix (Fin N) (Fin N) α) : Matrix (Fin N) (Fin N) α :=
  match alignment_v0 with
  | some a => if (∑ i, cols i ⟨0, hN⟩ * a i) < 0 then negate_col0 hN cols else cols
  | none => cols

/-- The sign step of the non-degenerate branch: with `ind` the index of the smallest
concentration, `if (eigenvectorscols.col(ind).minCoeff() < 0) eigenvectorscols *= -1.0`. -/
def nondegenerate_cols {N : Nat} (hN : 0 < N) (rhovec : Fin N → α)
    (eigenvectorscols : Matrix (Fin N) (Fin N) α) : Matrix (Fin N) (Fin N) α :=
  let ind := minCoeffIndex hN rhovec
  if minCoeff hN (fun i => eigenvectorscols i ind) < 0 then -eigenvectorscols
  else eigenvectorscols

/-- The matrix `Hprime = H(indicesToKeep, indicesToKeep)` of the single-degenerate branch. -/
def Hprime {N : Nat} (model : Model α N) (T : α) (rhovec : Fin N → α) :
    Matrix (Fin (keep_loop rhovec).1.length) (Fin (keep_loop rhovec).1.length) α :=
  fun a b =>
    Psi_Hessian model T rhovec ((keep_loop rhovec).1.get a) ((keep_loop rhovec).1.get b)

/-- The padded matrix `U` of the single-degenerate branch (eigenvectors as rows): zero, then
the row-filling loop, then `U.row(U.rows() - 1)(badindex) = 1.0`. -/
def padded_U {N : Nat} (hN : 0 < N) (rhovec : Fin N → α)
    (eigenvectors :
      Matrix (Fin (keep_loop rhovec).1.length) (Fin (keep_loop rhovec).1.length) α) :
    Matrix (Fin N) (Fin N) α :=
  let U := fill_rows (N - nonzero_count rhovec) (keep_loop rhovec).1 eigenvectors 0
  match (keep_loop rhovec).2 with
  | some badindex => fun r c => if r = ⟨N - 1, by omega⟩ ∧ c = badindex then 1 else U r c
  | none => U

/-- The returned `EigenData`: `v0` and `v1` are columns 0 and 1 of `eigenvectorscols`. -/
def pack_eigen {N : Nat} (hN : 2 ≤ N) (eigenvalues : List α)
    (cols : Matrix (Fin N) (Fin N) α) : EigenData α N :=
  { v0 := fun i => cols i ⟨0, by omega⟩, v1 := fun i => cols i ⟨1, by omega⟩,
    eigenvalues := eigenvalues, eigenvectorscols := cols }

/-- The function `eigen_problem(model, T, rhovec, alignment_v0)`.  The dimension is at least 2
(`ed.v1 = ed.eigenvectorscols.col(1)` reads column 1). -/
def eigen_problem {N : Nat} (lib : EigenLib α) (model : Model α N) (hN : 2 ≤ N) (T : α)
    (rhovec : Fin N → α) (alignment_v0 : Option (Fin N → α)) : Except Error (EigenData α N) :=
  let H := Psi_Hessian model T rhovec
  if zero_count rhovec = 0 then
    let (eigenvalues, eigenvectorscols) := sorted_eigen lib H
    .ok (pack_eigen hN (List.ofFn eigenvalues)
      (align_col0 (by omega) alignment_v0 (nondegenerate_cols (by omega) rhovec eigenvectorscols)))
  else if zero_count rhovec = 1 then
    let (eigenvalues, eigenvectors) := sorted_eigen lib (Hprime model T rhovec)
    .ok (pack_eigen hN (List.ofFn eigenvalues)
      (align_col0 (by omega) alignment_v0 (padded_U (by omega) rhovec eigenvectors).transpose))
  else
    .error (.invalid_argument
      "More than one non-zero concentration value found; not currently supported")

/-- The struct `psi1derivs`: residual, ideal and total derivatives of orders 0 to 4 along
`v0`, with the eigen-data that gave the direction. -/
structure psi1derivs (α : Type) (N : Nat) where
  psir : Fin 5 → α
  psi0 : Fin 5 → α
  tot : Fin 5 → α
  ei : EigenData α N

/-- The array `psi0_derivs` of `get_derivs` after its loop: entries 0 and 1 are the
placeholder `-1`, entries 2 to 4 accumulate the ideal-gas terms over the species with
`rhovec[i] != 0`. -/
def psi0_derivs {N : Nat} (R T : α) (v0 rhovec : Fin N → α) : Fin 5 → α :=
  (List.finRange N).foldl
    (fun p i =>
      if rhovec i ≠ 0 then
        ![p 0, p 1,
          p 2 + R * T * v0 i ^ 2 / rhovec i,
          p 3 + -R * T * v0 i ^ 3 / rhovec i ^ 2,
          p 4 + 2 * R * T * v0 i ^ 4 / rhovec i ^ 3]
      else p)
    ![-1, -1, 0, 0, 0]

/-- The function `get_derivs(model, T, rhovec, alignment_v0)`. -/
def get_derivs {N : Nat} (lib : EigenLib α) (model : Model α N) (hN : 2 ≤ N) (T : α)
    (rhovec : Fin N → α) (alignment_v0 : Option (Fin N → α)) :
    Except Error (psi1derivs α N) :=
  let R := model.R (molefrac rhovec)
  match eigen_problem lib model hN T rhovec alignment_v0 with
  | .error e => .error e
  | .ok ei =>
    let psi0 := psi0_derivs R T ei.v0 rhovec
    let psir_derivs := model.diff_Psir T rhovec ei.v0
    .ok { psir := psir_derivs, psi0 := psi0, tot := fun k => psi0 k + psir_derivs k, ei := ei }

/-- The function `get_criticality_conditions(model, T, rhovec)`. -/
def get_criticality_conditions {N : Nat} (lib : EigenLib α) (model : Model α N) (hN : 2 ≤ N)
    (T : α) (rhovec : Fin N → α) : Except Error (Fin 2 → α) :=
  match get_derivs lib model hN T rhovec none with
  | .error e => .error e
  | .ok derivs => .ok ![derivs.tot 2, derivs.tot 3]

/-- The perturbation `sigma2 = 2e-5 * rhovec.sum()` along the second eigenvector. -/
def sigma2 (rhovec : Fin 2 → α) : α :=
  2e-5 * vsum rhovec

/-- The array `rhovec_plus = rhovec + ei.v1 * sigma2`. -/
def rhovec_plus (rhovec v1 : Fin 2 → α) : Fin 2 → α :=
  fun i => rhovec i + v1 i * sigma2 rhovec

/-- The array `rhovec_minus = rhovec - ei.v1 * sigma2`. -/
def rhovec_minus (rhovec v1 : Fin 2 → α) : Fin 2 → α :=
  fun i => rhovec i - v1 i * sigma2 rhovec

/-- The array `rhovec_2plus = rhovec + 2 * ei.v1 * sigma2`. -/
def rhovec_2plus (rhovec v1 : Fin 2 → α) : Fin 2 → α :=
  fun i => rhovec i + 2 * v1 i * sigma2 rhovec

/-- The array `rhovec_2minus = rhovec - 2 * ei.v1 * sigma2`. -/
def rhovec_2minus (rhovec v1 : Fin 2 → α) : Fin 2 → α :=
  fun i => rhovec i - 2 * v1 i * sigma2 rhovec

/-- The test `all(eval(v > 0))`. -/
def all_pos (v : Fin 2 → α) : Bool :=
  decide (∀ i, 0 < v i)

/-- The callee `get_derivs(model, ·, ·, ·)` as seen by the binary routines. -/
abbrev GetDerivs (α : Type) := α → (Fin 2 → α) → Option (Fin 2 → α) → Except Error (psi1derivs α 2)

/-- The local variables of `get_drhovec_dT_crit` when it returns. -/
structure DrhovecLocals (α : Type) where
  stepping_desc : String
  deriv_sigma2 : Fin 5 → α
  b : Matrix (Fin 2) (Fin 2) α
  LHS : Matrix (Fin 2) (Fin 2) α
  RHS : Fin 2 → α
  drhovec_dT : Fin 2 → α

/-- The secondary-direction block of `get_drhovec_dT_crit` (the `if / else if / else` on
`rhovec_minus > 0` and `rhovec_plus > 0`): it yields `deriv_sigma2` and `stepping_desc`, or
throws.  `derivs` is `all_derivs.tot` and `ei` is `all_derivs.ei`. -/
def secondary_difference (gd : GetDerivs α) (T : α) (rhovec : Fin 2 → α) (derivs : Fin 5 → α)
    (ei : EigenData α 2) : Except Error ((Fin 5 → α) × String) :=
  let sigma2 := sigma2 rhovec
  let rhovec_plus := rhovec_plus rhovec ei.v1
  let rhovec_minus := rhovec_minus rhovec ei.v1
  if all_pos rhovec_minus && all_pos rhovec_plus then do
    let plus_sigma2 ← gd T rhovec_plus (some ei.v0)
    let minus_sigma2 ← gd T rhovec_minus (some ei.v0)
    pure (fun k => (plus_sigma2.tot k - minus_sigma2.tot k) / (2.0 * sigma2),
      "conventional centered")
  else if all_pos rhovec_plus then do
    let plus_sigma2 ← gd T rhovec_plus (some ei.v0)
    let plus2_sigma2 ← gd T (rhovec_2plus rhovec ei.v1) (some ei.v0)
    pure (fun k => (-3 * derivs k + 4 * plus_sigma2.tot k - plus2_sigma2.tot k) / (2.0 * sigma2),
      "forward")
  else if all_pos rhovec_minus then do
    let minus_sigma2 ← gd T rhovec_minus (some ei.v0)
    let minus2_sigma2 ← gd T (rhovec_2minus rhovec ei.v1) (some ei.v0)
    pure (fun k =>
        (-3 * derivs k + 4 * minus_sigma2.tot k - minus2_sigma2.tot k) / (-2.0 * sigma2),
      "backwards")
  else
    throw (Error.invalid_argument "This is not possible I think.")

/-- The last block of `get_drhovec_dT_crit`: the matrix `b`, the system `LHS`, `RHS` and its
solution by `colPivHouseholderQr().solve`. -/
def tangent_solve (lib : EigenLib α) (derivs derivT : Fin 5 → α) (ei : EigenData α 2)
    (deriv_sigma2 : Fin 5 → α) (stepping_desc : String) : DrhovecLocals α :=
  let b : Matrix (Fin 2) (Fin 2) α := !![derivs 3, derivs 4; deriv_sigma2 2, deriv_sigma2 3]
  let LHS := (ei.eigenvectorscols * b).transpose
  let RHS : Fin 2 → α := ![-derivT 2, -derivT 3]
  let drhovec_dT := lib.colPivHouseholderQr_solve LHS RHS
  { stepping_desc := stepping_desc, deriv_sigma2 := deriv_sigma2, b := b, LHS := LHS,
    RHS := RHS, drhovec_dT := drhovec_dT }

/-- The body of `get_drhovec_dT_crit(model, T, rhovec)`, with `get_derivs(model, …)` as the
callee `gd`; it returns all the locals, `drhovec_dT` being the C++ return value.  The product
`ei.eigenvectorscols * b` with the `2 × 2` matrix `b` fixes the dimension to 2. -/
def get_drhovec_dT_crit_locals (gd : GetDerivs α) (lib : EigenLib α) (T : α)
    (rhovec : Fin 2 → α) : Except Error (DrhovecLocals α) := do
  let all_derivs ← gd T rhovec none
  let derivs := all_derivs.tot
  let dT : α := 1e-7
  let plusT ← gd (T + dT) rhovec none
  let minusT ← gd (T - dT) rhovec none
  let derivT : Fin 5 → α := fun k => (plusT.tot k - minusT.tot k) / (2.0 * dT)
  let ei := all_derivs.ei
  let (deriv_sigma2, stepping_desc) ← secondary_difference gd T rhovec derivs ei
  pure (tangent_solve lib derivs derivT ei deriv_sigma2 stepping_desc)

/-- The function `get_drhovec_dT_crit(model, T, rhovec)`. -/
def get_drhovec_dT_crit (lib : EigenLib α) (model : Model α 2) (T : α) (rhovec : Fin 2 → α) :
    Except Error (Fin 2 → α) :=
  (fun l => l.drhovec_dT) <$>
    get_drhovec_dT_crit_locals (get_derivs lib model (le_refl 2)) lib T rhovec

end Field

section Polish

variable {β : Type} [Add β] [Mul β] [Sub β] [One β] [OfScientific β]

/-- The solver `NewtonRaphson(residual, x0, tol)` of `rootfinding.hpp`, for arguments of
length `n`: it returns a vector or raises. -/
abbrev NewtonSolver (β : Type) :=
  (n : Nat) → ((Fin n → β) → Except Error (Fin n → β)) → (Fin n → β) → β →
    Except Error (Fin n → β)

/-- The callee `get_derivs(model, ·, ·)` over the carrier `β` of the polishers. -/
abbrev GetDerivsB (β : Type) :=
  β → (Fin 2 → β) → Option (Fin 2 → β) → Except Error (psi1derivs β 2)

/-- The function `critical_polish_molefrac(model, T, rhovec, z0)`; `isfinite` is
`std::isfinite`. -/
def critical_polish_molefrac (gd : GetDerivsB β) (NewtonRaphson : NewtonSolver β)
    (isfinite : β → Bool) (T : β) (rhovec : Fin 2 → β) (z0 : β) :
    Except Error (β × (Fin 2 → β)) := do
  let polish_x_resid : (Fin 2 → β) → Except Error (Fin 2 → β) := fun x => do
    let T := x 0
    let rhovec : Fin 2 → β := ![z0 * x 1, (1 - z0) * x 1]
    let derivs ← gd T rhovec none
    pure ![derivs.tot 2, derivs.tot 3]
  let x0 : Fin 2 → β := ![T, rhovec 0 + rhovec 1]
  let _r0 ← polish_x_resid x0
  let x ← NewtonRaphson 2 polish_x_resid x0 1e-10
  let _r ← polish_x_resid x
  if !isfinite (x 0) || !isfinite (x 1) then
    throw (Error.invalid_argument "Something not finite; aborting polishing")
  else
    let rhovecsoln : Fin 2 → β := ![x 1 * z0, x 1 * (1 - z0)]
    pure (x 0, rhovecsoln)

/-- The function `critical_polish_fixedrho(model, T, rhovec, i)`. -/
def critical_polish_fixedrho (gd : GetDerivsB β) (NewtonRaphson : NewtonSolver β)
    (isfinite : β → Bool) (T : β) (rhovec : Fin 2 → β) (i : Fin 2) :
    Except Error (β × (Fin 2 → β)) := do
  let rhoval := rhovec i
  let polish_x_resid : (Fin 3 → β) → Except Error (Fin 3 → β) := fun x => do
    let T := x 0
    let rhovec : Fin 2 → β := ![x 1, x 2]
    let derivs ← gd T rhovec none
    pure ![derivs.tot 2, derivs.tot 3, rhovec i - rhoval]
  let x0 : Fin 3 → β := ![T, rhovec 0, rhovec 1]
  let _r0 ← polish_x_resid x0
  let x ← NewtonRaphson 3 polish_x_resid x0 1e-10
  let _r ← polish_x_resid x
  if !isfinite T || !isfinite (x 1) || !isfinite (x 2) then
    throw (Error.invalid_argument "Something not finite; aborting polishing")
  else
    let rho : Fin 2 → β := ![x 1, x 2]
    pure (x 0, rho)

/-- The function `critical_polish_fixedT(model, T, rhovec)`. -/
def critical_polish_fixedT (gd : GetDerivsB β) (NewtonRaphson : NewtonSolver β)
    (isfinite : β → Bool) (T : β) (rhovec : Fin 2 → β) : Except Error (Fin 2 → β) := do
  let polish_T_resid : (Fin 2 → β) → Except Error (Fin 2 → β) := fun x => do
    let derivs ← gd T x none
    pure ![derivs.tot 2, derivs.tot 3]
  let x0 : Fin 2 → β := rhovec
  let _r0 ← polish_T_resid x0
  let x ← NewtonRaphson 2 polish_T_resid x0 1e-10
  let _r ← polish_T_resid x
  if !isfinite T || !isfinite (x 1) then
    throw (Error.invalid_argument "Something not finite; aborting polishing")
  else
    pure x

end Polish

/-! ## The tracer `trace_critical_arclength_binary` -/

section Tracing

/-- The struct `TCABOptions` with its default member initialisers.  The `int` members are
integers. -/
structure TCABOptions (α : Type) [LinearOrderedField α] where
  abs_err : α := 1.0e-6
  rel_err : α := 1.0e-6
  init_dt : α := 10
  max_dt : α := 10000000000
  T_tol : α := 1e-6
  init_c : α := 1.0
  small_T_count : Int := 5
  integration_order : Int := 5
  max_step_count : Int := 1000
  skip_dircheck_count : Int := 1
  polish : Bool := false

/-- The type `state_type` of the integrators, for the binary tracer: `[T, rho0, rho1]`. -/
abbrev state_type (α : Type) := Fin 3 → α

/-- The enumeration `controlled_step_result` of odeint. -/
inductive controlled_step_result where
  | success
  | fail
  deriving DecidableEq

/-- What the tracer consumes from `boost::numeric::odeint`, for a system function that may
raise.

* `try_step abs_err rel_err sys x t dt` is `controlled_stepper.try_step(sys, x, t, dt)` for the
  Cash-Karp stepper built with the tolerances `abs_err`, `rel_err`: it returns the result code
  and the new values of its three reference arguments `x`, `t`, `dt`, or raises;
* `do_step sys x t dt` is `eul.do_step(sys, x, t, dt)`: it returns the new value of `x`, or
  raises. -/
structure Odeint (α : Type) where
  try_step : α → α → (state_type α → Except Error (state_type α)) → state_type α → α → α →
    Except Error (controlled_step_result × state_type α × α × α)
  do_step : (state_type α → Except Error (state_type α)) → state_type α → α → α →
    Except Error (state_type α)

/-- What the tracer consumes from `IsochoricDerivatives` (`derivs.hpp`), for the model at
hand: `get_pr(model, T, rhovec)` and `get_splus(model, T, rhovec)`. -/
structure IsochoricDerivatives (α : Type) where
  get_pr : α → (Fin 2 → α) → α
  get_splus : α → (Fin 2 → α) → α

/-- Everything `trace_critical_arclength_binary` takes from outside `critical_tracing.hpp`:
the Eigen library, the model with its `IsochoricDerivatives`, `std::sqrt`, the odeint
steppers, and the root-finder and `std::isfinite` used by the polisher. -/
structure Env (α : Type) where
  lib : EigenLib α
  model : Model α 2
  iso : IsochoricDerivatives α
  sqrt : α → α
  stepper : Odeint α
  NewtonRaphson : NewtonSolver α
  isfinite : α → Bool

/-- One JSON object pushed to `JSONdata` by `store_point`, key by key: `t`, `T / K`,
`rho0 / mol/m^3`, `rho1 / mol/m^3`, `c`, `s^+`, `p / Pa`, `dT/dt`, `drho0/dt`, `drho1/dt`,
`lambda1`, `dirderiv(lambda1)/dalpha`. -/
structure TracePoint (α : Type) where
  t : α
  T : α
  rho0 : α
  rho1 : α
  c : α
  splus : α
  p : α
  dTdt : α
  drho0dt : α
  drho1dt : α
  lambda1 : α
  dirderiv : α

/-- The variables of `trace_critical_arclength_binary` that change inside its `for` loop:
`iter`, `retry_count`, `counter_T_converged`, `last_drhodt` (an empty array is `none`), the
state vector `x0` (of which `T` and `rhovec` are views), `t`, `dt` and `JSONdata`. -/
structure TraceState (α : Type) where
  iter : Int
  retry_count : Int
  counter_T_converged : Int
  last_drhodt : Option (Fin 2 → α)
  x0 : state_type α
  t : α
  dt : α
  JSONdata : List (TracePoint α)

/-- How one pass through the body of the `for` loop ends: at its closing brace or at
`continue` (`next`: the loop goes on with `++iter`), or at a `break` (`stop`). -/
inductive Flow (α : Type) where
  | next (st : TraceState α)
  | stop (st : TraceState α)

variable {α : Type} [LinearOrderedField α]

/-- The lambda `dot`. -/
def dot (v1 v2 : Fin 2 → α) : α :=
  vsum (fun i => v1 i * v2 i)

/-- The lambda `norm`; `sqrt` is `std::sqrt`. -/
def norm (sqrt : α → α) (v : Fin 2 → α) : α :=
  sqrt (vsum (fun i => v i * v i))

/-- The lambda `extract_drhodt`: the entries of `dxdt` after the first. -/
def extract_drhodt (dxdt : state_type α) : Fin 2 → α :=
  fun i => dxdt i.succ

/-- The lambda `xprime(x, dxdt, t)`, returning `dxdt`.  It reads the captured variables `c`
and `last_drhodt`. -/
def xprime (env : Env α) (c : α) (last_drhodt : Option (Fin 2 → α)) (x : state_type α) :
    Except Error (state_type α) := do
  let T := x 0
  let rhovec : Fin 2 → α := fun i => x i.succ
  let drhodT ← get_drhovec_dT_crit env.lib env.model T rhovec
  let dTdt := 1.0 / norm env.sqrt drhodT
  let drhodt : Fin 2 → α := fun i => c * (drhodT i * dTdt)
  let dxdt : state_type α := ![c * dTdt, drhodt 0, drhodt 1]
  match last_drhodt with
  | some last =>
    let rhodot := dot drhodt last
    if rhodot < 0 then pure (fun i => dxdt i * -1) else pure dxdt
  | none => pure dxdt

/-- The lambda `get_dxdt`. -/
def get_dxdt (env : Env α) (c : α) (last_drhodt : Option (Fin 2 → α)) (x : state_type α) :
    Except Error (state_type α) :=
  xprime env c last_drhodt x

/-- The lambda `store_drhodt(x0)`, returning the new value of `last_drhodt`. -/
def store_drhodt (env : Env α) (c : α) (last_drhodt : Option (Fin 2 → α)) (x0 : state_type α) :
    Except Error (Option (Fin 2 → α)) := do
  let dxdt ← get_dxdt env c last_drhodt x0
  pure (some (extract_drhodt dxdt))

/-- The JSON object `point` built by `store_point()` from the current variables, the
criticality `conditions` and the derivative `dxdt`. -/
def trace_point (env : Env α) (c : α) (x0 : state_type α) (t : α) (conditions : Fin 2 → α)
    (dxdt : state_type α) : TracePoint α :=
  let T := x0 0
  let rhovec : Fin 2 → α := fun i => x0 i.succ
  let rhotot := vsum rhovec
  { t := t, T := T, rho0 := rhovec 0, rho1 := rhovec 1, c := c,
    splus := env.iso.get_splus T rhovec,
    p := rhotot * env.model.R (fun i => rhovec i / vsum rhovec) * T + env.iso.get_pr T rhovec,
    dTdt := dxdt 0, drho0dt := dxdt 1, drho1dt := dxdt 2,
    lambda1 := conditions 0, dirderiv := conditions 1 }

/-- The lambda `store_point()`, returning `JSONdata` after the `push_back`. -/
def store_point (env : Env α) (c : α) (last_drhodt : Option (Fin 2 → α)) (x0 : state_type α)
    (t : α) (JSONdata : List (TracePoint α)) : Except Error (List (TracePoint α)) := do
  let T := x0 0
  let rhovec : Fin 2 → α := fun i => x0 i.succ
  let conditions ← get_criticality_conditions env.lib env.model (le_refl 2) T rhovec
  let dxdt ← xprime env c last_drhodt x0
  pure (JSONdata ++ [trace_point env c x0 t conditions dxdt])

/-- The lambda `write_line()`: the line goes to the console and the file; what remains is the
evaluation of `get_criticality_conditions`, which may raise. -/
def write_line (env : Env α) (x0 : state_type α) : Except Error Unit := do
  let T := x0 0
  let rhovec : Fin 2 → α := fun i => x0 i.succ
  let _conditions ← get_criticality_conditions env.lib env.model (le_refl 2) T rhovec
  pure ()

/-- The test `z0 < 0 || z0 > 1` of the loop on a state vector, with
`z0 = rhovec[0] / rhovec.sum()`. -/
def z0_outside (x0 : state_type α) : Bool :=
  let rhovec : Fin 2 → α := fun i => x0 i.succ
  let z0 := rhovec 0 / vsum rhovec
  decide (z0 < 0 ∨ z0 > 1)

/-- The block `if (options.polish) { try { ... } catch (std::exception&) { ... } }`, returning
the state vector after it: the polished values, or the unchanged state when polishing is off
or raises. -/
def polish_block (env : Env α) (options : TCABOptions α) (x0 : state_type α) : state_type α :=
  let rhovec : Fin 2 → α := fun i => x0 i.succ
  let z0 := rhovec 0 / vsum rhovec
  if options.polish then
    match critical_polish_molefrac (get_derivs env.lib env.model (le_refl 2))
        env.NewtonRaphson env.isfinite (x0 0) rhovec z0 with
    | .ok (Tnew, rhovecnew) => ![Tnew, rhovecnew 0, rhovecnew 1]
    | .error _ => x0
  else x0

/-- The block "Check if T has stopped changing", returning the new `counter_T_converged`. -/
def small_T_counter (options : TCABOptions α) (x0 x_start_step : state_type α)
    (counter_T_converged : Int) : Int :=
  let actualstep : state_type α := fun i => x0 i - x_start_step i
  if |actualstep 0| < options.T_tol then counter_T_converged + 1 else 0

/-- The statement `if (iter >= options.skip_dircheck_count) { store_drhodt(x_start_step); }`,
returning `last_drhodt` after it. -/
def direction_block (env : Env α) (options : TCABOptions α) (c : α) (st : TraceState α)
    (x_start_step : state_type α) : Except Error (Option (Fin 2 → α)) :=
  if st.iter ≥ options.skip_dircheck_count then store_drhodt env c st.last_drhodt x_start_step
  else pure st.last_drhodt

/-- The statement `if (!filename.empty()) { write_line(); }`. -/
def write_line_block (env : Env α) (filename : String) (x0 : state_type α) :
    Except Error Unit :=
  if filename ≠ "" then write_line env x0 else pure ()

/-- The statement `if (iter == 0 && retry_count == 0) { store_point(); }`, returning
`JSONdata` after it. -/
def first_point_block (env : Env α) (c : α) (st : TraceState α) :
    Except Error (List (TracePoint α)) :=
  if st.iter = 0 ∧ st.retry_count = 0 then
    store_point env c st.last_drhodt st.x0 st.t st.JSONdata
  else pure st.JSONdata

/-- The body of the `for` loop from the first mole-fraction test (`auto z0 = ...`) to its
closing brace, entered after an accepted integrator step: `st` holds the variables after the
step and `x_start_step` is the state vector copied before it. -/
def after_step (env : Env α) (options : TCABOptions α) (filename : String) (c : α)
    (st : TraceState α) (x_start_step : state_type α) : Except Error (Flow α) := do
  if z0_outside st.x0 then
    pure (.stop st)
  else
    let x0 := polish_block env options st.x0
    let last_drhodt ← direction_block env options c st x_start_step
    let counter_T_converged := small_T_counter options x0 x_start_step st.counter_T_converged
    let st1 : TraceState α :=
      { st with x0 := x0, last_drhodt := last_drhodt, counter_T_converged := counter_T_converged }
    if z0_outside x0 then
      pure (.stop st1)
    else
      write_line_block env filename x0
      let JSONdata ← store_point env c last_drhodt x0 st.t st.JSONdata
      let st2 : TraceState α := { st1 with JSONdata := JSONdata }
      if counter_T_converged > options.small_T_count then pure (.stop st2) else pure (.next st2)

/-- The body of the `for` loop. -/
def loop_body (env : Env α) (options : TCABOptions α) (filename : String) (c : α)
    (st : TraceState α) : Except Error (Flow α) := do
  let _dxdt_start_step ← get_dxdt env c st.last_drhodt st.x0
  let x_start_step := st.x0
  let JSONdata ← first_point_block env c st
  if options.integration_order = 5 then
    match env.stepper.try_step options.abs_err options.rel_err (xprime env c st.last_drhodt)
        st.x0 st.t st.dt with
    | .error _ => pure (.stop { st with JSONdata := JSONdata })
    | .ok (res, x0, t, dt) =>
      if res ≠ .success then
        pure (.next { st with iter := st.iter - 1, retry_count := st.retry_count + 1,
                              x0 := x0, t := t, dt := dt, JSONdata := JSONdata })
      else
        after_step env options filename c
          { st with retry_count := 0, x0 := x0, t := t, dt := min dt options.max_dt,
                    JSONdata := JSONdata } x_start_step
  else if options.integration_order = 1 then
    match env.stepper.do_step (xprime env c st.last_drhodt) st.x0 st.t st.dt with
    | .error _ => pure (.stop { st with JSONdata := JSONdata })
    | .ok x0 =>
      after_step env options filename c
        { st with x0 := x0, t := st.t + st.dt, JSONdata := JSONdata } x_start_step
  else
    throw (Error.invalid_argument
      ("integration order is invalid:" ++ toString options.integration_order))

/-- The `for` loop, from a test of `iter < options.max_step_count` on, followed by
`return JSONdata`.  The C++ loop has no bound on the number of passes (a rejected step does not
advance `iter`); `fuel` bounds them here, and `none` is the loop still running when the fuel
is spent. -/
def trace_loop (env : Env α) (options : TCABOptions α) (filename : String) (c : α) :
    Nat → TraceState α → Option (Except Error (List (TracePoint α)))
  | 0, _ => none
  | fuel + 1, st =>
    if st.iter < options.max_step_count then
      match loop_body env options filename c st with
      | .error e => some (.error e)
      | .ok (.stop st1) => some (.ok st1.JSONdata)
      | .ok (.next st1) => trace_loop env options filename c fuel { st1 with iter := st1.iter + 1 }
    else some (.ok st.JSONdata)

/-- The block "Determine the initial direction of integration": the value of `c` after it. -/
def initial_direction (env : Env α) (options : TCABOptions α) (x0 : state_type α) :
    Except Error α := do
  let c := options.init_c
  let dt := options.init_dt
  let dxdt ← get_dxdt env c none x0
  let step : Fin 2 → α := fun i => x0 i.succ + extract_drhodt dxdt i * dt
  if ∃ i, step i < 0 then pure (c * -1) else pure c

/-- The variables of the tracer when the `for` loop is entered. -/
def initial_state (options : TCABOptions α) (T0 : α) (rhovec0 : Fin 2 → α) : TraceState α :=
  { iter := 0, retry_count := 0, counter_T_converged := 0, last_drhodt := none,
    x0 := ![T0, rhovec0 0, rhovec0 1], t := 0, dt := options.init_dt, JSONdata := [] }

/-- The function `trace_critical_arclength_binary(model, T0, rhovec0, filename_, options_)`,
returning `JSONdata`; an absent optional argument is `none`.  See `trace_loop` for `fuel`. -/
def trace_critical_arclength_binary (env : Env α) (fuel : Nat) (T0 : α) (rhovec0 : Fin 2 → α)
    (filename_ : Option String) (options_ : Option (TCABOptions α)) :
    Option (Except Error (List (TracePoint α))) :=
  let filename := filename_.getD ""
  let options := options_.getD {}
  let st := initial_state options T0 rhovec0
  match initial_direction env options st.x0 with
  | .error e => some (.error e)
  | .ok c =>
    match write_line_block env filename st.x0 with
    | .error e => some (.error e)
    | .ok _ => trace_loop env options filename c fuel st

end Tracing

/-! ## Contracts of the consumed oracles, as predicates -/

section Contracts

variable {α : Type} [LinearOrderedField α]

/-- The columns of `E` are orthonormal: `col i · col j` is 1 for `i = j` and 0 otherwise. -/
def orthonormal_cols {m : Nat} (E : Matrix (Fin m) (Fin m) α) : Prop :=
  ∀ i j, ∑ k, E k i * E k j = if i = j then 1 else 0

/-- Column `j` of `E` is an eigenvector of `H` for the eigenvalue `lam j`, for every `j`. -/
def eigen_columns {m : Nat} (H : Matrix (Fin m) (Fin m) α) (lam : Fin m → α)
    (E : Matrix (Fin m) (Fin m) α) : Prop :=
  ∀ j i, ∑ k, H i k * E k j = lam j * E i j

/-- The callee `gd` made to refuse every composition that has a negative concentration: it
is used to state that a routine never evaluates `gd` at such a composition. -/
def nonneg_guard (gd : GetDerivs α) : GetDerivs α :=
  fun T rho a =>
    if ∀ i, 0 ≤ rho i then gd T rho a
    else .error (.invalid_argument "negative concentration")

/-- The variables carried by a pass through the loop body, however it ends. -/
def Flow.state : Flow α → TraceState α
  | .next st => st
  | .stop st => st

/-- Whether a pass through the loop body ends at a `break`. -/
def Flow.stops : Flow α → Bool
  | .next _ => false
  | .stop _ => true

/-- The mole fraction `z0 = rho0 / (rho0 + rho1)` of a recorded point passes the test of the
loop: neither `z0 < 0` nor `z0 > 1`. -/
def in_domain (p : TracePoint α) : Prop :=
  ¬ (p.rho0 / (p.rho0 + p.rho1) < 0 ∨ p.rho0 / (p.rho0 + p.rho1) > 1)

/-- The vector `c * (1, drhodT) / ||drhodT||` over the state `[T, rho0, rho1]`: the local
derivative before the direction test of `xprime`. -/
def unit_tangent (sqrt : α → α) (c : α) (drhodT : Fin 2 → α) : state_type α :=
  fun i => c * (![1, drhodT 0, drhodT 1] : Fin 3 → α) i / norm sqrt drhodT

/-- The states at the head of the `for` loop in a run that enters the loop at `st0`: `st0`
itself, and the state after `++iter` that follows a pass ended at the closing brace or at
`continue`. -/
inductive reaches (env : Env α) (o : TCABOptions α) (f : String) (c : α) (st0 : TraceState α) :
    TraceState α → Prop where
  | start : reaches env o f c st0 st0
  | pass (st st1 : TraceState α) : reaches env o f c st0 st → st.iter < o.max_step_count →
      loop_body env o f c st = .ok (.next st1) →
      reaches env o f c st0 { st1 with iter := st1.iter + 1 }

/-- The list `J` holds the point of the initial state `(T0, rhovec0)` followed by `n` points,
each recorded with the sign `c` and a mole fraction that passed the test of the loop. -/
def recorded (env : Env α) (c T0 : α) (rhovec0 : Fin 2 → α) (J : List (TracePoint α))
    (n : Int) : Prop :=
  ∃ p0 rest, store_point env c none ![T0, rhovec0 0, rhovec0 1] 0 [] = .ok [p0] ∧
    J = p0 :: rest ∧ (rest.length : Int) = n ∧ ∀ p ∈ rest, in_domain p ∧ p.c = c

/-- The invariant of the `for` loop, at its head: the counters are not negative, the
small-step counter has not passed `small_T_count`, and either nothing has happened yet (the
variables are the initial ones) or `JSONdata` holds the initial point and one point per
completed pass, for a positive `max_step_count`. -/
def loop_inv (env : Env α) (o : TCABOptions α) (c T0 : α) (rhovec0 : Fin 2 → α)
    (st : TraceState α) : Prop :=
  0 ≤ st.iter ∧ 0 ≤ st.retry_count ∧ 0 ≤ st.counter_T_converged ∧
  (st.counter_T_converged = 0 ∨ st.counter_T_converged ≤ o.small_T_count) ∧
  (st = initial_state o T0 rhovec0 ∨
    (¬ (st.iter = 0 ∧ st.retry_count = 0) ∧ 1 ≤ o.max_step_count ∧
      st.iter ≤ o.max_step_count ∧ recorded env c T0 rhovec0 st.JSONdata st.iter))

end Contracts

/-! ## Concrete inputs used to evaluate the definitions -/

section Fixtures

variable (α : Type) [LinearOrderedField α]

/-- A library instance for evaluation: the eigen-solver reads the eigenvalues off the diagonal
and returns the identity basis (exact on a diagonal matrix with ascending diagonal); the
linear solve is Cramer's rule, with the zero vector for a singular matrix. -/
def diag_lib : EigenLib α where
  eigenvalues := fun _ H i => H i i
  eigenvectors := fun _ _ => 1
  colPivHouseholderQr_solve := fun A y =>
    if A 0 0 * A 1 1 - A 0 1 * A 1 0 = 0 then 0
    else ![(y 0 * A 1 1 - A 0 1 * y 1) / (A 0 0 * A 1 1 - A 0 1 * A 1 0),
           (A 0 0 * y 1 - y 0 * A 1 0) / (A 0 0 * A 1 1 - A 0 1 * A 1 0)]

/-- A model instance for evaluation: gas constant 1 and a vanishing residual part, so that
the residual Hessian and all residual derivatives are 0. -/
def ideal_gas (N : Nat) : Model α N where
  R := fun _ => 1
  build_Psir_Hessian := fun _ _ => 0
  diff_Psir := fun _ _ _ _ => 0

/-- A library instance for evaluation whose eigen-solver returns the eigenvalues `0, 25` and
the unit eigenvectors `(3/5, -4/5)` and `(4/5, 3/5)` as columns: the exact decomposition of
the symmetric matrix `[[16, 12], [12, 9]]`. -/
def rot_lib : EigenLib α where
  eigenvalues := fun _ _ i => if i.val = 0 then 0 else 25
  eigenvectors := fun _ _ i j =>
    if i.val = 0 then (if j.val = 0 then 3 / 5 else 4 / 5)
    else (if j.val = 0 then -4 / 5 else 3 / 5)
  colPivHouseholderQr_solve := fun _ _ => 0

/-- A binary model instance for evaluation: gas constant 1 and the quadratic residual
potential `Psir = 15/2 * rho0^2 + 12 * rho0 * rho1 + 17/4 * rho1^2`, of constant Hessian
`[[15, 12], [12, 17/2]]`; at `T = 1`, `rhovec = (1, 2)` the full matrix `H` is
`[[16, 12], [12, 9]]`. -/
def coupled_model : Model α 2 where
  R := fun _ => 1
  build_Psir_Hessian := fun _ _ => !![15, 12; 12, 17 / 2]
  diff_Psir := fun _ rho v =>
    ![15 / 2 * rho 0 ^ 2 + 12 * rho 0 * rho 1 + 17 / 4 * rho 1 ^ 2,
      (15 * rho 0 + 12 * rho 1) * v 0 + (12 * rho 0 + 17 / 2 * rho 1) * v 1,
      15 * v 0 ^ 2 + 24 * v 0 * v 1 + 17 / 2 * v 1 ^ 2, 0, 0]

/-- A carrier for evaluating the polishers: a finite rational value, or the non-finite
value NaN, which every arithmetic operation propagates. -/
inductive Dbl where
  | fin (q : ℚ)
  | nan
  deriving DecidableEq

/-- Addition on `Dbl`, NaN-propagating. -/
def Dbl.add : Dbl → Dbl → Dbl
  | .fin a, .fin b => .fin (a + b)
  | _, _ => .nan

/-- Multiplication on `Dbl`, NaN-propagating. -/
def Dbl.mul : Dbl → Dbl → Dbl
  | .fin a, .fin b => .fin (a * b)
  | _, _ => .nan

/-- Subtraction on `Dbl`, NaN-propagating. -/
def Dbl.sub : Dbl → Dbl → Dbl
  | .fin a, .fin b => .fin (a - b)
  | _, _ => .nan

instance : Add Dbl := ⟨Dbl.add⟩

instance : Mul Dbl := ⟨Dbl.mul⟩

instance : Sub Dbl := ⟨Dbl.sub⟩

instance : One Dbl := ⟨.fin 1⟩

instance : OfScientific Dbl := ⟨fun m s e => .fin (OfScientific.ofScientific m s e)⟩

/-- The test `std::isfinite` on `Dbl`. -/
def Dbl.isfinite : Dbl → Bool
  | .fin _ => true
  | .nan => false

/-- A callee for evaluating the polishers: `get_derivs` of a model whose derivatives all
vanish; it never raises. -/
def flat_derivs : GetDerivsB Dbl :=
  fun _ _ _ =>
    .ok { psir := fun _ => .fin 0, psi0 := fun _ => .fin 0, tot := fun _ => .fin 0,
          ei := { v0 := ![.fin 1, .fin 0], v1 := ![.fin 0, .fin 1], eigenvalues := [.fin 0],
                  eigenvectorscols := fun i j => if i = j then .fin 1 else .fin 0 } }

/-- A root-finder for evaluating the polishers: it returns the initial guess with coordinate 0
replaced by NaN (an iteration that diverged in its first unknown). -/
def nan_solver : NewtonSolver Dbl :=
  fun _ _ x0 _ => .ok (fun i => if i.val = 0 then .nan else x0 i)

/-- A binary model instance for evaluation, with gas constant 1 and the polynomial residual
potential
`Psir(T, rho) = a2 * rho0^2 / 2 + a3 * rho0^3 / 6 + rho0^4 / 24 + (rho0 - 1)^2 * rho1 / 2`,
`a2 = -5/2 + 11 * (T - 1)`, `a3 = -8 * (T - 1)`.  Its Hessian and its derivatives along a line
are written out.  The mixed second derivative `rho0 - 1` vanishes where `rho0 = 1`, so the
total Hessian is diagonal there; at `T = 1`, `rhovec = (1, 1)` the order-2 and order-3 total
derivatives along `(1, 0)` both vanish (a critical point). -/
def crit_model : Model α 2 where
  R := fun _ => 1
  build_Psir_Hessian := fun T rho =>
    !![-5 / 2 + 11 * (T - 1) + -8 * (T - 1) * rho 0 + rho 0 ^ 2 / 2 + rho 1, rho 0 - 1;
       rho 0 - 1, 0]
  diff_Psir := fun T rho v =>
    ![(-5 / 2 + 11 * (T - 1)) * rho 0 ^ 2 / 2 + -8 * (T - 1) * rho 0 ^ 3 / 6 + rho 0 ^ 4 / 24 +
        (rho 0 - 1) ^ 2 * rho 1 / 2,
      ((-5 / 2 + 11 * (T - 1)) * rho 0 + -8 * (T - 1) * rho 0 ^ 2 / 2 + rho 0 ^ 3 / 6) * v 0 +
        (rho 0 - 1) * v 0 * rho 1 + (rho 0 - 1) ^ 2 * v 1 / 2,
      (-5 / 2 + 11 * (T - 1) + -8 * (T - 1) * rho 0 + rho 0 ^ 2 / 2) * v 0 ^ 2 + v 0 ^ 2 * rho 1 +
        2 * (rho 0 - 1) * v 0 * v 1,
      (-8 * (T - 1) + rho 0) * v 0 ^ 3 + 3 * v 0 ^ 2 * v 1,
      v 0 ^ 4]

/-- A square root on the rationals for evaluation: exact on the squares of rationals (the
integer square roots of numerator and denominator). -/
def rat_sqrt (q : ℚ) : ℚ :=
  (Nat.sqrt q.num.toNat : ℚ) / (Nat.sqrt q.den : ℚ)

/-- Steppers for evaluation.  `do_step` is the explicit Euler step `x + dt * sys(x)`.
`try_step` is a two-stage stand-in for the controlled stepper: it evaluates `sys` at `x` and at
the half-step state `x + dt / 2 * sys(x)`, then rejects a step longer than 1, halving `dt`, and
otherwise takes the Euler step and advances `t`.  Both raise when an evaluation of `sys`
raises. -/
def toy_odeint : Odeint α where
  try_step := fun _ _ sys x t dt =>
    match sys x with
    | .error e => .error e
    | .ok k1 =>
      match sys (fun i => x i + dt / 2 * k1 i) with
      | .error e => .error e
      | .ok _ =>
        if 1 < dt then .ok (.fail, x, t, dt / 2)
        else .ok (.success, fun i => x i + dt * k1 i, t + dt, dt)
  do_step := fun sys x _ dt =>
    match sys x with
    | .error e => .error e
    | .ok dxdt => .ok (fun i => x i + dt * dxdt i)

/-- The environment used for evaluation: the solver `diag_lib`, the model `crit_model`,
recorded pressure and entropy terms 0, the square root `rat_sqrt`, the steppers `toy_odeint`,
a root-finder that returns its initial guess, and every value finite. -/
def crit_env : Env ℚ where
  lib := diag_lib ℚ
  model := crit_model ℚ
  iso := { get_pr := fun _ _ => 0, get_splus := fun _ _ => 0 }
  sqrt := rat_sqrt
  stepper := toy_odeint ℚ
  NewtonRaphson := fun _ _ x0 _ => .ok x0
  isfinite := fun _ => true

end Fixtures

/-! ## Theorems -/

section Theorems

variable {α : Type} [LinearOrderedField α]

/-! ### Counting zero concentrations; the three outcomes of `eigen_problem` -/

/-- The value `mask.count()` is the number of non-zero concentrations. -/
theorem nonzero_count_eq_card {N : Nat} (rhovec : Fin N → α) :
    nonzero_count rhovec = (Finset.univ.filter (fun i => rhovec i ≠ 0)).card := by
  have : mask rhovec = fun b => !decide (rhovec b = 0) := by
    funext b; simp [mask]
  simp [nonzero_count, Finset.card, Finset.filter, Fin.univ_def, List.countP_eq_length_filter, this]

/-- The value `zero_count` is the number of exactly-zero concentrations. -/
theorem zero_count_eq_card {N : Nat} (rhovec : Fin N → α) :
    zero_count rhovec = (Finset.univ.filter (fun i => rhovec i = 0)).card := by
  have h := Finset.filter_card_add_filter_neg_card_eq_card (s := (Finset.univ : Finset (Fin N)))
    (fun i => rhovec i = 0)
  simp only [Finset.card_univ, Fintype.card_fin] at h
  rw [zero_count, nonzero_count_eq_card]
  simp only [ne_eq]
  omega

/-- No zero concentration: `zero_count = 0`. -/
theorem zero_count_eq_zero_of_ne {N : Nat} (rhovec : Fin N → α) (h : ∀ i, rhovec i ≠ 0) :
    zero_count rhovec = 0 := by
  rw [zero_count_eq_card]
  simp [h]

/-- Exactly one zero concentration, at `k`: `zero_count = 1`. -/
theorem zero_count_one_of_unique {N : Nat} (rhovec : Fin N → α) (k : Fin N) (hk : rhovec k = 0)
    (hne : ∀ i, i ≠ k → rhovec i ≠ 0) : zero_count rhovec = 1 := by
  rw [zero_count_eq_card]
  have : Finset.univ.filter (fun i => rhovec i = 0) = {k} := by
    ext i
    simp only [Finset.mem_filter, Finset.mem_univ, true_and, Finset.mem_singleton]
    constructor
    · intro h; by_contra hik; exact hne i hik h
    · rintro rfl; exact hk
  rw [this, Finset.card_singleton]

/-- The result of `eigen_problem` in the non-degenerate regime. -/
theorem eigen_problem_of_zero {N : Nat} (lib : EigenLib α) (model : Model α N) (hN : 2 ≤ N)
    (T : α) (rhovec : Fin N → α) (alignment_v0 : Option (Fin N → α))
    (h : zero_count rhovec = 0) :
    eigen_problem lib model hN T rhovec alignment_v0 =
      .ok (pack_eigen hN (List.ofFn (lib.eigenvalues N (Psi_Hessian model T rhovec)))
        (align_col0 (by omega) alignment_v0
          (nondegenerate_cols (by omega) rhovec
            (lib.eigenvectors N (Psi_Hessian model T rhovec))))) := by
  simp [eigen_problem, h, sorted_eigen]

/-- The result of `eigen_problem` in the single-degenerate regime. -/
theorem eigen_problem_of_one {N : Nat} (lib : EigenLib α) (model : Model α N) (hN : 2 ≤ N)
    (T : α) (rhovec : Fin N → α) (alignment_v0 : Option (Fin N → α))
    (h : zero_count rhovec = 1) :
    eigen_problem lib model hN T rhovec alignment_v0 =
      .ok (pack_eigen hN (List.ofFn (lib.eigenvalues _ (Hprime model T rhovec)))
        (align_col0 (by omega) alignment_v0
          (padded_U (by omega) rhovec
            (lib.eigenvectors _ (Hprime model T rhovec))).transpose)) := by
  simp [eigen_problem, h, sorted_eigen]

/-- The result of `eigen_problem` with two or more zero concentrations: the error. -/
theorem eigen_problem_of_many {N : Nat} (lib : EigenLib α) (model : Model α N) (hN : 2 ≤ N)
    (T : α) (rhovec : Fin N → α) (alignment_v0 : Option (Fin N → α))
    (h : 2 ≤ zero_count rhovec) :
    eigen_problem lib model hN T rhovec alignment_v0 =
      .error (.invalid_argument
        "More than one non-zero concentration value found; not currently supported") := by
  have h0 : zero_count rhovec ≠ 0 := by omega
  have h1 : zero_count rhovec ≠ 1 := by omega
  simp [eigen_problem, h0, h1]

/-- The eigenvalues returned by `eigen_problem` do not depend on the alignment vector. -/
theorem eigenvalues_alignment {N : Nat} (lib : EigenLib α) (model : Model α N) (hN : 2 ≤ N)
    (T : α) (rhovec : Fin N → α) (a b : Option (Fin N → α)) (ea eb : EigenData α N)
    (ha : eigen_problem lib model hN T rhovec a = .ok ea)
    (hb : eigen_problem lib model hN T rhovec b = .ok eb) :
    ea.eigenvalues = eb.eigenvalues := by
  rcases Nat.lt_or_ge (zero_count rhovec) 2 with hz | hz
  · have h' : zero_count rhovec = 0 ∨ zero_count rhovec = 1 := by omega
    rcases h' with h' | h'
    · rw [eigen_problem_of_zero lib model hN T rhovec _ h'] at ha hb
      simp only [Except.ok.injEq] at ha hb
      rw [← ha, ← hb]
      rfl
    · rw [eigen_problem_of_one lib model hN T rhovec _ h'] at ha hb
      simp only [Except.ok.injEq] at ha hb
      rw [← ha, ← hb]
      rfl
  · rw [eigen_problem_of_many lib model hN T rhovec _ hz] at ha
    simp at ha

/-- The result of `get_derivs` once `eigen_problem` has returned. -/
theorem get_derivs_of_eigen {N : Nat} (lib : EigenLib α) (model : Model α N) (hN : 2 ≤ N)
    (T : α) (rhovec : Fin N → α) (a : Option (Fin N → α)) (ei : EigenData α N)
    (h : eigen_problem lib model hN T rhovec a = .ok ei) :
    get_derivs lib model hN T rhovec a =
      .ok { psir := model.diff_Psir T rhovec ei.v0,
            psi0 := psi0_derivs (model.R (molefrac rhovec)) T ei.v0 rhovec,
            tot := fun k => psi0_derivs (model.R (molefrac rhovec)) T ei.v0 rhovec k +
              model.diff_Psir T rhovec ei.v0 k,
            ei := ei } := by
  simp [get_derivs, h]

/-- With no zero concentration `get_derivs` returns. -/
theorem get_derivs_ok_of_pos {N : Nat} (lib : EigenLib α) (model : Model α N) (hN : 2 ≤ N)
    (T : α) (rhovec : Fin N → α) (a : Option (Fin N → α)) (h : ∀ i, rhovec i ≠ 0) :
    ∃ d, get_derivs lib model hN T rhovec a = .ok d :=
  ⟨_, get_derivs_of_eigen lib model hN T rhovec a _
    (eigen_problem_of_zero lib model hN T rhovec a (zero_count_eq_zero_of_ne rhovec h))⟩

/-- The field `ei` returned by `get_derivs` is the result of `eigen_problem`. -/
theorem get_derivs_ei {N : Nat} (lib : EigenLib α) (model : Model α N) (hN : 2 ≤ N)
    (T : α) (rhovec : Fin N → α) (a : Option (Fin N → α)) (d : psi1derivs α N)
    (hd : get_derivs lib model hN T rhovec a = .ok d) :
    eigen_problem lib model hN T rhovec a = .ok d.ei := by
  unfold get_derivs at hd
  cases he : eigen_problem lib model hN T rhovec a with
  | error e => rw [he] at hd; simp at hd
  | ok ei =>
    rw [he] at hd
    simp only [Except.ok.injEq] at hd
    rw [← hd]

/-- The only error of `get_derivs` is the one of `eigen_problem`. -/
theorem get_derivs_error {N : Nat} (lib : EigenLib α) (model : Model α N) (hN : 2 ≤ N)
    (T : α) (rhovec : Fin N → α) (a : Option (Fin N → α)) (e : Error)
    (h : get_derivs lib model hN T rhovec a = .error e) :
    e = .invalid_argument
      "More than one non-zero concentration value found; not currently supported" := by
  unfold get_derivs at h
  rcases Nat.lt_or_ge (zero_count rhovec) 2 with hz | hz
  · have h' : zero_count rhovec = 0 ∨ zero_count rhovec = 1 := by omega
    rcases h' with h' | h'
    · rw [eigen_problem_of_zero lib model hN T rhovec a h'] at h
      simp at h
    · rw [eigen_problem_of_one lib model hN T rhovec a h'] at h
      simp at h
  · rw [eigen_problem_of_many lib model hN T rhovec a hz] at h
    simp at h
    exact h.symm

/-! ### The loops and sign steps of `eigen_problem` -/

/-- The fold of `keep_loop` from any state: kept indices are appended in order. -/
theorem keep_fold_fst {N : Nat} (rhovec : Fin N → α) (l : List (Fin N))
    (st : List (Fin N) × Option (Fin N)) :
    (l.foldl (fun st i => if mask rhovec i = true then (st.1 ++ [i], st.2) else (st.1, some i))
      st).1 = st.1 ++ l.filter (mask rhovec) := by
  induction l generalizing st with
  | nil => simp
  | cons a t ih =>
    rw [List.foldl_cons, ih]
    by_cases h : mask rhovec a = true <;> simp [h, List.filter_cons]

/-- The fold of `keep_loop` from any state: `badindex` ends at the zero-concentration index
when the list holds one, and is unchanged otherwise. -/
theorem keep_fold_snd {N : Nat} (rhovec : Fin N → α) (k : Fin N) (l : List (Fin N))
    (hl : ∀ i ∈ l, mask rhovec i = false → i = k)
    (st : List (Fin N) × Option (Fin N)) :
    (l.foldl (fun st i => if mask rhovec i = true then (st.1 ++ [i], st.2) else (st.1, some i))
      st).2 = if ∃ i ∈ l, mask rhovec i = false then some k else st.2 := by
  induction l generalizing st with
  | nil => simp
  | cons a t ih =>
    rw [List.foldl_cons, ih (fun i hi => hl i (List.mem_cons_of_mem _ hi))]
    by_cases h : mask rhovec a = true
    · simp [h]
    · have hk : a = k := hl a (List.mem_cons_self _ _) (by simpa using h)
      have hf : mask rhovec k = false := by simpa [hk] using h
      simp [hk, hf]

/-- The list `indicesToKeep` is the list of the indices with `mask[i]`, in order. -/
theorem keep_loop_fst {N : Nat} (rhovec : Fin N → α) :
    (keep_loop rhovec).1 = (List.finRange N).filter (mask rhovec) := by
  simp [keep_loop, keep_fold_fst]

/-- With exactly one zero concentration, at `k`, `badindex = k`. -/
theorem keep_loop_snd {N : Nat} (rhovec : Fin N → α) (k : Fin N) (hk : rhovec k = 0)
    (hne : ∀ i, i ≠ k → rhovec i ≠ 0) : (keep_loop rhovec).2 = some k := by
  rw [keep_loop, keep_fold_snd rhovec k]
  · rw [if_pos]
    exact ⟨k, List.mem_finRange k, by simp [mask, hk]⟩
  · intro i _ hi
    by_contra h
    simp [mask, hne i h] at hi

/-- The list `indicesToKeep` has no repetition. -/
theorem keep_nodup {N : Nat} (rhovec : Fin N → α) : (keep_loop rhovec).1.Nodup := by
  rw [keep_loop_fst]
  exact (List.nodup_finRange N).filter _

/-- Membership in `indicesToKeep`. -/
theorem mem_keep_iff {N : Nat} (rhovec : Fin N → α) (i : Fin N) :
    i ∈ (keep_loop rhovec).1 ↔ rhovec i ≠ 0 := by
  rw [keep_loop_fst]
  simp [mask]

/-- The length of `indicesToKeep` is `nonzero_count`. -/
theorem keep_length {N : Nat} (rhovec : Fin N → α) :
    (keep_loop rhovec).1.length = nonzero_count rhovec := by
  rw [keep_loop_fst, nonzero_count, List.countP_eq_length_filter]

/-- In the single-degenerate regime and dimension at least 2, `indicesToKeep` is not empty. -/
theorem keep_length_pos {N : Nat} (hN : 2 ≤ N) (rhovec : Fin N → α)
    (hz : zero_count rhovec = 1) : 0 < (keep_loop rhovec).1.length := by
  rw [keep_length]
  have h1 : nonzero_count rhovec ≤ N := by
    unfold nonzero_count
    have := List.countP_le_length (mask rhovec) (l := List.finRange N)
    simpa using this
  unfold zero_count at hz
  omega

/-- A sum over all species of a function that vanishes at the zero-concentration species is
the sum over `indicesToKeep`. -/
theorem sum_eq_sum_keep {N : Nat} (rhovec : Fin N → α) (f : Fin N → α)
    (hf : ∀ i, rhovec i = 0 → f i = 0) :
    ∑ i, f i = ∑ a : Fin (keep_loop rhovec).1.length, f ((keep_loop rhovec).1.get a) := by
  have h1 : ∑ a : Fin (keep_loop rhovec).1.length, f ((keep_loop rhovec).1.get a) =
      ((keep_loop rhovec).1.map f).sum := by
    rw [← List.sum_ofFn]
    congr 1
    apply List.ext_get
    · simp
    · intro n h1 h2
      simp
  rw [h1, ← List.sum_toFinset f (keep_nodup rhovec)]
  symm
  apply Finset.sum_subset (Finset.subset_univ _)
  intro i _ hi
  apply hf
  by_contra h
  exact hi (List.mem_toFinset.mpr ((mem_keep_iff rhovec i).mpr h))

omit [LinearOrderedField α] in
/-- The row assignment leaves the other rows unchanged. -/
theorem set_row_at_other {N : Nat} (U : Matrix (Fin N) (Fin N) α) (i : Fin N)
    (keep : List (Fin N)) (col : Fin keep.length → α) (r c : Fin N) (hr : r ≠ i) :
    set_row_at U i keep col r c = U r c := by
  unfold set_row_at
  generalize List.finRange keep.length = l
  induction l generalizing U with
  | nil => rfl
  | cons a t ih => rw [List.foldl_cons, ih]; simp [hr]

omit [LinearOrderedField α] in
/-- The row assignment after any list of positions: a visited position holds its entry of
`col`. -/
theorem set_row_at_fold {N : Nat} (i : Fin N) (keep : List (Fin N)) (hnd : keep.Nodup)
    (col : Fin keep.length → α) (l : List (Fin keep.length)) (U : Matrix (Fin N) (Fin N) α)
    (a : Fin keep.length) :
    (l.foldl (fun M a => fun r c => if r = i ∧ c = keep.get a then col a else M r c) U) i
        (keep.get a) =
      if a ∈ l then col a else U i (keep.get a) := by
  induction l generalizing U with
  | nil => simp
  | cons x t ih =>
    rw [List.foldl_cons, ih]
    by_cases hax : a = x
    · subst hax
      simp
    · have hne : ¬ (True ∧ keep.get a = keep.get x) :=
        fun h => hax ((List.Nodup.get_inj_iff hnd).mp h.2)
      simp only [List.mem_cons, hax, false_or, if_neg hne]

omit [LinearOrderedField α] in
/-- The row assignment puts entry `a` of `col` at column `indicesToKeep[a]`. -/
theorem set_row_at_get {N : Nat} (U : Matrix (Fin N) (Fin N) α) (i : Fin N)
    (keep : List (Fin N)) (hnd : keep.Nodup) (col : Fin keep.length → α)
    (a : Fin keep.length) : set_row_at U i keep col i (keep.get a) = col a := by
  exact (set_row_at_fold i keep hnd col _ U a).trans (if_pos (List.mem_finRange a))

omit [LinearOrderedField α] in
/-- The row assignment leaves the columns outside `indicesToKeep` unchanged. -/
theorem set_row_at_not_mem {N : Nat} (U : Matrix (Fin N) (Fin N) α) (i : Fin N)
    (keep : List (Fin N)) (col : Fin keep.length → α) (r c : Fin N) (hc : c ∉ keep) :
    set_row_at U i keep col r c = U r c := by
  unfold set_row_at
  generalize List.finRange keep.length = l
  induction l generalizing U with
  | nil => rfl
  | cons x t ih =>
    rw [List.foldl_cons, ih]
    have hne : ¬ (r = i ∧ c = keep.get x) := fun h => hc (h.2 ▸ List.get_mem _ _ _)
    exact if_neg hne

omit [LinearOrderedField α] in
/-- The filling loop leaves every row of index at least `count` unchanged. -/
theorem fill_rows_other {N : Nat} (count : Nat) (keep : List (Fin N))
    (E : Matrix (Fin keep.length) (Fin keep.length) α) (U : Matrix (Fin N) (Fin N) α)
    (r c : Fin N) (hr : count ≤ r.val) : fill_rows count keep E U r c = U r c := by
  unfold fill_rows
  have : ∀ (l : List Nat) (M : Matrix (Fin N) (Fin N) α), (∀ i ∈ l, i ≠ r.val) →
      (l.foldl (fun M i =>
        if h : i < N ∧ i < keep.length then
          set_row_at M ⟨i, h.1⟩ keep (fun a => E a ⟨i, h.2⟩)
        else M) M) r c = M r c := by
    intro l
    induction l with
    | nil => intro M _; rfl
    | cons a t ih =>
      intro M hl
      rw [List.foldl_cons, ih _ (fun i hi => hl i (List.mem_cons_of_mem _ hi))]
      have ha : a ≠ r.val := hl a (List.mem_cons_self _ _)
      split
      · apply set_row_at_other
        intro h; apply ha; rw [h]
      · rfl
  apply this
  intro i hi
  have := List.mem_range.mp hi
  omega

omit [LinearOrderedField α] in
/-- The filling loop with a single iteration writes row 0 from eigenvector 0. -/
theorem fill_rows_one {N : Nat} (keep : List (Fin N))
    (E : Matrix (Fin keep.length) (Fin keep.length) α) (U : Matrix (Fin N) (Fin N) α)
    (hN : 0 < N) (hk : 0 < keep.length) :
    fill_rows 1 keep E U = set_row_at U ⟨0, hN⟩ keep (fun a => E a ⟨0, hk⟩) := by
  simp [fill_rows, List.range_succ, hN, hk]

/-- The alignment step changes column 0 only. -/
theorem align_col0_other {N : Nat} (hN : 0 < N) (alignment_v0 : Option (Fin N → α))
    (M : Matrix (Fin N) (Fin N) α) (i c : Fin N) (hc : c.val ≠ 0) :
    align_col0 hN alignment_v0 M i c = M i c := by
  have hne0 : c ≠ ⟨0, hN⟩ := by
    intro h; exact hc (congrArg Fin.val h)
  cases alignment_v0 with
  | none => rfl
  | some a =>
    simp only [align_col0]
    split
    · simp [negate_col0, hne0]
    · rfl

/-- The alignment step multiplies column 0 by 1 or by -1. -/
theorem align_col0_sign {N : Nat} (hN : 0 < N) (a : Option (Fin N → α))
    (M : Matrix (Fin N) (Fin N) α) :
    ∃ s : α, (s = 1 ∨ s = -1) ∧ ∀ i, align_col0 hN a M i ⟨0, hN⟩ = s * M i ⟨0, hN⟩ := by
  cases a with
  | none => exact ⟨1, Or.inl rfl, fun i => by simp [align_col0]⟩
  | some v =>
    by_cases h : (∑ i, M i ⟨0, hN⟩ * v i) < 0
    · exact ⟨-1, Or.inr rfl, fun i => by simp [align_col0, h, negate_col0]⟩
    · exact ⟨1, Or.inl rfl, fun i => by simp [align_col0, h]⟩

/-- The sign step of the non-degenerate branch multiplies the whole matrix by 1 or by -1. -/
theorem nondegenerate_cols_sign {N : Nat} (hN : 0 < N) (rhovec : Fin N → α)
    (E : Matrix (Fin N) (Fin N) α) :
    ∃ s : α, (s = 1 ∨ s = -1) ∧ ∀ i j, nondegenerate_cols hN rhovec E i j = s * E i j := by
  unfold nondegenerate_cols
  by_cases h : minCoeff hN (fun i => E i (minCoeffIndex hN rhovec)) < 0
  · exact ⟨-1, Or.inr rfl, fun i j => by simp [h]⟩
  · exact ⟨1, Or.inl rfl, fun i j => by simp [h]⟩

/-- With exactly one zero concentration, at `k`, the last row of `U` is the unit vector of
`k`. -/
theorem padded_U_last_row {N : Nat} (hN : 2 ≤ N) (rhovec : Fin N → α) (k : Fin N)
    (hk : rhovec k = 0) (hne : ∀ i, i ≠ k → rhovec i ≠ 0)
    (E : Matrix (Fin (keep_loop rhovec).1.length) (Fin (keep_loop rhovec).1.length) α)
    (c : Fin N) :
    padded_U (by omega) rhovec E ⟨N - 1, by omega⟩ c = if c = k then 1 else 0 := by
  have hz : N - nonzero_count rhovec = 1 := zero_count_one_of_unique rhovec k hk hne
  simp only [padded_U, keep_loop_snd rhovec k hk hne, true_and]
  by_cases hc : c = k
  · simp [hc]
  · simp only [hc, if_false]
    rw [fill_rows_other _ _ _ _ _ _ (by simp only [hz]; omega)]
    rfl

/-- In dimension 3 or more and with exactly one zero concentration, row 1 of the padded matrix
is never written: the filling loop runs for `i < N - nonzero_count = 1` only. -/
theorem padded_U_row_one {N : Nat} (hN : 3 ≤ N) (rhovec : Fin N → α) (k : Fin N)
    (hk : rhovec k = 0) (hne : ∀ i, i ≠ k → rhovec i ≠ 0)
    (E : Matrix (Fin (keep_loop rhovec).1.length) (Fin (keep_loop rhovec).1.length) α)
    (c : Fin N) :
    padded_U (by omega) rhovec E ⟨1, by omega⟩ c = 0 := by
  have hz : N - nonzero_count rhovec = 1 := zero_count_one_of_unique rhovec k hk hne
  have hne1 : (⟨1, by omega⟩ : Fin N) ≠ ⟨N - 1, by omega⟩ := by
    intro h; have := congrArg Fin.val h; simp at this; omega
  simp only [padded_U, keep_loop_snd rhovec k hk hne, hne1, false_and, if_false]
  rw [fill_rows_other _ _ _ _ _ _ (by simp only [hz]; exact le_refl 1)]
  rfl

/-- Row 0 of `U` holds eigenvector 0 at the kept indices. -/
theorem padded_U_row_zero_get {N : Nat} (hN : 2 ≤ N) (rhovec : Fin N → α)
    (hz : zero_count rhovec = 1)
    (E : Matrix (Fin (keep_loop rhovec).1.length) (Fin (keep_loop rhovec).1.length) α)
    (a : Fin (keep_loop rhovec).1.length) :
    padded_U (by omega) rhovec E ⟨0, by omega⟩ ((keep_loop rhovec).1.get a) =
      E a ⟨0, keep_length_pos hN rhovec hz⟩ := by
  have hz' : N - nonzero_count rhovec = 1 := hz
  have hne0 : (⟨0, by omega⟩ : Fin N) ≠ ⟨N - 1, by omega⟩ := by
    intro h; have := congrArg Fin.val h; simp at this; omega
  have hrow : fill_rows (N - nonzero_count rhovec) (keep_loop rhovec).1 E 0 ⟨0, by omega⟩
      ((keep_loop rhovec).1.get a) = E a ⟨0, keep_length_pos hN rhovec hz⟩ := by
    rw [hz', fill_rows_one _ _ _ (by omega) (keep_length_pos hN rhovec hz)]
    exact set_row_at_get _ _ _ (keep_nodup rhovec) _ a
  unfold padded_U
  cases (keep_loop rhovec).2 with
  | none => exact hrow
  | some b =>
    simp only [hne0, false_and, if_false]
    exact hrow

/-- Row 0 of `U` is zero at the zero-concentration index. -/
theorem padded_U_row_zero_of_zero {N : Nat} (hN : 2 ≤ N) (rhovec : Fin N → α)
    (hz : zero_count rhovec = 1)
    (E : Matrix (Fin (keep_loop rhovec).1.length) (Fin (keep_loop rhovec).1.length) α)
    (c : Fin N) (hc : rhovec c = 0) :
    padded_U (by omega) rhovec E ⟨0, by omega⟩ c = 0 := by
  have hz' : N - nonzero_count rhovec = 1 := hz
  have hne0 : (⟨0, by omega⟩ : Fin N) ≠ ⟨N - 1, by omega⟩ := by
    intro h; have := congrArg Fin.val h; simp at this; omega
  have hrow : fill_rows (N - nonzero_count rhovec) (keep_loop rhovec).1 E 0 ⟨0, by omega⟩ c =
      0 := by
    rw [hz', fill_rows_one _ _ _ (by omega) (keep_length_pos hN rhovec hz)]
    rw [set_row_at_not_mem _ _ _ _ _ _ (fun h => (mem_keep_iff rhovec c).mp h hc)]
    rfl
  unfold padded_U
  cases (keep_loop rhovec).2 with
  | none => exact hrow
  | some b =>
    simp only [hne0, false_and, if_false]
    exact hrow

omit [LinearOrderedField α] in
/-- The first element of the list of a non-empty family. -/
theorem head_ofFn {m : Nat} (f : Fin m → α) (h : 0 < m) :
    (List.ofFn f).head? = some (f ⟨0, h⟩) := by
  cases m with
  | zero => exact absurd h (lt_irrefl 0)
  | succ n => simp [List.ofFn_succ]

/-- The ideal-gas loop from any starting array: each entry of order 2 to 4 gains the sum of
its terms over the visited species, entries 0 and 1 are unchanged. -/
theorem psi0_fold {N : Nat} (R T : α) (v0 rhovec : Fin N → α) (l : List (Fin N))
    (p : Fin 5 → α) :
    l.foldl
      (fun p i =>
        if rhovec i ≠ 0 then
          ![p 0, p 1,
            p 2 + R * T * v0 i ^ 2 / rhovec i,
            p 3 + -R * T * v0 i ^ 3 / rhovec i ^ 2,
            p 4 + 2 * R * T * v0 i ^ 4 / rhovec i ^ 3]
        else p) p =
      ![p 0, p 1,
        p 2 + (l.map fun i => if rhovec i ≠ 0 then R * T * v0 i ^ 2 / rhovec i else 0).sum,
        p 3 + (l.map fun i => if rhovec i ≠ 0 then -R * T * v0 i ^ 3 / rhovec i ^ 2 else 0).sum,
        p 4 +
          (l.map fun i => if rhovec i ≠ 0 then 2 * R * T * v0 i ^ 4 / rhovec i ^ 3 else 0).sum] := by
  induction l generalizing p with
  | nil =>
    funext k
    fin_cases k <;> simp
  | cons a t ih =>
    rw [List.foldl_cons, ih]
    funext k
    by_cases h : rhovec a = 0
    · fin_cases k <;> simp [h]
    · fin_cases k <;> simp [h, add_assoc]

/-- The array `psi0_derivs` in closed form. -/
theorem psi0_derivs_eq {N : Nat} (R T : α) (v0 rhovec : Fin N → α) :
    psi0_derivs R T v0 rhovec =
      ![-1, -1,
        ∑ i, (if rhovec i ≠ 0 then R * T * v0 i ^ 2 / rhovec i else 0),
        ∑ i, (if rhovec i ≠ 0 then -R * T * v0 i ^ 3 / rhovec i ^ 2 else 0),
        ∑ i, (if rhovec i ≠ 0 then 2 * R * T * v0 i ^ 4 / rhovec i ^ 3 else 0)] := by
  unfold psi0_derivs
  rw [psi0_fold]
  simp [Fin.sum_univ_def]

/-! ### Evaluation with the concrete library and model -/

/-- The indices of dimension 2. -/
theorem finRange_two : List.finRange 2 = [0, 1] := by rfl

/-- The indices of dimension 3. -/
theorem finRange_three : List.finRange 3 = [0, 1, 2] := by rfl

/-- A running minimum of non-negative values is non-negative. -/
theorem foldl_min_nonneg {ι : Type} (v : ι → α) (l : List ι) (init : α) (h0 : 0 ≤ init)
    (h : ∀ i ∈ l, 0 ≤ v i) : 0 ≤ l.foldl (fun m i => min m (v i)) init := by
  induction l generalizing init with
  | nil => exact h0
  | cons a t ih =>
    rw [List.foldl_cons]
    exact ih _ (le_min h0 (h a (List.mem_cons_self _ _)))
      (fun i hi => h i (List.mem_cons_of_mem _ hi))

/-- The smallest coefficient of a non-negative array is not negative. -/
theorem minCoeff_nonneg {N : Nat} (hN : 0 < N) (v : Fin N → α) (h : ∀ i, 0 ≤ v i) :
    ¬ minCoeff hN v < 0 :=
  not_lt.mpr (foldl_min_nonneg v _ _ (h _) (fun i _ => h i))

/-- The sign step leaves the identity matrix unchanged. -/
theorem nondegenerate_cols_one {N : Nat} (hN : 0 < N) (rhovec : Fin N → α) :
    nondegenerate_cols hN rhovec (1 : Matrix (Fin N) (Fin N) α) = 1 := by
  unfold nondegenerate_cols
  rw [if_neg]
  apply minCoeff_nonneg
  intro i
  rw [Matrix.one_apply]
  split <;> norm_num

/-- The result of `eigen_problem` with the solver `diag_lib`, in the non-degenerate regime and
with no alignment vector or with the first unit vector as alignment: the identity basis. -/
theorem eigen_problem_diag {N : Nat} (model : Model α N) (hN : 2 ≤ N) (T : α)
    (rhovec : Fin N → α) (h : ∀ i, rhovec i ≠ 0) (a : Option (Fin N → α))
    (ha : a = none ∨ a = some (fun i => (1 : Matrix (Fin N) (Fin N) α) i ⟨0, by omega⟩)) :
    eigen_problem (diag_lib α) model hN T rhovec a =
      .ok (pack_eigen hN (List.ofFn fun i => Psi_Hessian model T rhovec i i) 1) := by
  rw [eigen_problem_of_zero _ _ _ _ _ _ (zero_count_eq_zero_of_ne rhovec h)]
  have h1 : (diag_lib α).eigenvectors N (Psi_Hessian model T rhovec) = 1 := rfl
  rw [h1, nondegenerate_cols_one]
  rcases ha with rfl | rfl
  · rfl
  · have : ¬ (∑ i, (1 : Matrix (Fin N) (Fin N) α) i ⟨0, by omega⟩ *
        (1 : Matrix (Fin N) (Fin N) α) i ⟨0, by omega⟩) < 0 :=
      not_lt.mpr (Finset.sum_nonneg (fun i _ => mul_self_nonneg _))
    simp only [align_col0, this, if_false]
    rfl

/-- The result of `get_derivs` with the solver `diag_lib` in the non-degenerate regime. -/
theorem get_derivs_diag {N : Nat} (model : Model α N) (hN : 2 ≤ N) (T : α)
    (rhovec : Fin N → α) (h : ∀ i, rhovec i ≠ 0) (a : Option (Fin N → α))
    (ha : a = none ∨ a = some (fun i => (1 : Matrix (Fin N) (Fin N) α) i ⟨0, by omega⟩)) :
    get_derivs (diag_lib α) model hN T rhovec a =
      .ok { psir := model.diff_Psir T rhovec (fun i => (1 : Matrix (Fin N) (Fin N) α) i ⟨0, by omega⟩),
            psi0 := psi0_derivs (model.R (molefrac rhovec)) T
              (fun i => (1 : Matrix (Fin N) (Fin N) α) i ⟨0, by omega⟩) rhovec,
            tot := fun k => psi0_derivs (model.R (molefrac rhovec)) T
                (fun i => (1 : Matrix (Fin N) (Fin N) α) i ⟨0, by omega⟩) rhovec k +
              model.diff_Psir T rhovec (fun i => (1 : Matrix (Fin N) (Fin N) α) i ⟨0, by omega⟩) k,
            ei := pack_eigen hN (List.ofFn fun i => Psi_Hessian model T rhovec i i) 1 } :=
  get_derivs_of_eigen _ _ _ _ _ _ _ (eigen_problem_diag model hN T rhovec h a ha)

/-- For the model `ideal_gas` the matrix `H` is diagonal. -/
theorem Psi_Hessian_ideal_offdiag {N : Nat} (T : α) (rhovec : Fin N → α) (i j : Fin N)
    (h : i ≠ j) : Psi_Hessian (ideal_gas α N) T rhovec i j = 0 := by
  simp [Psi_Hessian, ideal_gas, h]

/-- For the model `ideal_gas` the matrix `Hprime` is diagonal. -/
theorem Hprime_ideal_offdiag {N : Nat} (T : α) (rhovec : Fin N → α)
    (a b : Fin (keep_loop rhovec).1.length) (h : a ≠ b) :
    Hprime (ideal_gas α N) T rhovec a b = 0 := by
  apply Psi_Hessian_ideal_offdiag
  intro hab
  exact h ((List.Nodup.get_inj_iff (keep_nodup rhovec)).mp hab)

/-- The columns of the identity matrix are orthonormal. -/
theorem orthonormal_cols_one {m : Nat} :
    orthonormal_cols (1 : Matrix (Fin m) (Fin m) α) := by
  intro i j
  simp [Matrix.one_apply, eq_comm]

/-- The identity basis diagonalises a diagonal matrix, with its diagonal as eigenvalues. -/
theorem eigen_columns_diag {m : Nat} (M : Matrix (Fin m) (Fin m) α)
    (hM : ∀ i k, i ≠ k → M i k = 0) : eigen_columns M (fun i => M i i) 1 := by
  intro j i
  rw [Finset.sum_eq_single j]
  · by_cases h : i = j
    · subst h; simp
    · simp [Matrix.one_apply, h, hM i j h]
  · intro k _ hk
    simp [Matrix.one_apply, hk]
  · intro h; exact absurd (Finset.mem_univ j) h

/-! ### C1: the order-2 total derivative is the smallest eigenvalue -/

/-- The quadratic form of the full matrix `H` is the residual quadratic form plus the
ideal-gas sum of `psi0_derivs`, entry 2. -/
theorem quad_form_Psi_Hessian {N : Nat} (model : Model α N) (T : α) (rhovec v : Fin N → α) :
    ∑ i, ∑ j, v i * Psi_Hessian model T rhovec i j * v j =
      psi0_derivs (model.R (molefrac rhovec)) T v rhovec 2 +
        ∑ i, ∑ j, v i * model.build_Psir_Hessian T rhovec i j * v j := by
  rw [psi0_derivs_eq]
  simp only [Matrix.cons_val_two, Matrix.tail_cons, Matrix.head_cons, Psi_Hessian, mul_add,
    add_mul, Finset.sum_add_distrib]
  rw [add_comm]
  congr 1
  refine Finset.sum_congr rfl (fun i _ => ?_)
  rw [Finset.sum_eq_single i]
  · by_cases h : rhovec i = 0
    · simp [mask, h]
    · simp only [mask, h, ne_eq, not_false_eq_true, decide_True, and_self, if_true]
      ring
  · intro j _ hji
    simp [Ne.symm hji]
  · intro h; exact absurd (Finset.mem_univ i) h

/-- An exact unit eigenvector gives its eigenvalue as quadratic form, whatever its sign. -/
theorem quad_form_eigen {m : Nat} (H : Matrix (Fin m) (Fin m) α) (lam : α) (x v : Fin m → α)
    (s : α) (hs : s = 1 ∨ s = -1) (hv : ∀ i, v i = s * x i)
    (hx : ∀ i, ∑ k, H i k * x k = lam * x i) (hunit : ∑ k, x k * x k = 1) :
    ∑ i, ∑ j, v i * H i j * v j = lam := by
  have hs2 : s * s = 1 := by rcases hs with rfl | rfl <;> ring
  calc ∑ i, ∑ j, v i * H i j * v j
      = ∑ i, (s * s) * (x i * ∑ j, H i j * x j) := by
        refine Finset.sum_congr rfl (fun i _ => ?_)
        rw [Finset.mul_sum, Finset.mul_sum]
        refine Finset.sum_congr rfl (fun j _ => ?_)
        rw [hv i, hv j]; ring
    _ = ∑ i, lam * (x i * x i) := by
        refine Finset.sum_congr rfl (fun i _ => ?_)
        rw [hx i, hs2]; ring
    _ = lam := by rw [← Finset.mul_sum, hunit, mul_one]

/-- The algebraic core of C1: with an exact eigen-decomposition of the matrix handed to the
solver and a second directional derivative equal to the quadratic form of the residual
Hessian, `get_derivs` returns, and `tot[2]` is the first eigenvalue and the quadratic form of
`H` at `v0`. -/
theorem tot2_eq_eigenvalue {N : Nat} (lib : EigenLib α) (model : Model α N) (hN : 2 ≤ N)
    (T : α) (rhovec : Fin N → α) (a : Option (Fin N → α)) (hz : zero_count rhovec ≤ 1)
    (h0 : zero_count rhovec = 0 →
      eigen_columns (Psi_Hessian model T rhovec) (lib.eigenvalues N (Psi_Hessian model T rhovec))
          (lib.eigenvectors N (Psi_Hessian model T rhovec)) ∧
        orthonormal_cols (lib.eigenvectors N (Psi_Hessian model T rhovec)))
    (h1 : zero_count rhovec = 1 →
      eigen_columns (Hprime model T rhovec) (lib.eigenvalues _ (Hprime model T rhovec))
          (lib.eigenvectors _ (Hprime model T rhovec)) ∧
        orthonormal_cols (lib.eigenvectors _ (Hprime model T rhovec)))
    (hdiff : ∀ v, model.diff_Psir T rhovec v 2 =
      ∑ i, ∑ j, v i * model.build_Psir_Hessian T rhovec i j * v j) :
    ∃ d, get_derivs lib model hN T rhovec a = .ok d ∧
      d.ei.eigenvalues.head? = some (d.tot 2) ∧
      ∑ i, ∑ j, d.ei.v0 i * Psi_Hessian model T rhovec i j * d.ei.v0 j = d.tot 2 := by
  have hcases : zero_count rhovec = 0 ∨ zero_count rhovec = 1 := by omega
  rcases hcases with hz0 | hz1
  · refine ⟨_, get_derivs_of_eigen _ _ _ _ _ _ _
      (eigen_problem_of_zero lib model hN T rhovec a hz0), ?_⟩
    obtain ⟨hE, hO⟩ := h0 hz0
    obtain ⟨s1, hs1, hn⟩ := nondegenerate_cols_sign (by omega : 0 < N) rhovec
      (lib.eigenvectors N (Psi_Hessian model T rhovec))
    obtain ⟨s2, hs2, ha⟩ := align_col0_sign (by omega : 0 < N) a
      (nondegenerate_cols (by omega) rhovec (lib.eigenvectors N (Psi_Hessian model T rhovec)))
    have hs : s2 * s1 = 1 ∨ s2 * s1 = -1 := by
      rcases hs1 with rfl | rfl <;> rcases hs2 with rfl | rfl <;> simp
    have hq := quad_form_eigen (Psi_Hessian model T rhovec)
      (lib.eigenvalues N (Psi_Hessian model T rhovec) ⟨0, by omega⟩)
      (fun i => lib.eigenvectors N (Psi_Hessian model T rhovec) i ⟨0, by omega⟩)
      (fun i => align_col0 (by omega : 0 < N) a (nondegenerate_cols (by omega) rhovec
        (lib.eigenvectors N (Psi_Hessian model T rhovec))) i ⟨0, by omega⟩)
      (s2 * s1) hs (fun i => (ha i).trans (by rw [hn i, mul_assoc])) (fun i => hE ⟨0, by omega⟩ i)
      (by simpa using hO ⟨0, by omega⟩ ⟨0, by omega⟩)
    have htot : ∑ i, ∑ j, (pack_eigen hN (List.ofFn (lib.eigenvalues N (Psi_Hessian model T rhovec)))
        (align_col0 (by omega) a (nondegenerate_cols (by omega) rhovec
          (lib.eigenvectors N (Psi_Hessian model T rhovec))))).v0 i *
        Psi_Hessian model T rhovec i j *
        (pack_eigen hN (List.ofFn (lib.eigenvalues N (Psi_Hessian model T rhovec)))
        (align_col0 (by omega) a (nondegenerate_cols (by omega) rhovec
          (lib.eigenvectors N (Psi_Hessian model T rhovec))))).v0 j =
        lib.eigenvalues N (Psi_Hessian model T rhovec) ⟨0, by omega⟩ := hq
    have hsum := quad_form_Psi_Hessian model T rhovec
      (pack_eigen hN (List.ofFn (lib.eigenvalues N (Psi_Hessian model T rhovec)))
        (align_col0 (by omega) a (nondegenerate_cols (by omega) rhovec
          (lib.eigenvectors N (Psi_Hessian model T rhovec))))).v0
    rw [← hdiff] at hsum
    refine ⟨?_, hsum⟩
    simp only
    rw [← hsum, htot]
    exact head_ofFn _ (by omega)
  · refine ⟨_, get_derivs_of_eigen _ _ _ _ _ _ _
      (eigen_problem_of_one lib model hN T rhovec a hz1), ?_⟩
    obtain ⟨hE, hO⟩ := h1 hz1
    have hk := keep_length_pos hN rhovec hz1
    obtain ⟨s, hs, ha⟩ := align_col0_sign (by omega : 0 < N) a
      (padded_U (by omega) rhovec (lib.eigenvectors _ (Hprime model T rhovec))).transpose
    have hs2 : s * s = 1 := by rcases hs with rfl | rfl <;> ring
    have hx_get := padded_U_row_zero_get hN rhovec hz1 (lib.eigenvectors _ (Hprime model T rhovec))
    have hx_zero := padded_U_row_zero_of_zero hN rhovec hz1
      (lib.eigenvectors _ (Hprime model T rhovec))
    have hq := quad_form_eigen (Hprime model T rhovec)
      (lib.eigenvalues _ (Hprime model T rhovec) ⟨0, hk⟩)
      (fun i => lib.eigenvectors _ (Hprime model T rhovec) i ⟨0, hk⟩)
      (fun i => lib.eigenvectors _ (Hprime model T rhovec) i ⟨0, hk⟩)
      1 (Or.inl rfl) (fun i => (one_mul _).symm) (fun i => hE ⟨0, hk⟩ i)
      (by simpa using hO ⟨0, hk⟩ ⟨0, hk⟩)
    have htot : ∑ i, ∑ j, (pack_eigen hN (List.ofFn (lib.eigenvalues _ (Hprime model T rhovec)))
        (align_col0 (by omega) a (padded_U (by omega) rhovec
          (lib.eigenvectors _ (Hprime model T rhovec))).transpose)).v0 i *
        Psi_Hessian model T rhovec i j *
        (pack_eigen hN (List.ofFn (lib.eigenvalues _ (Hprime model T rhovec)))
        (align_col0 (by omega) a (padded_U (by omega) rhovec
          (lib.eigenvectors _ (Hprime model T rhovec))).transpose)).v0 j =
        lib.eigenvalues _ (Hprime model T rhovec) ⟨0, hk⟩ := by
      simp only [pack_eigen, ha, Matrix.transpose_apply]
      rw [← hq]
      rw [sum_eq_sum_keep rhovec _ (fun i hi => by
        simp only [hx_zero i hi, mul_zero, zero_mul, Finset.sum_const_zero])]
      refine Finset.sum_congr rfl (fun p _ => ?_)
      rw [sum_eq_sum_keep rhovec _ (fun j hj => by
        simp only [hx_zero j hj, mul_zero])]
      refine Finset.sum_congr rfl (fun q _ => ?_)
      rw [hx_get p, hx_get q]
      simp only [Hprime]
      calc s * lib.eigenvectors _ (Hprime model T rhovec) p ⟨0, hk⟩ *
            Psi_Hessian model T rhovec ((keep_loop rhovec).1.get p) ((keep_loop rhovec).1.get q) *
            (s * lib.eigenvectors _ (Hprime model T rhovec) q ⟨0, hk⟩)
          = (s * s) * (lib.eigenvectors _ (Hprime model T rhovec) p ⟨0, hk⟩ *
            Psi_Hessian model T rhovec ((keep_loop rhovec).1.get p) ((keep_loop rhovec).1.get q) *
            lib.eigenvectors _ (Hprime model T rhovec) q ⟨0, hk⟩) := by ring
        _ = _ := by rw [hs2, one_mul]
    have hsum := quad_form_Psi_Hessian model T rhovec
      (pack_eigen hN (List.ofFn (lib.eigenvalues _ (Hprime model T rhovec)))
        (align_col0 (by omega) a (padded_U (by omega) rhovec
          (lib.eigenvectors _ (Hprime model T rhovec))).transpose)).v0
    rw [← hdiff] at hsum
    refine ⟨?_, hsum⟩
    simp only
    rw [← hsum, htot]
    exact head_ofFn _ hk

section Analysis

open Filter Topology

/-- The chain rule behind C1: for a twice continuously differentiable `f` at `rho`, the second
derivative of `s ↦ f (rho + s • v)` at 0 is the quadratic form at `v` of the matrix of second
partial derivatives of `f` at `rho`. -/
theorem second_directional_deriv {N : Nat} (f : (Fin N → ℝ) → ℝ) (rho v : Fin N → ℝ)
    (hf : ContDiffAt ℝ 2 f rho) :
    iteratedDeriv 2 (fun s : ℝ => f (rho + s • v)) 0 =
      ∑ i, ∑ j, v i *
        (fderiv ℝ (fun x => fderiv ℝ f x (Pi.single i 1)) rho (Pi.single j 1)) * v j := by
  have hline : ∀ s : ℝ, HasDerivAt (fun s : ℝ => rho + s • v) v s := by
    intro s
    simpa using ((hasDerivAt_id s).smul_const v).const_add rho
  have hf1 : ContDiffAt ℝ 1 (fderiv ℝ f) rho := hf.fderiv_right (by norm_num)
  have hf' : DifferentiableAt ℝ (fderiv ℝ f) rho := hf1.differentiableAt (le_refl 1)
  have hev : ∀ᶠ y in 𝓝 rho, DifferentiableAt ℝ f y := by
    filter_upwards [hf.eventually (by norm_num)] with y hy
    exact hy.differentiableAt (by norm_num)
  have hcont : Tendsto (fun s : ℝ => rho + s • v) (𝓝 0) (𝓝 rho) := by
    have := (hline 0).continuousAt.tendsto
    simpa using this
  have hd1 : deriv (fun s : ℝ => f (rho + s • v)) =ᶠ[𝓝 0]
      fun s => fderiv ℝ f (rho + s • v) v := by
    filter_upwards [hcont.eventually hev] with s hs
    exact (hs.hasFDerivAt.comp_hasDerivAt s (hline s)).deriv
  have hd2 : HasDerivAt (fun s : ℝ => fderiv ℝ f (rho + s • v) v)
      (fderiv ℝ (fderiv ℝ f) rho v v) 0 := by
    have hl : HasFDerivAt (fderiv ℝ f) (fderiv ℝ (fderiv ℝ f) rho)
        ((fun s : ℝ => rho + s • v) 0) := by
      simp only [zero_smul, add_zero]
      exact hf'.hasFDerivAt
    have hc : HasDerivAt (fun s : ℝ => fderiv ℝ f (rho + s • v))
        (fderiv ℝ (fderiv ℝ f) rho v) 0 := hl.comp_hasDerivAt 0 (hline 0)
    have := hc.clm_apply (hasDerivAt_const (0 : ℝ) v)
    simpa using this
  have hquad : fderiv ℝ (fderiv ℝ f) rho v v =
      ∑ i, ∑ j, v i *
        (fderiv ℝ (fun x => fderiv ℝ f x (Pi.single i 1)) rho (Pi.single j 1)) * v j := by
    have hpart : ∀ i j, fderiv ℝ (fun x => fderiv ℝ f x (Pi.single i 1)) rho (Pi.single j 1) =
        fderiv ℝ (fderiv ℝ f) rho (Pi.single j 1) (Pi.single i 1) := by
      intro i j
      have := (hf'.hasFDerivAt.clm_apply
        (hasFDerivAt_const (Pi.single i (1 : ℝ)) rho)).fderiv
      rw [this]
      simp
    have hv : v = ∑ i, v i • (Pi.single i (1 : ℝ) : Fin N → ℝ) := by
      funext k
      simp [Finset.sum_apply, Pi.single_apply]
    conv_lhs => rw [hv]
    simp only [map_sum, map_smul, ContinuousLinearMap.sum_apply, ContinuousLinearMap.smul_apply,
      smul_eq_mul, hpart, Finset.mul_sum]
    refine Finset.sum_congr rfl (fun i _ => Finset.sum_congr rfl (fun j _ => ?_))
    ring
  rw [show (2 : ℕ) = 1 + 1 from rfl, iteratedDeriv_succ', iteratedDeriv_one,
    hd1.deriv_eq, hd2.deriv, hquad]

/-- Every iterated derivative of the zero function vanishes. -/
theorem iteratedDeriv_zero_fun (k : Nat) (x : ℝ) : iteratedDeriv k (fun _ : ℝ => (0 : ℝ)) x = 0 := by
  induction k generalizing x with
  | zero => simp
  | succ n ih =>
    rw [iteratedDeriv_succ]
    have : iteratedDeriv n (fun _ : ℝ => (0 : ℝ)) = fun _ => 0 := funext ih
    rw [this]
    simp

end Analysis

/-- C1: at a state with at most one zero concentration, let `Psir` be the residual potential
as a function of the concentrations, twice continuously differentiable at `rhovec`.  If the
differentiation oracle returns the exact derivatives of `σ ↦ Psir (rhovec + σ • v)` at 0,
the curvature oracle returns the exact matrix of second partial derivatives of `Psir`, and
the eigen-solver returns exact orthonormal eigenvectors of the matrix it is given, then
`get_derivs` and `eigen_problem` return and `tot[2]` equals `eigenvalues[0]`, both being
`v0ᵀ H v0` for `H` the residual Hessian plus the ideal diagonal. -/
theorem tot2_eq_min_eigenvalue {N : Nat} (lib : EigenLib ℝ) (model : Model ℝ N) (hN : 2 ≤ N)
    (T : ℝ) (rhovec : Fin N → ℝ) (alignment_v0 : Option (Fin N → ℝ))
    (Psir : (Fin N → ℝ) → ℝ)
    (hz : (Finset.univ.filter (fun i => rhovec i = 0)).card ≤ 1)
    (hPsir : ContDiffAt ℝ 2 Psir rhovec)
    (hdiff : ∀ (v : Fin N → ℝ) (k : Fin 5), model.diff_Psir T rhovec v k =
      iteratedDeriv k.val (fun s : ℝ => Psir (rhovec + s • v)) 0)
    (hhess : ∀ i j, model.build_Psir_Hessian T rhovec i j =
      fderiv ℝ (fun x => fderiv ℝ Psir x (Pi.single i 1)) rhovec (Pi.single j 1))
    (h0 : zero_count rhovec = 0 →
      eigen_columns (Psi_Hessian model T rhovec) (lib.eigenvalues N (Psi_Hessian model T rhovec))
          (lib.eigenvectors N (Psi_Hessian model T rhovec)) ∧
        orthonormal_cols (lib.eigenvectors N (Psi_Hessian model T rhovec)))
    (h1 : zero_count rhovec = 1 →
      eigen_columns (Hprime model T rhovec) (lib.eigenvalues _ (Hprime model T rhovec))
          (lib.eigenvectors _ (Hprime model T rhovec)) ∧
        orthonormal_cols (lib.eigenvectors _ (Hprime model T rhovec))) :
    ∃ d ed, get_derivs lib model hN T rhovec alignment_v0 = .ok d ∧
      eigen_problem lib model hN T rhovec none = .ok ed ∧
      ed.eigenvalues.head? = some (d.tot 2) ∧
      ∑ i, ∑ j, d.ei.v0 i * Psi_Hessian model T rhovec i j * d.ei.v0 j = d.tot 2 := by
  have hz' : zero_count rhovec ≤ 1 := by rw [zero_count_eq_card]; exact hz
  have hd2 : ∀ v, model.diff_Psir T rhovec v 2 =
      ∑ i, ∑ j, v i * model.build_Psir_Hessian T rhovec i j * v j := by
    intro v
    rw [hdiff v 2]
    simp only [hhess]
    exact second_directional_deriv Psir rhovec v hPsir
  obtain ⟨d, hd, hhead, hquad⟩ :=
    tot2_eq_eigenvalue lib model hN T rhovec alignment_v0 hz' h0 h1 hd2
  obtain ⟨d', hd', -, -⟩ := tot2_eq_eigenvalue lib model hN T rhovec none hz' h0 h1 hd2
  refine ⟨d, d'.ei, hd, get_derivs_ei _ _ _ _ _ _ _ hd', ?_, hquad⟩
  rw [eigenvalues_alignment lib model hN T rhovec none alignment_v0 d'.ei d.ei
    (get_derivs_ei _ _ _ _ _ _ _ hd') (get_derivs_ei _ _ _ _ _ _ _ hd)]
  exact hhead

/-- C1 at a concrete state: ideal-gas mixture (`Psir = 0`), `T = 1`, `rhovec = (2, 0)`. -/
theorem tot2_eq_min_eigenvalue_witness :
    ∃ d ed, get_derivs (diag_lib ℝ) (ideal_gas ℝ 2) (le_refl 2) 1 ![2, 0] none = .ok d ∧
      eigen_problem (diag_lib ℝ) (ideal_gas ℝ 2) (le_refl 2) 1 ![2, 0] none = .ok ed ∧
      ed.eigenvalues.head? = some (d.tot 2) ∧
      ∑ i, ∑ j, d.ei.v0 i * Psi_Hessian (ideal_gas ℝ 2) 1 ![2, 0] i j * d.ei.v0 j = d.tot 2 := by
  have hk : (![2, 0] : Fin 2 → ℝ) 1 = 0 := by simp
  have hne : ∀ i : Fin 2, i ≠ 1 → (![2, 0] : Fin 2 → ℝ) i ≠ 0 := by
    intro i; fin_cases i <;> simp
  have hz1 := zero_count_one_of_unique _ 1 hk hne
  apply tot2_eq_min_eigenvalue (diag_lib ℝ) (ideal_gas ℝ 2) (le_refl 2) 1 ![2, 0] none
    (fun _ => 0)
  · rw [← zero_count_eq_card, hz1]
  · exact contDiffAt_const
  · intro v k
    rw [iteratedDeriv_zero_fun]
    rfl
  · intro i j
    simp [ideal_gas]
  · intro h
    rw [hz1] at h
    exact absurd h (by norm_num)
  · intro _
    exact ⟨eigen_columns_diag _ (fun a b h => Hprime_ideal_offdiag 1 _ a b h),
      orthonormal_cols_one⟩

/-! ### C2: orthonormality of the returned basis -/

/-- Changing the sign of whole columns keeps the columns orthonormal. -/
theorem orthonormal_cols_signs {m : Nat} (M M' : Matrix (Fin m) (Fin m) α) (s : Fin m → α)
    (hs : ∀ j, s j = 1 ∨ s j = -1) (hM' : ∀ i j, M' i j = s j * M i j)
    (hM : orthonormal_cols M) : orthonormal_cols M' := by
  intro i j
  have h : ∑ k, M' k i * M' k j = s i * s j * ∑ k, M k i * M k j := by
    rw [Finset.mul_sum]
    refine Finset.sum_congr rfl (fun k _ => ?_)
    rw [hM' k i, hM' k j]; ring
  rw [h, hM i j]
  by_cases hij : i = j
  · subst hij
    rcases hs i with h1 | h1 <;> simp [h1]
  · simp [hij]

/-- The alignment step keeps the columns orthonormal. -/
theorem align_col0_orthonormal {N : Nat} (hN : 0 < N) (a : Option (Fin N → α))
    (M : Matrix (Fin N) (Fin N) α) (hM : orthonormal_cols M) :
    orthonormal_cols (align_col0 hN a M) := by
  obtain ⟨s, hs, h0⟩ := align_col0_sign hN a M
  refine orthonormal_cols_signs M _ (fun j => if j = ⟨0, hN⟩ then s else 1) ?_ ?_ hM
  · intro j
    by_cases hj : j = ⟨0, hN⟩
    · simp [hj, hs]
    · simp [hj]
  · intro i j
    by_cases hj : j = ⟨0, hN⟩
    · subst hj
      simp [h0 i]
    · rw [align_col0_other hN a M i j (fun h => hj (Fin.ext h))]
      simp [hj]

/-- What holds of C2 in the non-degenerate regime, for every dimension: ascending eigenvalues
and orthonormal columns are preserved by the two sign steps. -/
theorem eigen_problem_orthonormal_nondegenerate {N : Nat} (lib : EigenLib α) (model : Model α N)
    (hN : 2 ≤ N) (T : α) (rhovec : Fin N → α) (a : Option (Fin N → α))
    (hz : zero_count rhovec = 0)
    (hmono : Monotone (lib.eigenvalues N (Psi_Hessian model T rhovec)))
    (horth : orthonormal_cols (lib.eigenvectors N (Psi_Hessian model T rhovec))) :
    ∃ ed, eigen_problem lib model hN T rhovec a = .ok ed ∧
      ed.eigenvalues.Sorted (· ≤ ·) ∧ orthonormal_cols ed.eigenvectorscols := by
  refine ⟨_, eigen_problem_of_zero lib model hN T rhovec a hz, ?_, ?_⟩
  · exact List.sorted_le_ofFn_iff.mpr hmono
  · apply align_col0_orthonormal
    obtain ⟨s, hs, h⟩ := nondegenerate_cols_sign (by omega : 0 < N) rhovec
      (lib.eigenvectors N (Psi_Hessian model T rhovec))
    exact orthonormal_cols_signs _ _ (fun _ => s) (fun _ => hs) h horth

/-- What holds of C2 in the single-degenerate regime: in dimension 2 the padded eigenvector
and the unit vector of the zero-concentration species form an orthonormal basis. -/
theorem eigen_problem_orthonormal_binary (lib : EigenLib α) (model : Model α 2)
    (T : α) (rhovec : Fin 2 → α) (a : Option (Fin 2 → α))
    (hz : zero_count rhovec = 1)
    (hmono : Monotone (lib.eigenvalues _ (Hprime model T rhovec)))
    (horth : orthonormal_cols (lib.eigenvectors _ (Hprime model T rhovec))) :
    ∃ ed, eigen_problem lib model (le_refl 2) T rhovec a = .ok ed ∧
      ed.eigenvalues.Sorted (· ≤ ·) ∧ orthonormal_cols ed.eigenvectorscols := by
  refine ⟨_, eigen_problem_of_one lib model (le_refl 2) T rhovec a hz, ?_, ?_⟩
  · exact List.sorted_le_ofFn_iff.mpr hmono
  · apply align_col0_orthonormal
    have hcard : (Finset.univ.filter (fun i => rhovec i = 0)).card = 1 := by
      rw [← zero_count_eq_card]; exact hz
    obtain ⟨k, hk⟩ := Finset.card_eq_one.mp hcard
    have hk0 : rhovec k = 0 := by
      have : k ∈ Finset.univ.filter (fun i => rhovec i = 0) := by rw [hk]; simp
      simpa using this
    have hne : ∀ i, i ≠ k → rhovec i ≠ 0 := by
      intro i hik h0
      have : i ∈ Finset.univ.filter (fun i => rhovec i = 0) := by simp [h0]
      rw [hk] at this
      exact hik (by simpa using this)
    have hkl := keep_length_pos (le_refl 2) rhovec hz
    have hrow1 := padded_U_last_row (le_refl 2) rhovec k hk0 hne
      (lib.eigenvectors _ (Hprime model T rhovec))
    have hrow0z := padded_U_row_zero_of_zero (le_refl 2) rhovec hz
      (lib.eigenvectors _ (Hprime model T rhovec))
    have hrow0g := padded_U_row_zero_get (le_refl 2) rhovec hz
      (lib.eigenvectors _ (Hprime model T rhovec))
    have hlen : (keep_loop rhovec).1.length = 1 := by
      rw [keep_length]
      have h1 : nonzero_count rhovec ≤ 2 := by
        unfold nonzero_count
        have := List.countP_le_length (mask rhovec) (l := List.finRange 2)
        simpa using this
      unfold zero_count at hz
      omega
    have hunit : ∑ c, padded_U (by norm_num) rhovec
        (lib.eigenvectors _ (Hprime model T rhovec)) ⟨0, by norm_num⟩ c *
        padded_U (by norm_num) rhovec
        (lib.eigenvectors _ (Hprime model T rhovec)) ⟨0, by norm_num⟩ c = 1 := by
      rw [sum_eq_sum_keep rhovec _ (fun i hi => by rw [hrow0z i hi, mul_zero])]
      have h00 := horth ⟨0, hkl⟩ ⟨0, hkl⟩
      simp only [if_true] at h00
      rw [← h00]
      exact Finset.sum_congr rfl (fun p _ => by rw [hrow0g p])
    intro i j
    simp only [Matrix.transpose_apply]
    have hi : i = ⟨0, by norm_num⟩ ∨ i = ⟨2 - 1, by norm_num⟩ := by
      fin_cases i <;> simp
    have hj : j = ⟨0, by norm_num⟩ ∨ j = ⟨2 - 1, by norm_num⟩ := by
      fin_cases j <;> simp
    have h01 : (⟨0, by norm_num⟩ : Fin 2) ≠ ⟨2 - 1, by norm_num⟩ := by decide
    rcases hi with rfl | rfl <;> rcases hj with rfl | rfl
    · simp only [if_true]
      exact hunit
    · simp only [hrow1, h01, if_false, mul_ite, mul_one, mul_zero, Finset.sum_ite_eq',
        Finset.mem_univ, if_true]
      exact hrow0z k hk0
    · simp only [hrow1, h01.symm, if_false, ite_mul, one_mul, zero_mul, Finset.sum_ite_eq',
        Finset.mem_univ, if_true]
      exact hrow0z k hk0
    · simp only [hrow1, if_true, mul_ite, mul_one, mul_zero, Finset.sum_ite_eq',
        Finset.mem_univ]

/-- The loop over `rhovec = (2, 1, 0)`: `indicesToKeep = [0, 1]`, `badindex = 2`. -/
theorem keep_loop_example :
    keep_loop (![2, 1, 0] : Fin 3 → ℚ) = ([0, 1], some 2) := by
  simp [keep_loop, finRange_three, mask]

/-- At `rhovec = (2, 1, 0)` the eigenvalues returned for `Hprime` are ascending. -/
theorem Hprime_example_monotone :
    Monotone ((diag_lib ℚ).eigenvalues _ (Hprime (ideal_gas ℚ 3) 1 ![2, 1, 0])) := by
  have key : ∀ (ks : List (Fin 3)), ks = [0, 1] → ∀ a b : Fin ks.length, a ≤ b →
      Psi_Hessian (ideal_gas ℚ 3) 1 ![2, 1, 0] (ks.get a) (ks.get a) ≤
        Psi_Hessian (ideal_gas ℚ 3) 1 ![2, 1, 0] (ks.get b) (ks.get b) := by
    intro ks h
    subst h
    intro a b hab
    fin_cases a <;> fin_cases b
    all_goals simp [Psi_Hessian, ideal_gas, mask] at hab ⊢
    all_goals norm_num
  intro a b hab
  exact key _ (congrArg Prod.fst keep_loop_example) a b hab

/-- C2 (evaluation at a failing input): dimension 3, `rhovec = (2, 1, 0)`, vanishing residual
part.  The solver's answer for the `2 × 2` submatrix has ascending eigenvalues and orthonormal
columns, yet `eigen_problem` returns an `eigenvectorscols` whose column 1 is the zero vector,
so its columns are not orthonormal: only the first eigenvector is reinjected. -/
theorem eigen_problem_degenerate_three :
    (Monotone ((diag_lib ℚ).eigenvalues _ (Hprime (ideal_gas ℚ 3) 1 ![2, 1, 0])) ∧
      orthonormal_cols ((diag_lib ℚ).eigenvectors _ (Hprime (ideal_gas ℚ 3) 1 ![2, 1, 0]))) ∧
    ∃ ed, eigen_problem (diag_lib ℚ) (ideal_gas ℚ 3) (by norm_num) 1 ![2, 1, 0] none = .ok ed ∧
      (∀ i, ed.eigenvectorscols i 1 = 0) ∧ ¬ orthonormal_cols ed.eigenvectorscols := by
  have hk : (![2, 1, 0] : Fin 3 → ℚ) 2 = 0 := by simp
  have hne : ∀ i : Fin 3, i ≠ 2 → (![2, 1, 0] : Fin 3 → ℚ) i ≠ 0 := by
    intro i; fin_cases i <;> simp
  have hcol : ∀ i : Fin 3, (pack_eigen (by norm_num : 2 ≤ 3)
      (List.ofFn ((diag_lib ℚ).eigenvalues _ (Hprime (ideal_gas ℚ 3) 1 ![2, 1, 0])))
      (align_col0 (by norm_num) none
        (padded_U (by norm_num) ![2, 1, 0]
          ((diag_lib ℚ).eigenvectors _
            (Hprime (ideal_gas ℚ 3) 1 ![2, 1, 0]))).transpose)).eigenvectorscols i 1 = 0 := by
    intro i
    simp only [pack_eigen, align_col0, Matrix.transpose_apply]
    exact padded_U_row_one (by norm_num) _ 2 hk hne _ i
  refine ⟨⟨Hprime_example_monotone, ?_⟩, _,
    eigen_problem_of_one _ _ _ _ _ _ (zero_count_one_of_unique _ 2 hk hne), hcol, ?_⟩
  · intro i j
    simp [diag_lib, Matrix.one_apply, eq_comm]
  · intro h
    have h11 := h 1 1
    simp only [hcol] at h11
    simp at h11

/-! ### C3: sign of `v0` at the smallest concentration -/

/-- C3 (evaluation at a failing input): `rhovec = (1, 2)`, no alignment reference, and
`H = [[16, 12], [12, 9]]`, for which the solver returns an exact orthonormal decomposition
with ascending eigenvalues.  The smallest concentration is at index 0, the sign test reads
the minimum of column 0, which is `-4/5 < 0`, the matrix is negated, and the returned `v0`
is `(-3/5, 4/5)`: its component at the smallest-concentration index is negative. -/
theorem eigen_problem_sign_failure :
    (eigen_columns (Psi_Hessian (coupled_model ℚ) 1 ![1, 2])
        ((rot_lib ℚ).eigenvalues 2 (Psi_Hessian (coupled_model ℚ) 1 ![1, 2]))
        ((rot_lib ℚ).eigenvectors 2 (Psi_Hessian (coupled_model ℚ) 1 ![1, 2])) ∧
      orthonormal_cols ((rot_lib ℚ).eigenvectors 2 (Psi_Hessian (coupled_model ℚ) 1 ![1, 2])) ∧
      Monotone ((rot_lib ℚ).eigenvalues 2 (Psi_Hessian (coupled_model ℚ) 1 ![1, 2]))) ∧
    minCoeffIndex (by norm_num) (![1, 2] : Fin 2 → ℚ) = 0 ∧
    ∃ ed, eigen_problem (rot_lib ℚ) (coupled_model ℚ) (le_refl 2) 1 ![1, 2] none = .ok ed ∧
      ed.v0 = ![-3 / 5, 4 / 5] ∧
      ed.v0 (minCoeffIndex (by norm_num) (![1, 2] : Fin 2 → ℚ)) < 0 := by
  have hH : Psi_Hessian (coupled_model ℚ) 1 ![1, 2] = !![16, 12; 12, 9] := by
    ext i j
    fin_cases i <;> fin_cases j <;> simp [Psi_Hessian, coupled_model, mask] <;> norm_num
  have hE : (rot_lib ℚ).eigenvectors 2 (Psi_Hessian (coupled_model ℚ) 1 ![1, 2]) =
      !![3 / 5, 4 / 5; -4 / 5, 3 / 5] := by
    ext i j
    fin_cases i <;> fin_cases j <;> simp [rot_lib]
  have hL : (rot_lib ℚ).eigenvalues 2 (Psi_Hessian (coupled_model ℚ) 1 ![1, 2]) = ![0, 25] := by
    ext i
    fin_cases i <;> simp [rot_lib]
  have hind : minCoeffIndex (by norm_num) (![1, 2] : Fin 2 → ℚ) = 0 := by
    simp [minCoeffIndex, finRange_two]
  refine ⟨⟨?_, ?_, ?_⟩, hind, _,
    eigen_problem_of_zero _ _ _ _ _ _ (zero_count_eq_zero_of_ne _ ?_), ?_, ?_⟩
  · rw [hE, hL, hH]
    intro j i
    fin_cases i <;> fin_cases j <;> simp [Fin.sum_univ_two] <;> norm_num
  · rw [hE]
    intro i j
    fin_cases i <;> fin_cases j <;> simp [Fin.sum_univ_two] <;> norm_num
  · rw [hL]
    intro a b hab
    fin_cases a <;> fin_cases b <;> simp at hab ⊢
  · intro i; fin_cases i <;> simp
  · rw [hE]
    ext i
    fin_cases i <;>
      simp [pack_eigen, align_col0, nondegenerate_cols, hind, minCoeff, finRange_two] <;>
      norm_num
  · rw [hE, hind]
    simp [pack_eigen, align_col0, nondegenerate_cols, hind, minCoeff, finRange_two]
    norm_num

/-! ### C4: the appended unit vector -/

/-- C4: when exactly one concentration is zero, at index `k`, `eigen_problem` returns and the
last column of `eigenvectorscols` (the last row of the padded `U`) is the unit vector of `k`:
a single non-zero entry, equal to 1, at `k`.  In dimension 2 that column is `v1`. -/
theorem eigen_problem_last_vector {N : Nat} (lib : EigenLib α) (model : Model α N) (hN : 2 ≤ N)
    (T : α) (rhovec : Fin N → α) (alignment_v0 : Option (Fin N → α)) (k : Fin N)
    (hk : rhovec k = 0) (hne : ∀ i, i ≠ k → rhovec i ≠ 0) :
    ∃ ed, eigen_problem lib model hN T rhovec alignment_v0 = .ok ed ∧
      (∀ i, ed.eigenvectorscols i ⟨N - 1, by omega⟩ = if i = k then 1 else 0) ∧
      (N = 2 → ∀ i, ed.v1 i = if i = k then 1 else 0) := by
  have hz : zero_count rhovec = 1 := zero_count_one_of_unique rhovec k hk hne
  refine ⟨_, eigen_problem_of_one lib model hN T rhovec alignment_v0 hz, ?_, ?_⟩
  · intro i
    simp only [pack_eigen]
    rw [align_col0_other _ _ _ _ _ (by simp only; omega), Matrix.transpose_apply,
      padded_U_last_row hN rhovec k hk hne]
  · intro h2 i
    subst h2
    simp only [pack_eigen]
    rw [align_col0_other _ _ _ _ _ (by simp), Matrix.transpose_apply]
    exact padded_U_last_row hN rhovec k hk hne _ i

/-- C4 at a concrete state: `rhovec = (2, 0)`, zero concentration at index 1. -/
theorem eigen_problem_last_vector_witness :
    (2 ≤ 2) ∧ ((![2, 0] : Fin 2 → ℚ) 1 = 0) ∧ (∀ i : Fin 2, i ≠ 1 → (![2, 0] : Fin 2 → ℚ) i ≠ 0) ∧
    ∃ ed, eigen_problem (diag_lib ℚ) (ideal_gas ℚ 2) (le_refl 2) 1 ![2, 0] none = .ok ed ∧
      (∀ i, ed.eigenvectorscols i ⟨2 - 1, by omega⟩ = if i = 1 then 1 else 0) ∧
      (2 = 2 → ∀ i, ed.v1 i = if i = 1 then 1 else 0) :=
  ⟨le_refl 2, by simp, by intro i; fin_cases i <;> simp,
    eigen_problem_last_vector (diag_lib ℚ) (ideal_gas ℚ 2) (le_refl 2) 1 ![2, 0] none 1
      (by simp) (by intro i; fin_cases i <;> simp)⟩

/-! ### C5: the invalid-argument error of `eigen_problem` -/

/-- C5: for a composition of dimension at least 2, `eigen_problem` raises the invalid-argument
error if and only if two or more concentrations are exactly zero, and with at most one zero
concentration it returns an `EigenData`. -/
theorem eigen_problem_error_iff {N : Nat} (lib : EigenLib α) (model : Model α N) (hN : 2 ≤ N)
    (T : α) (rhovec : Fin N → α) (alignment_v0 : Option (Fin N → α)) :
    ((∃ msg, eigen_problem lib model hN T rhovec alignment_v0 = .error (.invalid_argument msg)) ↔
      2 ≤ (Finset.univ.filter (fun i => rhovec i = 0)).card) ∧
    ((Finset.univ.filter (fun i => rhovec i = 0)).card ≤ 1 →
      ∃ ed, eigen_problem lib model hN T rhovec alignment_v0 = .ok ed) := by
  rw [← zero_count_eq_card]
  rcases Nat.lt_or_ge (zero_count rhovec) 2 with h | h
  · have h' : zero_count rhovec = 0 ∨ zero_count rhovec = 1 := by omega
    rcases h' with h' | h'
    · rw [eigen_problem_of_zero lib model hN T rhovec alignment_v0 h']
      simp [h']
    · rw [eigen_problem_of_one lib model hN T rhovec alignment_v0 h']
      simp [h']
  · rw [eigen_problem_of_many lib model hN T rhovec alignment_v0 h]
    refine ⟨⟨fun _ => h, fun _ => ⟨_, rfl⟩⟩, fun h1 => ?_⟩
    omega

/-- C5 at a concrete state: `rhovec = (0, 0)`. -/
theorem eigen_problem_error_iff_witness :
    (2 ≤ 2) ∧
    ((∃ msg, eigen_problem (diag_lib ℚ) (ideal_gas ℚ 2) (le_refl 2) 1 ![0, 0] none =
        .error (.invalid_argument msg)) ↔
      2 ≤ (Finset.univ.filter (fun i => (![0, 0] : Fin 2 → ℚ) i = 0)).card) ∧
    ((Finset.univ.filter (fun i => (![0, 0] : Fin 2 → ℚ) i = 0)).card ≤ 1 →
      ∃ ed, eigen_problem (diag_lib ℚ) (ideal_gas ℚ 2) (le_refl 2) 1 ![0, 0] none = .ok ed) :=
  ⟨le_refl 2, eigen_problem_error_iff (diag_lib ℚ) (ideal_gas ℚ 2) (le_refl 2) 1 ![0, 0] none⟩

/-! ### C6: the ideal-gas derivatives -/

section Analysis

open Filter Topology

/-- On an open set where `f` has derivative `g`, the iterated derivatives of `f` are those of
`g`, one order lower. -/
theorem iteratedDeriv_succ_of_hasDerivAt {f g : ℝ → ℝ} {U : Set ℝ} (hU : IsOpen U)
    (h : ∀ x ∈ U, HasDerivAt f (g x) x) (n : Nat) :
    ∀ x ∈ U, iteratedDeriv (n + 1) f x = iteratedDeriv n g x := by
  intro x hx
  rw [iteratedDeriv_succ']
  apply Filter.EventuallyEq.iteratedDeriv_eq
  filter_upwards [hU.mem_nhds hx] with y hy
  exact (h y hy).deriv

/-- The derivative of `s ↦ a + s * b`. -/
theorem line_hasDerivAt (a b s : ℝ) : HasDerivAt (fun s => a + s * b) b s := by
  simpa using ((hasDerivAt_id s).mul_const b).const_add a

/-- First derivative of one term `(a + s b) ln (a + s b)` of the ideal potential. -/
theorem ideal_term_deriv1 (a b s : ℝ) (h : a + s * b ≠ 0) :
    HasDerivAt (fun s => (a + s * b) * Real.log (a + s * b))
      (b * Real.log (a + s * b) + b) s := by
  have hh := line_hasDerivAt a b s
  convert hh.mul (hh.log h) using 1
  field_simp

/-- Second derivative of one term of the ideal potential. -/
theorem ideal_term_deriv2 (a b s : ℝ) (h : a + s * b ≠ 0) :
    HasDerivAt (fun s => b * Real.log (a + s * b) + b) (b ^ 2 / (a + s * b)) s := by
  have hh := line_hasDerivAt a b s
  convert ((hh.log h).const_mul b).add_const b using 1
  field_simp
  ring

/-- Third derivative of one term of the ideal potential. -/
theorem ideal_term_deriv3 (a b s : ℝ) (h : a + s * b ≠ 0) :
    HasDerivAt (fun s => b ^ 2 / (a + s * b)) (-b ^ 3 / (a + s * b) ^ 2) s := by
  have hh := line_hasDerivAt a b s
  convert (hh.inv h).const_mul (b ^ 2) using 1
  field_simp
  ring

/-- Fourth derivative of one term of the ideal potential. -/
theorem ideal_term_deriv4 (a b s : ℝ) (h : a + s * b ≠ 0) :
    HasDerivAt (fun s => -b ^ 3 / (a + s * b) ^ 2) (2 * b ^ 4 / (a + s * b) ^ 3) s := by
  have hh := line_hasDerivAt a b s
  have h2 : (a + s * b) ^ 2 ≠ 0 := pow_ne_zero 2 h
  convert ((hh.pow 2).inv h2).const_mul (-b ^ 3) using 1
  simp only [Nat.cast_ofNat, Nat.add_one_sub_one, pow_one]
  field_simp
  ring

/-- The derivatives of orders 2, 3, 4 at 0 of the ideal potential along `v`, for positive
concentrations. -/
theorem ideal_potential_derivs {N : Nat} (R T : ℝ) (v rho : Fin N → ℝ) (hpos : ∀ i, 0 < rho i) :
    iteratedDeriv 2
        (fun s => R * T * ∑ i, (rho i + s * v i) * Real.log (rho i + s * v i)) 0 =
      R * T * ∑ i, v i ^ 2 / rho i ∧
    iteratedDeriv 3
        (fun s => R * T * ∑ i, (rho i + s * v i) * Real.log (rho i + s * v i)) 0 =
      R * T * ∑ i, -v i ^ 3 / rho i ^ 2 ∧
    iteratedDeriv 4
        (fun s => R * T * ∑ i, (rho i + s * v i) * Real.log (rho i + s * v i)) 0 =
      R * T * ∑ i, 2 * v i ^ 4 / rho i ^ 3 := by
  have hU : IsOpen {s : ℝ | ∀ i, 0 < rho i + s * v i} := by
    simp only [Set.setOf_forall]
    exact isOpen_iInter_of_finite (fun i => isOpen_lt continuous_const (by fun_prop))
  have h0 : (0 : ℝ) ∈ {s : ℝ | ∀ i, 0 < rho i + s * v i} := by
    intro i; simpa using hpos i
  have d1 : ∀ s ∈ {s : ℝ | ∀ i, 0 < rho i + s * v i},
      HasDerivAt (fun s => R * T * ∑ i, (rho i + s * v i) * Real.log (rho i + s * v i))
        ((fun s => R * T * ∑ i, (v i * Real.log (rho i + s * v i) + v i)) s) s := by
    intro s hs
    exact (HasDerivAt.sum (fun i _ => ideal_term_deriv1 (rho i) (v i) s (hs i).ne')).const_mul _
  have d2 : ∀ s ∈ {s : ℝ | ∀ i, 0 < rho i + s * v i},
      HasDerivAt (fun s => R * T * ∑ i, (v i * Real.log (rho i + s * v i) + v i))
        ((fun s => R * T * ∑ i, v i ^ 2 / (rho i + s * v i)) s) s := by
    intro s hs
    exact (HasDerivAt.sum (fun i _ => ideal_term_deriv2 (rho i) (v i) s (hs i).ne')).const_mul _
  have d3 : ∀ s ∈ {s : ℝ | ∀ i, 0 < rho i + s * v i},
      HasDerivAt (fun s => R * T * ∑ i, v i ^ 2 / (rho i + s * v i))
        ((fun s => R * T * ∑ i, -v i ^ 3 / (rho i + s * v i) ^ 2) s) s := by
    intro s hs
    exact (HasDerivAt.sum (fun i _ => ideal_term_deriv3 (rho i) (v i) s (hs i).ne')).const_mul _
  have d4 : ∀ s ∈ {s : ℝ | ∀ i, 0 < rho i + s * v i},
      HasDerivAt (fun s => R * T * ∑ i, -v i ^ 3 / (rho i + s * v i) ^ 2)
        ((fun s => R * T * ∑ i, 2 * v i ^ 4 / (rho i + s * v i) ^ 3) s) s := by
    intro s hs
    exact (HasDerivAt.sum (fun i _ => ideal_term_deriv4 (rho i) (v i) s (hs i).ne')).const_mul _
  refine ⟨?_, ?_, ?_⟩
  · rw [iteratedDeriv_succ_of_hasDerivAt hU d1 1 0 h0, iteratedDeriv_succ_of_hasDerivAt hU d2 0 0 h0,
      iteratedDeriv_zero]
    simp
  · rw [iteratedDeriv_succ_of_hasDerivAt hU d1 2 0 h0, iteratedDeriv_succ_of_hasDerivAt hU d2 1 0 h0,
      iteratedDeriv_succ_of_hasDerivAt hU d3 0 0 h0, iteratedDeriv_zero]
    simp
  · rw [iteratedDeriv_succ_of_hasDerivAt hU d1 3 0 h0, iteratedDeriv_succ_of_hasDerivAt hU d2 2 0 h0,
      iteratedDeriv_succ_of_hasDerivAt hU d3 1 0 h0, iteratedDeriv_succ_of_hasDerivAt hU d4 0 0 h0,
      iteratedDeriv_zero]
    simp

end Analysis

/-- C6: the ideal-gas array `psi0_derivs` of `get_derivs`.  Entries 0 and 1 are the
placeholder `-1`; entries 2, 3, 4 are `R*T*Σ v0_i^2/rho_i`, `-R*T*Σ v0_i^3/rho_i^2` and
`2*R*T*Σ v0_i^4/rho_i^3`, summed over the species with `rho_i ≠ 0`; when every `rho_i` is
positive they are the second, third and fourth derivatives at `σ = 0` of
`σ ↦ R*T*Σ (rho_i + σ*v0_i) * ln (rho_i + σ*v0_i)`; and the `psi0` field returned by
`get_derivs` is this array for `R = model.R(molefrac)` and `v0 = ei.v0`. -/
theorem ideal_derivs_closed_form {N : Nat} (R T : ℝ) (v0 rhovec : Fin N → ℝ) :
    psi0_derivs R T v0 rhovec 0 = -1 ∧ psi0_derivs R T v0 rhovec 1 = -1 ∧
    psi0_derivs R T v0 rhovec 2 =
      R * T * ∑ i ∈ Finset.univ.filter (fun i => rhovec i ≠ 0), v0 i ^ 2 / rhovec i ∧
    psi0_derivs R T v0 rhovec 3 =
      -R * T * ∑ i ∈ Finset.univ.filter (fun i => rhovec i ≠ 0), v0 i ^ 3 / rhovec i ^ 2 ∧
    psi0_derivs R T v0 rhovec 4 =
      2 * R * T * ∑ i ∈ Finset.univ.filter (fun i => rhovec i ≠ 0), v0 i ^ 4 / rhovec i ^ 3 ∧
    ((∀ i, 0 < rhovec i) →
      psi0_derivs R T v0 rhovec 2 =
        iteratedDeriv 2
          (fun s => R * T * ∑ i, (rhovec i + s * v0 i) * Real.log (rhovec i + s * v0 i)) 0 ∧
      psi0_derivs R T v0 rhovec 3 =
        iteratedDeriv 3
          (fun s => R * T * ∑ i, (rhovec i + s * v0 i) * Real.log (rhovec i + s * v0 i)) 0 ∧
      psi0_derivs R T v0 rhovec 4 =
        iteratedDeriv 4
          (fun s => R * T * ∑ i, (rhovec i + s * v0 i) * Real.log (rhovec i + s * v0 i)) 0) ∧
    (∀ (lib : EigenLib ℝ) (model : Model ℝ N) (hN : 2 ≤ N) (a : Option (Fin N → ℝ))
        (d : psi1derivs ℝ N),
      get_derivs lib model hN T rhovec a = .ok d →
        d.psi0 = psi0_derivs (model.R (molefrac rhovec)) T d.ei.v0 rhovec) := by
  have h2 : psi0_derivs R T v0 rhovec 2 =
      R * T * ∑ i ∈ Finset.univ.filter (fun i => rhovec i ≠ 0), v0 i ^ 2 / rhovec i := by
    rw [psi0_derivs_eq, Finset.mul_sum, Finset.sum_filter]
    simp only [Matrix.cons_val_two, Matrix.tail_cons, Matrix.head_cons]
    refine Finset.sum_congr rfl (fun i _ => ?_)
    split <;> ring
  have h3 : psi0_derivs R T v0 rhovec 3 =
      -R * T * ∑ i ∈ Finset.univ.filter (fun i => rhovec i ≠ 0), v0 i ^ 3 / rhovec i ^ 2 := by
    rw [psi0_derivs_eq, Finset.mul_sum, Finset.sum_filter]
    simp only [Matrix.cons_val_three, Matrix.tail_cons, Matrix.head_cons]
    refine Finset.sum_congr rfl (fun i _ => ?_)
    split <;> ring
  have h4 : psi0_derivs R T v0 rhovec 4 =
      2 * R * T * ∑ i ∈ Finset.univ.filter (fun i => rhovec i ≠ 0), v0 i ^ 4 / rhovec i ^ 3 := by
    rw [psi0_derivs_eq, Finset.mul_sum, Finset.sum_filter]
    simp only [Matrix.cons_val_four, Matrix.tail_cons, Matrix.head_cons]
    refine Finset.sum_congr rfl (fun i _ => ?_)
    split <;> ring
  refine ⟨by rw [psi0_derivs_eq]; rfl, by rw [psi0_derivs_eq]; rfl, h2, h3, h4, ?_, ?_⟩
  · intro hpos
    have hfilter : Finset.univ.filter (fun i => rhovec i ≠ 0) = Finset.univ := by
      ext i; simp [(hpos i).ne']
    obtain ⟨e2, e3, e4⟩ := ideal_potential_derivs R T v0 rhovec hpos
    rw [h2, h3, h4, hfilter, e2, e3, e4]
    refine ⟨rfl, ?_, ?_⟩
    · rw [Finset.mul_sum, Finset.mul_sum]
      exact Finset.sum_congr rfl (fun i _ => by ring)
    · rw [Finset.mul_sum, Finset.mul_sum]
      exact Finset.sum_congr rfl (fun i _ => by ring)
  · intro lib model hN a d hd
    unfold get_derivs at hd
    cases he : eigen_problem lib model hN T rhovec a with
    | error e => rw [he] at hd; simp at hd
    | ok ei =>
      rw [he] at hd
      simp only [Except.ok.injEq] at hd
      subst hd
      rfl

/-- C6 at a concrete state: `R = T = 1`, `v0 = (1, 0)`, `rhovec = (2, 1)`. -/
theorem ideal_derivs_closed_form_witness :
    (∀ i, 0 < (![2, 1] : Fin 2 → ℝ) i) ∧
    psi0_derivs 1 1 ![1, 0] (![2, 1] : Fin 2 → ℝ) 2 =
      iteratedDeriv 2
        (fun s => 1 * 1 * ∑ i, ((![2, 1] : Fin 2 → ℝ) i + s * (![1, 0] : Fin 2 → ℝ) i) *
          Real.log ((![2, 1] : Fin 2 → ℝ) i + s * (![1, 0] : Fin 2 → ℝ) i)) 0 ∧
    psi0_derivs 1 1 ![1, 0] (![2, 1] : Fin 2 → ℝ) 3 =
      iteratedDeriv 3
        (fun s => 1 * 1 * ∑ i, ((![2, 1] : Fin 2 → ℝ) i + s * (![1, 0] : Fin 2 → ℝ) i) *
          Real.log ((![2, 1] : Fin 2 → ℝ) i + s * (![1, 0] : Fin 2 → ℝ) i)) 0 ∧
    psi0_derivs 1 1 ![1, 0] (![2, 1] : Fin 2 → ℝ) 4 =
      iteratedDeriv 4
        (fun s => 1 * 1 * ∑ i, ((![2, 1] : Fin 2 → ℝ) i + s * (![1, 0] : Fin 2 → ℝ) i) *
          Real.log ((![2, 1] : Fin 2 → ℝ) i + s * (![1, 0] : Fin 2 → ℝ) i)) 0 :=
  have hpos : ∀ i, 0 < (![2, 1] : Fin 2 → ℝ) i := by
    intro i; fin_cases i <;> simp
  ⟨hpos, (ideal_derivs_closed_form 1 1 ![1, 0] ![2, 1]).2.2.2.2.2.1 hpos⟩

/-! ### C7: selection of the secondary-direction stepping -/

/-- The test `all(v > 0)`. -/
theorem all_pos_iff (v : Fin 2 → α) : all_pos v = true ↔ ∀ i, 0 < v i := by
  simp [all_pos]

/-- What the secondary-direction block returns, by cases on the two positivity tests. -/
theorem secondary_difference_spec (gd : GetDerivs α) (T : α) (rhovec : Fin 2 → α)
    (derivs : Fin 5 → α) (ei : EigenData α 2) :
    match secondary_difference gd T rhovec derivs ei with
    | .ok (ds, desc) =>
      (desc = "conventional centered" ∧ (∀ i, 0 < rhovec_minus rhovec ei.v1 i) ∧
        (∀ i, 0 < rhovec_plus rhovec ei.v1 i) ∧
        ∃ ps ms, gd T (rhovec_plus rhovec ei.v1) (some ei.v0) = .ok ps ∧
          gd T (rhovec_minus rhovec ei.v1) (some ei.v0) = .ok ms ∧
          ds = fun k => (ps.tot k - ms.tot k) / (2.0 * sigma2 rhovec)) ∨
      (desc = "forward" ∧ ¬ (∀ i, 0 < rhovec_minus rhovec ei.v1 i) ∧
        (∀ i, 0 < rhovec_plus rhovec ei.v1 i) ∧
        ∃ ps p2, gd T (rhovec_plus rhovec ei.v1) (some ei.v0) = .ok ps ∧
          gd T (rhovec_2plus rhovec ei.v1) (some ei.v0) = .ok p2 ∧
          ds = fun k => (-3 * derivs k + 4 * ps.tot k - p2.tot k) / (2.0 * sigma2 rhovec)) ∨
      (desc = "backwards" ∧ (∀ i, 0 < rhovec_minus rhovec ei.v1 i) ∧
        ¬ (∀ i, 0 < rhovec_plus rhovec ei.v1 i) ∧
        ∃ ms m2, gd T (rhovec_minus rhovec ei.v1) (some ei.v0) = .ok ms ∧
          gd T (rhovec_2minus rhovec ei.v1) (some ei.v0) = .ok m2 ∧
          ds = fun k => (-3 * derivs k + 4 * ms.tot k - m2.tot k) / (-2.0 * sigma2 rhovec))
    | .error e =>
      (e = .invalid_argument "This is not possible I think." ∧
        ¬ (∀ i, 0 < rhovec_minus rhovec ei.v1 i) ∧ ¬ (∀ i, 0 < rhovec_plus rhovec ei.v1 i)) ∨
      (∃ rho a, gd T rho a = .error e ∧
        ((∀ i, 0 < rhovec_minus rhovec ei.v1 i) ∨ (∀ i, 0 < rhovec_plus rhovec ei.v1 i))) := by
  unfold secondary_difference
  by_cases hm : ∀ i, 0 < rhovec_minus rhovec ei.v1 i <;>
  by_cases hp : ∀ i, 0 < rhovec_plus rhovec ei.v1 i
  · have hm' := (all_pos_iff _).mpr hm
    have hp' := (all_pos_iff _).mpr hp
    simp only [hm', hp', Bool.and_self, if_true, bind, Except.bind]
    cases h1 : gd T (rhovec_plus rhovec ei.v1) (some ei.v0) with
    | error e => exact Or.inr ⟨_, _, h1, Or.inl hm⟩
    | ok ps =>
      cases h2 : gd T (rhovec_minus rhovec ei.v1) (some ei.v0) with
      | error e => exact Or.inr ⟨_, _, h2, Or.inl hm⟩
      | ok ms => exact Or.inl ⟨rfl, hm, hp, ps, ms, rfl, rfl, rfl⟩
  · have hm' := (all_pos_iff _).mpr hm
    have hp' : all_pos (rhovec_plus rhovec ei.v1) = false := by
      rw [← Bool.not_eq_true, all_pos_iff]; exact hp
    simp only [hm', hp', Bool.and_false, if_true, bind, Except.bind, Bool.false_eq_true, if_false]
    cases h1 : gd T (rhovec_minus rhovec ei.v1) (some ei.v0) with
    | error e => exact Or.inr ⟨_, _, h1, Or.inl hm⟩
    | ok ms =>
      cases h2 : gd T (rhovec_2minus rhovec ei.v1) (some ei.v0) with
      | error e => exact Or.inr ⟨_, _, h2, Or.inl hm⟩
      | ok m2 => exact Or.inr (Or.inr ⟨rfl, hm, hp, ms, m2, rfl, rfl, rfl⟩)
  · have hp' := (all_pos_iff _).mpr hp
    have hm' : all_pos (rhovec_minus rhovec ei.v1) = false := by
      rw [← Bool.not_eq_true, all_pos_iff]; exact hm
    simp only [hm', hp', Bool.false_and, if_true, bind, Except.bind, Bool.false_eq_true, if_false]
    cases h1 : gd T (rhovec_plus rhovec ei.v1) (some ei.v0) with
    | error e => exact Or.inr ⟨_, _, h1, Or.inr hp⟩
    | ok ps =>
      cases h2 : gd T (rhovec_2plus rhovec ei.v1) (some ei.v0) with
      | error e => exact Or.inr ⟨_, _, h2, Or.inr hp⟩
      | ok p2 => exact Or.inr (Or.inl ⟨rfl, hm, hp, ps, p2, rfl, rfl, rfl⟩)
  · have hp' : all_pos (rhovec_plus rhovec ei.v1) = false := by
      rw [← Bool.not_eq_true, all_pos_iff]; exact hp
    have hm' : all_pos (rhovec_minus rhovec ei.v1) = false := by
      rw [← Bool.not_eq_true, all_pos_iff]; exact hm
    simp only [hm', hp', Bool.false_and, Bool.false_eq_true, if_false]
    exact Or.inl ⟨trivial, hm, hp⟩

/-- The secondary-direction block when both perturbed compositions are all positive. -/
theorem secondary_centered (gd : GetDerivs α) (T : α) (rhovec : Fin 2 → α)
    (derivs : Fin 5 → α) (ei : EigenData α 2) (ps ms : psi1derivs α 2)
    (hm : ∀ i, 0 < rhovec_minus rhovec ei.v1 i) (hp : ∀ i, 0 < rhovec_plus rhovec ei.v1 i)
    (h1 : gd T (rhovec_plus rhovec ei.v1) (some ei.v0) = .ok ps)
    (h2 : gd T (rhovec_minus rhovec ei.v1) (some ei.v0) = .ok ms) :
    secondary_difference gd T rhovec derivs ei =
      .ok (fun k => (ps.tot k - ms.tot k) / (2.0 * sigma2 rhovec), "conventional centered") := by
  have hp' := (all_pos_iff _).mpr hp
  have hm' := (all_pos_iff _).mpr hm
  simp only [secondary_difference, hm', hp', Bool.and_self, if_true, bind, Except.bind, h1, h2]
  rfl

/-- The secondary-direction block when only `rhovec_plus` is all positive. -/
theorem secondary_forward (gd : GetDerivs α) (T : α) (rhovec : Fin 2 → α)
    (derivs : Fin 5 → α) (ei : EigenData α 2) (ps p2 : psi1derivs α 2)
    (hm : ¬ ∀ i, 0 < rhovec_minus rhovec ei.v1 i) (hp : ∀ i, 0 < rhovec_plus rhovec ei.v1 i)
    (h1 : gd T (rhovec_plus rhovec ei.v1) (some ei.v0) = .ok ps)
    (h2 : gd T (rhovec_2plus rhovec ei.v1) (some ei.v0) = .ok p2) :
    secondary_difference gd T rhovec derivs ei =
      .ok (fun k => (-3 * derivs k + 4 * ps.tot k - p2.tot k) / (2.0 * sigma2 rhovec),
        "forward") := by
  have hp' := (all_pos_iff _).mpr hp
  have hm' : all_pos (rhovec_minus rhovec ei.v1) = false := by
    rw [← Bool.not_eq_true, all_pos_iff]; exact hm
  simp only [secondary_difference, hm', hp', Bool.false_and, if_true, bind, Except.bind,
    Bool.false_eq_true, if_false, h1, h2]
  rfl

/-- The body of `get_drhovec_dT_crit` once its three base evaluations have succeeded. -/
theorem locals_eq_of_base (gd : GetDerivs α) (lib : EigenLib α) (T : α) (rhovec : Fin 2 → α)
    (d p m : psi1derivs α 2) (hd : gd T rhovec none = .ok d)
    (hp : gd (T + 1e-7) rhovec none = .ok p) (hm : gd (T - 1e-7) rhovec none = .ok m) :
    get_drhovec_dT_crit_locals gd lib T rhovec =
      match secondary_difference gd T rhovec d.tot d.ei with
      | .ok (ds, desc) =>
        .ok (tangent_solve lib d.tot (fun k => (p.tot k - m.tot k) / (2.0 * 1e-7)) d.ei ds desc)
      | .error e => .error e := by
  simp only [get_drhovec_dT_crit_locals, hd, hp, hm, bind, Except.bind, pure, Except.pure]
  cases secondary_difference gd T rhovec d.tot d.ei with
  | error e => rfl
  | ok x => rfl

/-- C7 (amended): in `get_drhovec_dT_crit`, once the three base evaluations of `get_derivs`
(at `T`, `T + 1e-7`, `T - 1e-7`) have succeeded, the stepping is chosen by strict positivity:
centered exactly when `rhovec_minus` and `rhovec_plus` are both all positive, forward exactly
when `rhovec_plus` is all positive and `rhovec_minus` is not, backwards exactly when
`rhovec_minus` is all positive and `rhovec_plus` is not, each with its difference formula;
and the error "This is not possible I think." is raised exactly when neither is all
positive. -/
theorem stepping_selection (lib : EigenLib α) (model : Model α 2) (T : α) (rhovec : Fin 2 → α)
    (d p m : psi1derivs α 2)
    (hd : get_derivs lib model (le_refl 2) T rhovec none = .ok d)
    (hp : get_derivs lib model (le_refl 2) (T + 1e-7) rhovec none = .ok p)
    (hm : get_derivs lib model (le_refl 2) (T - 1e-7) rhovec none = .ok m) :
    (∀ r, get_drhovec_dT_crit_locals (get_derivs lib model (le_refl 2)) lib T rhovec = .ok r →
      (r.stepping_desc = "conventional centered" ↔
        (∀ i, 0 < rhovec_minus rhovec d.ei.v1 i) ∧ (∀ i, 0 < rhovec_plus rhovec d.ei.v1 i)) ∧
      (r.stepping_desc = "forward" ↔
        ¬ (∀ i, 0 < rhovec_minus rhovec d.ei.v1 i) ∧ (∀ i, 0 < rhovec_plus rhovec d.ei.v1 i)) ∧
      (r.stepping_desc = "backwards" ↔
        (∀ i, 0 < rhovec_minus rhovec d.ei.v1 i) ∧ ¬ (∀ i, 0 < rhovec_plus rhovec d.ei.v1 i)) ∧
      (r.stepping_desc = "conventional centered" →
        ∃ ps ms,
          get_derivs lib model (le_refl 2) T (rhovec_plus rhovec d.ei.v1) (some d.ei.v0) = .ok ps ∧
          get_derivs lib model (le_refl 2) T (rhovec_minus rhovec d.ei.v1) (some d.ei.v0) = .ok ms ∧
          r.deriv_sigma2 = fun k => (ps.tot k - ms.tot k) / (2.0 * sigma2 rhovec)) ∧
      (r.stepping_desc = "forward" →
        ∃ ps p2,
          get_derivs lib model (le_refl 2) T (rhovec_plus rhovec d.ei.v1) (some d.ei.v0) = .ok ps ∧
          get_derivs lib model (le_refl 2) T (rhovec_2plus rhovec d.ei.v1) (some d.ei.v0) = .ok p2 ∧
          r.deriv_sigma2 =
            fun k => (-3 * d.tot k + 4 * ps.tot k - p2.tot k) / (2.0 * sigma2 rhovec)) ∧
      (r.stepping_desc = "backwards" →
        ∃ ms m2,
          get_derivs lib model (le_refl 2) T (rhovec_minus rhovec d.ei.v1) (some d.ei.v0) = .ok ms ∧
          get_derivs lib model (le_refl 2) T (rhovec_2minus rhovec d.ei.v1) (some d.ei.v0) = .ok m2 ∧
          r.deriv_sigma2 =
            fun k => (-3 * d.tot k + 4 * ms.tot k - m2.tot k) / (-2.0 * sigma2 rhovec))) ∧
    (get_drhovec_dT_crit_locals (get_derivs lib model (le_refl 2)) lib T rhovec =
        .error (.invalid_argument "This is not possible I think.") ↔
      ¬ (∀ i, 0 < rhovec_minus rhovec d.ei.v1 i) ∧ ¬ (∀ i, 0 < rhovec_plus rhovec d.ei.v1 i)) := by
  rw [locals_eq_of_base _ lib T rhovec d p m hd hp hm]
  have spec := secondary_difference_spec (get_derivs lib model (le_refl 2)) T rhovec d.tot d.ei
  cases hs : secondary_difference (get_derivs lib model (le_refl 2)) T rhovec d.tot d.ei with
  | error e =>
    rw [hs] at spec
    simp only [reduceCtorEq, false_implies, implies_true, true_and, Except.error.injEq]
    rcases spec with ⟨he, hm', hp'⟩ | ⟨rho, a, hg, hpos⟩
    · exact ⟨fun _ => ⟨hm', hp'⟩, fun _ => he⟩
    · have he := get_derivs_error _ _ _ _ _ _ _ hg
      constructor
      · intro h; rw [he] at h; exact absurd h (by decide)
      · rintro ⟨h1, h2⟩; rcases hpos with h | h
        · exact absurd h h1
        · exact absurd h h2
  | ok x =>
    obtain ⟨ds, desc⟩ := x
    rw [hs] at spec
    simp only [Except.ok.injEq, reduceCtorEq, false_iff, not_and, not_not]
    rcases spec with ⟨hdesc, hm', hp', ps, ms, h1, h2, h3⟩ | ⟨hdesc, hm', hp', ps, p2, h1, h2, h3⟩ |
        ⟨hdesc, hm', hp', ms, m2, h1, h2, h3⟩
    · refine ⟨?_, fun h => absurd hm' h⟩
      rintro r rfl
      simp only [tangent_solve, hdesc]
      refine ⟨⟨fun _ => ⟨hm', hp'⟩, fun _ => trivial⟩, ⟨fun h => absurd h (by decide), fun h => absurd hm' h.1⟩,
        ⟨fun h => absurd h (by decide), fun h => absurd hp' h.2⟩, fun _ => ⟨ps, ms, h1, h2, h3⟩,
        fun h => absurd h (by decide), fun h => absurd h (by decide)⟩
    · refine ⟨?_, fun _ => hp'⟩
      rintro r rfl
      simp only [tangent_solve, hdesc]
      refine ⟨⟨fun h => absurd h (by decide), fun h => absurd h.1 hm'⟩, ⟨fun _ => ⟨hm', hp'⟩, fun _ => trivial⟩,
        ⟨fun h => absurd h (by decide), fun h => absurd hp' h.2⟩, fun h => absurd h (by decide),
        fun _ => ⟨ps, p2, h1, h2, h3⟩, fun h => absurd h (by decide)⟩
    · refine ⟨?_, fun h => absurd hm' h⟩
      rintro r rfl
      simp only [tangent_solve, hdesc]
      refine ⟨⟨fun h => absurd h (by decide), fun h => absurd h.2 hp'⟩,
        ⟨fun h => absurd h (by decide), fun h => absurd hm' h.1⟩, ⟨fun _ => ⟨hm', hp'⟩, fun _ => trivial⟩,
        fun h => absurd h (by decide), fun h => absurd h (by decide), fun _ => ⟨ms, m2, h1, h2, h3⟩⟩

/-- C7 (amended) at a concrete state: ideal-gas mixture, `T = 1`, `rhovec = (2, 1)`. -/
theorem stepping_selection_witness :
    ∃ d p m,
      get_derivs (diag_lib ℚ) (ideal_gas ℚ 2) (le_refl 2) 1 ![2, 1] none = .ok d ∧
      get_derivs (diag_lib ℚ) (ideal_gas ℚ 2) (le_refl 2) (1 + 1e-7) ![2, 1] none = .ok p ∧
      get_derivs (diag_lib ℚ) (ideal_gas ℚ 2) (le_refl 2) (1 - 1e-7) ![2, 1] none = .ok m ∧
      ((∀ r, get_drhovec_dT_crit_locals (get_derivs (diag_lib ℚ) (ideal_gas ℚ 2) (le_refl 2))
          (diag_lib ℚ) 1 ![2, 1] = .ok r →
        (r.stepping_desc = "conventional centered" ↔
          (∀ i, 0 < rhovec_minus ![2, 1] d.ei.v1 i) ∧ (∀ i, 0 < rhovec_plus ![2, 1] d.ei.v1 i)) ∧
        (r.stepping_desc = "forward" ↔
          ¬ (∀ i, 0 < rhovec_minus ![2, 1] d.ei.v1 i) ∧ (∀ i, 0 < rhovec_plus ![2, 1] d.ei.v1 i)) ∧
        (r.stepping_desc = "backwards" ↔
          (∀ i, 0 < rhovec_minus ![2, 1] d.ei.v1 i) ∧ ¬ (∀ i, 0 < rhovec_plus ![2, 1] d.ei.v1 i)) ∧
        (r.stepping_desc = "conventional centered" →
          ∃ ps ms,
            get_derivs (diag_lib ℚ) (ideal_gas ℚ 2) (le_refl 2) 1 (rhovec_plus ![2, 1] d.ei.v1)
                (some d.ei.v0) = .ok ps ∧
            get_derivs (diag_lib ℚ) (ideal_gas ℚ 2) (le_refl 2) 1 (rhovec_minus ![2, 1] d.ei.v1)
                (some d.ei.v0) = .ok ms ∧
            r.deriv_sigma2 = fun k => (ps.tot k - ms.tot k) / (2.0 * sigma2 (![2, 1] : Fin 2 → ℚ))) ∧
        (r.stepping_desc = "forward" →
          ∃ ps p2,
            get_derivs (diag_lib ℚ) (ideal_gas ℚ 2) (le_refl 2) 1 (rhovec_plus ![2, 1] d.ei.v1)
                (some d.ei.v0) = .ok ps ∧
            get_derivs (diag_lib ℚ) (ideal_gas ℚ 2) (le_refl 2) 1 (rhovec_2plus ![2, 1] d.ei.v1)
                (some d.ei.v0) = .ok p2 ∧
            r.deriv_sigma2 =
              fun k => (-3 * d.tot k + 4 * ps.tot k - p2.tot k) /
                (2.0 * sigma2 (![2, 1] : Fin 2 → ℚ))) ∧
        (r.stepping_desc = "backwards" →
          ∃ ms m2,
            get_derivs (diag_lib ℚ) (ideal_gas ℚ 2) (le_refl 2) 1 (rhovec_minus ![2, 1] d.ei.v1)
                (some d.ei.v0) = .ok ms ∧
            get_derivs (diag_lib ℚ) (ideal_gas ℚ 2) (le_refl 2) 1 (rhovec_2minus ![2, 1] d.ei.v1)
                (some d.ei.v0) = .ok m2 ∧
            r.deriv_sigma2 =
              fun k => (-3 * d.tot k + 4 * ms.tot k - m2.tot k) /
                (-2.0 * sigma2 (![2, 1] : Fin 2 → ℚ)))) ∧
      (get_drhovec_dT_crit_locals (get_derivs (diag_lib ℚ) (ideal_gas ℚ 2) (le_refl 2))
          (diag_lib ℚ) 1 ![2, 1] =
          .error (.invalid_argument "This is not possible I think.") ↔
        ¬ (∀ i, 0 < rhovec_minus ![2, 1] d.ei.v1 i) ∧ ¬ (∀ i, 0 < rhovec_plus ![2, 1] d.ei.v1 i))) := by
  have hne : ∀ i : Fin 2, (![2, 1] : Fin 2 → ℚ) i ≠ 0 := by
    intro i; fin_cases i <;> norm_num
  obtain ⟨d, hd⟩ := get_derivs_ok_of_pos (diag_lib ℚ) (ideal_gas ℚ 2) (le_refl 2) 1 _ none hne
  obtain ⟨p, hp⟩ := get_derivs_ok_of_pos (diag_lib ℚ) (ideal_gas ℚ 2) (le_refl 2) (1 + 1e-7)
    _ none hne
  obtain ⟨m, hm⟩ := get_derivs_ok_of_pos (diag_lib ℚ) (ideal_gas ℚ 2) (le_refl 2) (1 - 1e-7)
    _ none hne
  exact ⟨d, p, m, hd, hp, hm, stepping_selection _ _ _ _ d p m hd hp hm⟩

/-- C7 (counterexample to the claim as stated): ideal-gas mixture, `T = 1`,
`rhovec = (49999/50000, 1/50000)`, so `sigma2 = 1/50000` and `v1 = (0, 1)`.  Both
`rhovec_plus` and `rhovec_minus = (49999/50000, 0)` have all concentrations non-negative,
yet the stepping used is the forward one, not the centered one. -/
theorem stepping_nonneg_counterexample :
    ∃ d r,
      get_derivs (diag_lib ℚ) (ideal_gas ℚ 2) (le_refl 2) 1 ![49999 / 50000, 1 / 50000] none =
        .ok d ∧
      (∀ i, 0 ≤ rhovec_plus ![49999 / 50000, 1 / 50000] d.ei.v1 i) ∧
      (∀ i, 0 ≤ rhovec_minus ![49999 / 50000, 1 / 50000] d.ei.v1 i) ∧
      get_drhovec_dT_crit_locals (get_derivs (diag_lib ℚ) (ideal_gas ℚ 2) (le_refl 2))
        (diag_lib ℚ) 1 ![49999 / 50000, 1 / 50000] = .ok r ∧
      r.stepping_desc = "forward" := by
  have hne : ∀ i : Fin 2, (![49999 / 50000, 1 / 50000] : Fin 2 → ℚ) i ≠ 0 := by
    intro i; fin_cases i <;> norm_num
  have hd := get_derivs_of_eigen _ _ _ _ _ _ _
    (eigen_problem_diag (ideal_gas ℚ 2) (le_refl 2) 1 _ hne none (Or.inl rfl))
  obtain ⟨p, hp⟩ := get_derivs_ok_of_pos (diag_lib ℚ) (ideal_gas ℚ 2) (le_refl 2) (1 + 1e-7)
    _ none hne
  obtain ⟨m, hm⟩ := get_derivs_ok_of_pos (diag_lib ℚ) (ideal_gas ℚ 2) (le_refl 2) (1 - 1e-7)
    _ none hne
  have hplus : ∀ i, 0 < rhovec_plus (![49999 / 50000, 1 / 50000] : Fin 2 → ℚ)
      (fun i => (1 : Matrix (Fin 2) (Fin 2) ℚ) i 1) i := by
    rw [Fin.forall_fin_two]
    constructor
    all_goals simp [rhovec_plus, sigma2, vsum, Fin.sum_univ_two]
    all_goals norm_num
  have h2plus : ∀ i, rhovec_2plus (![49999 / 50000, 1 / 50000] : Fin 2 → ℚ)
      (fun i => (1 : Matrix (Fin 2) (Fin 2) ℚ) i 1) i ≠ 0 := by
    rw [Fin.forall_fin_two]
    constructor
    all_goals simp [rhovec_2plus, sigma2, vsum, Fin.sum_univ_two]
    all_goals norm_num
  have hminus0 : rhovec_minus (![49999 / 50000, 1 / 50000] : Fin 2 → ℚ)
      (fun i => (1 : Matrix (Fin 2) (Fin 2) ℚ) i 1) 1 = 0 := by
    simp [rhovec_minus, sigma2, vsum, Fin.sum_univ_two]; norm_num
  have hminus : ∀ i, 0 ≤ rhovec_minus (![49999 / 50000, 1 / 50000] : Fin 2 → ℚ)
      (fun i => (1 : Matrix (Fin 2) (Fin 2) ℚ) i 1) i := by
    rw [Fin.forall_fin_two]
    constructor <;> simp [rhovec_minus, sigma2, vsum, Fin.sum_univ_two] <;> norm_num
  obtain ⟨ps, hps⟩ := get_derivs_ok_of_pos (diag_lib ℚ) (ideal_gas ℚ 2) (le_refl 2) 1
    _ (some (fun i => (1 : Matrix (Fin 2) (Fin 2) ℚ) i 0)) (fun i => (hplus i).ne')
  obtain ⟨p2, hp2⟩ := get_derivs_ok_of_pos (diag_lib ℚ) (ideal_gas ℚ 2) (le_refl 2) 1
    _ (some (fun i => (1 : Matrix (Fin 2) (Fin 2) ℚ) i 0)) h2plus
  have hloc := locals_eq_of_base _ (diag_lib ℚ) 1 _ _ p m hd hp hm
  rw [secondary_forward _ _ _ _ _ ps p2 (fun h => lt_irrefl (0 : ℚ) (lt_of_lt_of_eq (h 1) hminus0))
    hplus hps hp2] at hloc
  exact ⟨_, _, hd, fun i => (hplus i).le, hminus, hloc, rfl⟩

/-! ### C8: the perturbed compositions are non-negative -/

/-- The perturbation `sigma2` of a binary composition. -/
theorem sigma2_eq (rhovec : Fin 2 → α) :
    sigma2 rhovec = 2 / 100000 * (rhovec 0 + rhovec 1) := by
  simp only [sigma2, vsum, Fin.sum_univ_two]
  norm_num

/-- An entry of a unit vector of dimension 2 lies in `[-1, 1]`. -/
theorem abs_le_one_of_unit (a b : α) (h : a ^ 2 + b ^ 2 = 1) : -1 ≤ a ∧ a ≤ 1 := by
  constructor <;> nlinarith [sq_nonneg (a - 1), sq_nonneg (a + 1), sq_nonneg b]

/-- The arithmetic behind the one-sided steps: for a binary composition with non-negative
entries and positive total, and a direction with entries in `[-1, 1]`, if the single step
against the direction leaves some concentration non-positive then the double step along the
direction keeps every concentration non-negative. -/
theorem double_step_nonneg (r0 r1 a b : α) (h0 : 0 ≤ r0) (h1 : 0 ≤ r1) (hS : 0 < r0 + r1)
    (ha : -1 ≤ a ∧ a ≤ 1) (hb : -1 ≤ b ∧ b ≤ 1)
    (hneg : r0 - a * (2 / 100000 * (r0 + r1)) ≤ 0 ∨ r1 - b * (2 / 100000 * (r0 + r1)) ≤ 0) :
    0 ≤ r0 + 2 * a * (2 / 100000 * (r0 + r1)) ∧ 0 ≤ r1 + 2 * b * (2 / 100000 * (r0 + r1)) := by
  have hx1 : a * (r0 + r1) ≤ r0 + r1 := by nlinarith [ha.2]
  have hx2 : -(r0 + r1) ≤ a * (r0 + r1) := by nlinarith [ha.1]
  have hy1 : b * (r0 + r1) ≤ r0 + r1 := by nlinarith [hb.2]
  have hy2 : -(r0 + r1) ≤ b * (r0 + r1) := by nlinarith [hb.1]
  rcases hneg with h | h
  · constructor <;> nlinarith
  · constructor <;> nlinarith

/-- The guarded callee is the callee at a non-negative composition. -/
theorem nonneg_guard_eq (gd : GetDerivs α) (T : α) (rho : Fin 2 → α) (a : Option (Fin 2 → α))
    (h : ∀ i, 0 ≤ rho i) : nonneg_guard gd T rho a = gd T rho a := by
  simp [nonneg_guard, h]

/-- The perturbed compositions of each stepping are non-negative, for a non-negative binary
composition of positive total and a unit direction. -/
theorem stepping_points_nonneg (rhovec v1 : Fin 2 → α) (hrho : ∀ i, 0 ≤ rhovec i)
    (hS : 0 < vsum rhovec) (hv1 : v1 0 ^ 2 + v1 1 ^ 2 = 1) :
    ((¬ ∀ i, 0 < rhovec_minus rhovec v1 i) → ∀ i, 0 ≤ rhovec_2plus rhovec v1 i) ∧
    ((¬ ∀ i, 0 < rhovec_plus rhovec v1 i) → ∀ i, 0 ≤ rhovec_2minus rhovec v1 i) := by
  have hS' : 0 < rhovec 0 + rhovec 1 := by
    simpa [vsum, Fin.sum_univ_two] using hS
  have ha := abs_le_one_of_unit (v1 0) (v1 1) hv1
  have hb := abs_le_one_of_unit (v1 1) (v1 0) (by rw [add_comm]; exact hv1)
  constructor
  · intro hneg
    rw [Fin.forall_fin_two] at hneg
    simp only [rhovec_minus, sigma2_eq, not_and_or, not_lt] at hneg
    have := double_step_nonneg _ _ _ _ (hrho 0) (hrho 1) hS' ha hb hneg
    rw [Fin.forall_fin_two]
    simpa only [rhovec_2plus, sigma2_eq] using this
  · intro hneg
    rw [Fin.forall_fin_two] at hneg
    simp only [rhovec_plus, sigma2_eq, not_and_or, not_lt] at hneg
    have := double_step_nonneg (rhovec 0) (rhovec 1) (-v1 0) (-v1 1) (hrho 0) (hrho 1) hS'
      ⟨by linarith [ha.2], by linarith [ha.1]⟩ ⟨by linarith [hb.2], by linarith [hb.1]⟩
      (by rcases hneg with h | h
          · left; linarith
          · right; linarith)
    rw [Fin.forall_fin_two]
    simp only [rhovec_2minus, sigma2_eq]
    constructor <;> [linarith [this.1]; linarith [this.2]]

/-- The secondary-direction block never reaches the guard. -/
theorem secondary_guard_eq (gd : GetDerivs α) (T : α) (rhovec : Fin 2 → α)
    (derivs : Fin 5 → α) (ei : EigenData α 2) (hrho : ∀ i, 0 ≤ rhovec i)
    (hS : 0 < vsum rhovec) (hv1 : ei.v1 0 ^ 2 + ei.v1 1 ^ 2 = 1) :
    secondary_difference (nonneg_guard gd) T rhovec derivs ei =
      secondary_difference gd T rhovec derivs ei := by
  have hpts := stepping_points_nonneg rhovec ei.v1 hrho hS hv1
  unfold secondary_difference
  by_cases hm : ∀ i, 0 < rhovec_minus rhovec ei.v1 i <;>
  by_cases hp : ∀ i, 0 < rhovec_plus rhovec ei.v1 i
  · have hm' := (all_pos_iff _).mpr hm
    have hp' := (all_pos_iff _).mpr hp
    simp only [hm', hp', Bool.and_self, if_true]
    rw [nonneg_guard_eq gd T _ _ (fun i => (hp i).le), nonneg_guard_eq gd T _ _ (fun i => (hm i).le)]
  · have hm' := (all_pos_iff _).mpr hm
    have hp' : all_pos (rhovec_plus rhovec ei.v1) = false := by
      rw [← Bool.not_eq_true, all_pos_iff]; exact hp
    simp only [hm', hp', Bool.and_false, if_true, Bool.false_eq_true, if_false]
    rw [nonneg_guard_eq gd T _ _ (fun i => (hm i).le), nonneg_guard_eq gd T _ _ (hpts.2 hp)]
  · have hp' := (all_pos_iff _).mpr hp
    have hm' : all_pos (rhovec_minus rhovec ei.v1) = false := by
      rw [← Bool.not_eq_true, all_pos_iff]; exact hm
    simp only [hm', hp', Bool.false_and, if_true, Bool.false_eq_true, if_false]
    rw [nonneg_guard_eq gd T _ _ (fun i => (hp i).le), nonneg_guard_eq gd T _ _ (hpts.1 hm)]
  · have hp' : all_pos (rhovec_plus rhovec ei.v1) = false := by
      rw [← Bool.not_eq_true, all_pos_iff]; exact hp
    have hm' : all_pos (rhovec_minus rhovec ei.v1) = false := by
      rw [← Bool.not_eq_true, all_pos_iff]; exact hm
    simp only [hm', hp', Bool.false_and, Bool.false_eq_true, if_false]

/-- C8: for a binary composition with non-negative entries and positive total, and a
unit-norm secondary direction `v1`, `get_drhovec_dT_crit` never evaluates derivatives at a
composition with a negative concentration: replacing the callee by one that refuses such
compositions changes nothing.  Explicitly, the compositions of the selected stepping
(`rhovec_plus` and `rhovec_minus` when centered, `rhovec_plus` and `rhovec_2plus` when forward,
`rhovec_minus` and `rhovec_2minus` when backwards) have all concentrations non-negative. -/
theorem perturbed_compositions_nonneg (gd : GetDerivs α) (lib : EigenLib α) (T : α)
    (rhovec : Fin 2 → α) (hrho : ∀ i, 0 ≤ rhovec i) (hS : 0 < vsum rhovec)
    (hv1 : ∀ d, gd T rhovec none = .ok d → d.ei.v1 0 ^ 2 + d.ei.v1 1 ^ 2 = 1) :
    get_drhovec_dT_crit_locals (nonneg_guard gd) lib T rhovec =
      get_drhovec_dT_crit_locals gd lib T rhovec ∧
    ∀ d, gd T rhovec none = .ok d →
      ((∀ i, 0 < rhovec_minus rhovec d.ei.v1 i) ∧ (∀ i, 0 < rhovec_plus rhovec d.ei.v1 i) →
        (∀ i, 0 ≤ rhovec_plus rhovec d.ei.v1 i) ∧ (∀ i, 0 ≤ rhovec_minus rhovec d.ei.v1 i)) ∧
      (¬ (∀ i, 0 < rhovec_minus rhovec d.ei.v1 i) ∧ (∀ i, 0 < rhovec_plus rhovec d.ei.v1 i) →
        (∀ i, 0 ≤ rhovec_plus rhovec d.ei.v1 i) ∧ (∀ i, 0 ≤ rhovec_2plus rhovec d.ei.v1 i)) ∧
      ((∀ i, 0 < rhovec_minus rhovec d.ei.v1 i) ∧ ¬ (∀ i, 0 < rhovec_plus rhovec d.ei.v1 i) →
        (∀ i, 0 ≤ rhovec_minus rhovec d.ei.v1 i) ∧
          (∀ i, 0 ≤ rhovec_2minus rhovec d.ei.v1 i)) := by
  constructor
  · simp only [get_drhovec_dT_crit_locals, nonneg_guard_eq gd _ rhovec none hrho]
    cases hd : gd T rhovec none with
    | error e => rfl
    | ok d =>
      simp only [bind, Except.bind]
      rw [secondary_guard_eq gd T rhovec d.tot d.ei hrho hS (hv1 d hd)]
  · intro d hd
    have hpts := stepping_points_nonneg rhovec d.ei.v1 hrho hS (hv1 d hd)
    exact ⟨fun h => ⟨fun i => (h.2 i).le, fun i => (h.1 i).le⟩,
      fun h => ⟨fun i => (h.2 i).le, hpts.1 h.1⟩,
      fun h => ⟨fun i => (h.1 i).le, hpts.2 h.2⟩⟩

/-- In dimension 2 with one zero concentration, at `k`, the returned `v1` is the unit vector
of `k`. -/
theorem get_derivs_v1_degenerate (lib : EigenLib α) (model : Model α 2) (T : α)
    (rhovec : Fin 2 → α) (a : Option (Fin 2 → α)) (k : Fin 2) (hk : rhovec k = 0)
    (hne : ∀ i, i ≠ k → rhovec i ≠ 0) (d : psi1derivs α 2)
    (hd : get_derivs lib model (le_refl 2) T rhovec a = .ok d) :
    ∀ i, d.ei.v1 i = if i = k then 1 else 0 := by
  have hz := zero_count_one_of_unique rhovec k hk hne
  rw [get_derivs_of_eigen _ _ _ _ _ _ _ (eigen_problem_of_one lib model (le_refl 2) T rhovec a hz)]
    at hd
  simp only [Except.ok.injEq] at hd
  subst hd
  intro i
  simp only [pack_eigen]
  rw [align_col0_other _ _ _ _ _ (by simp), Matrix.transpose_apply]
  exact padded_U_last_row (le_refl 2) rhovec k hk hne _ i

/-- C8 at a concrete state: ideal-gas mixture, `T = 1`, `rhovec = (1, 0)`, where
`v1 = (0, 1)`. -/
theorem perturbed_compositions_nonneg_witness :
    (∀ i, 0 ≤ (![1, 0] : Fin 2 → ℚ) i) ∧ 0 < vsum (![1, 0] : Fin 2 → ℚ) ∧
    (∀ d, get_derivs (diag_lib ℚ) (ideal_gas ℚ 2) (le_refl 2) 1 ![1, 0] none = .ok d →
      d.ei.v1 0 ^ 2 + d.ei.v1 1 ^ 2 = 1) ∧
    get_drhovec_dT_crit_locals
        (nonneg_guard (get_derivs (diag_lib ℚ) (ideal_gas ℚ 2) (le_refl 2))) (diag_lib ℚ) 1
        ![1, 0] =
      get_drhovec_dT_crit_locals (get_derivs (diag_lib ℚ) (ideal_gas ℚ 2) (le_refl 2))
        (diag_lib ℚ) 1 ![1, 0] ∧
    ∀ d, get_derivs (diag_lib ℚ) (ideal_gas ℚ 2) (le_refl 2) 1 ![1, 0] none = .ok d →
      ((∀ i, 0 < rhovec_minus ![1, 0] d.ei.v1 i) ∧ (∀ i, 0 < rhovec_plus ![1, 0] d.ei.v1 i) →
        (∀ i, 0 ≤ rhovec_plus ![1, 0] d.ei.v1 i) ∧ (∀ i, 0 ≤ rhovec_minus ![1, 0] d.ei.v1 i)) ∧
      (¬ (∀ i, 0 < rhovec_minus ![1, 0] d.ei.v1 i) ∧ (∀ i, 0 < rhovec_plus ![1, 0] d.ei.v1 i) →
        (∀ i, 0 ≤ rhovec_plus ![1, 0] d.ei.v1 i) ∧ (∀ i, 0 ≤ rhovec_2plus ![1, 0] d.ei.v1 i)) ∧
      ((∀ i, 0 < rhovec_minus ![1, 0] d.ei.v1 i) ∧ ¬ (∀ i, 0 < rhovec_plus ![1, 0] d.ei.v1 i) →
        (∀ i, 0 ≤ rhovec_minus ![1, 0] d.ei.v1 i) ∧
          (∀ i, 0 ≤ rhovec_2minus ![1, 0] d.ei.v1 i)) := by
  have hrho : ∀ i, 0 ≤ (![1, 0] : Fin 2 → ℚ) i := by
    intro i; fin_cases i <;> simp
  have hS : 0 < vsum (![1, 0] : Fin 2 → ℚ) := by
    simp [vsum, Fin.sum_univ_two]
  have hv1 : ∀ d, get_derivs (diag_lib ℚ) (ideal_gas ℚ 2) (le_refl 2) 1 ![1, 0] none = .ok d →
      d.ei.v1 0 ^ 2 + d.ei.v1 1 ^ 2 = 1 := by
    intro d hd
    have h := get_derivs_v1_degenerate _ _ _ _ _ 1 (by simp)
      (by intro i; fin_cases i <;> simp) d hd
    rw [h 0, h 1]
    simp
  exact ⟨hrho, hS, hv1, perturbed_compositions_nonneg _ (diag_lib ℚ) 1 ![1, 0] hrho hS hv1⟩

/-! ### C9: singular tangent systems -/

/-- Every value returned by the body of `get_drhovec_dT_crit` is built by `tangent_solve`. -/
theorem locals_ok_shape (gd : GetDerivs α) (lib : EigenLib α) (T : α) (rhovec : Fin 2 → α)
    (r : DrhovecLocals α) (h : get_drhovec_dT_crit_locals gd lib T rhovec = .ok r) :
    ∃ d p m ds desc, gd T rhovec none = .ok d ∧ gd (T + 1e-7) rhovec none = .ok p ∧
      gd (T - 1e-7) rhovec none = .ok m ∧
      secondary_difference gd T rhovec d.tot d.ei = .ok (ds, desc) ∧
      r = tangent_solve lib d.tot (fun k => (p.tot k - m.tot k) / (2.0 * 1e-7)) d.ei ds desc := by
  cases hd : gd T rhovec none with
  | error e => simp [get_drhovec_dT_crit_locals, hd, bind, Except.bind] at h
  | ok d =>
    cases hp : gd (T + 1e-7) rhovec none with
    | error e => simp [get_drhovec_dT_crit_locals, hd, hp, bind, Except.bind] at h
    | ok p =>
      cases hm : gd (T - 1e-7) rhovec none with
      | error e => simp [get_drhovec_dT_crit_locals, hd, hp, hm, bind, Except.bind] at h
      | ok m =>
        rw [locals_eq_of_base gd lib T rhovec d p m hd hp hm] at h
        cases hs : secondary_difference gd T rhovec d.tot d.ei with
        | error e => rw [hs] at h; simp at h
        | ok x =>
          obtain ⟨ds, desc⟩ := x
          rw [hs] at h
          simp only [Except.ok.injEq] at h
          exact ⟨d, p, m, ds, desc, rfl, rfl, rfl, hs, h.symm⟩

/-- Every error of the body of `get_drhovec_dT_crit` is an error of the callee or the error of
the stepping selection. -/
theorem locals_error_source (gd : GetDerivs α) (lib : EigenLib α) (T : α) (rhovec : Fin 2 → α)
    (e : Error) (h : get_drhovec_dT_crit_locals gd lib T rhovec = .error e) :
    (∃ T1 rho a, gd T1 rho a = .error e) ∨
      e = .invalid_argument "This is not possible I think." := by
  cases hd : gd T rhovec none with
  | error e1 =>
    simp [get_drhovec_dT_crit_locals, hd, bind, Except.bind] at h
    exact Or.inl ⟨_, _, _, h ▸ hd⟩
  | ok d =>
    cases hp : gd (T + 1e-7) rhovec none with
    | error e1 =>
      simp [get_drhovec_dT_crit_locals, hd, hp, bind, Except.bind] at h
      exact Or.inl ⟨_, _, _, h ▸ hp⟩
    | ok p =>
      cases hm : gd (T - 1e-7) rhovec none with
      | error e1 =>
        simp [get_drhovec_dT_crit_locals, hd, hp, hm, bind, Except.bind] at h
        exact Or.inl ⟨_, _, _, h ▸ hm⟩
      | ok m =>
        rw [locals_eq_of_base gd lib T rhovec d p m hd hp hm] at h
        have spec := secondary_difference_spec gd T rhovec d.tot d.ei
        cases hs : secondary_difference gd T rhovec d.tot d.ei with
        | ok x => rw [hs] at h; simp at h
        | error e1 =>
          rw [hs] at h spec
          simp only [Except.error.injEq] at h
          subst h
          rcases spec with ⟨he, _⟩ | ⟨rho, a, hg, _⟩
          · exact Or.inr he
          · exact Or.inl ⟨_, _, _, hg⟩

/-- C9 (amended): `get_drhovec_dT_crit` makes no singularity test.  Whenever its body runs to
the end, the returned vector is what `colPivHouseholderQr().solve` gives for `LHS` and `RHS`,
whatever the determinant of `LHS`; and its only errors are the invalid-argument error of
`eigen_problem` (raised through `get_derivs`) and the one of the stepping selection. -/
theorem tangent_solve_unchecked (lib : EigenLib α) (model : Model α 2) (T : α)
    (rhovec : Fin 2 → α) :
    (∀ r, get_drhovec_dT_crit_locals (get_derivs lib model (le_refl 2)) lib T rhovec = .ok r →
      r.drhovec_dT = lib.colPivHouseholderQr_solve r.LHS r.RHS ∧
      get_drhovec_dT_crit lib model T rhovec = .ok r.drhovec_dT) ∧
    (∀ e, get_drhovec_dT_crit lib model T rhovec = .error e →
      e = .invalid_argument
          "More than one non-zero concentration value found; not currently supported" ∨
        e = .invalid_argument "This is not possible I think.") := by
  constructor
  · intro r h
    obtain ⟨d, p, m, ds, desc, -, -, -, -, hr⟩ := locals_ok_shape _ _ _ _ _ h
    refine ⟨by rw [hr]; rfl, ?_⟩
    simp [get_drhovec_dT_crit, h]
  · intro e h
    have h' : get_drhovec_dT_crit_locals (get_derivs lib model (le_refl 2)) lib T rhovec =
        .error e := by
      unfold get_drhovec_dT_crit at h
      cases hl : get_drhovec_dT_crit_locals (get_derivs lib model (le_refl 2)) lib T rhovec with
      | ok r => rw [hl] at h; simp at h
      | error e1 => rw [hl] at h; simp at h; rw [h]
    rcases locals_error_source _ _ _ _ _ h' with ⟨T1, rho, a, hg⟩ | he
    · exact Or.inl (get_derivs_error _ _ _ _ _ _ _ hg)
    · exact Or.inr he

/-- The evaluation of `get_drhovec_dT_crit` for an ideal-gas mixture at `T = 1`,
`rhovec = (2, 1)`: it returns, and the system matrix is `[[-1/4, 0], [1/4, 0]]`. -/
theorem ideal_gas_tangent_system :
    ∃ r, get_drhovec_dT_crit_locals (get_derivs (diag_lib ℚ) (ideal_gas ℚ 2) (le_refl 2))
        (diag_lib ℚ) 1 ![2, 1] = .ok r ∧
      r.LHS = !![-1 / 4, 0; 1 / 4, 0] := by
  have hne : ∀ i : Fin 2, (![2, 1] : Fin 2 → ℚ) i ≠ 0 := by
    intro i; fin_cases i <;> norm_num
  have hd := get_derivs_diag (ideal_gas ℚ 2) (le_refl 2) 1 _ hne none (Or.inl rfl)
  have hp := get_derivs_diag (ideal_gas ℚ 2) (le_refl 2) (1 + 1e-7) _ hne none (Or.inl rfl)
  have hm := get_derivs_diag (ideal_gas ℚ 2) (le_refl 2) (1 - 1e-7) _ hne none (Or.inl rfl)
  have hplus : ∀ i, 0 < rhovec_plus (![2, 1] : Fin 2 → ℚ)
      (fun i => (1 : Matrix (Fin 2) (Fin 2) ℚ) i 1) i := by
    rw [Fin.forall_fin_two]
    constructor
    all_goals simp [rhovec_plus, sigma2, vsum, Fin.sum_univ_two]
    all_goals norm_num
  have hminus : ∀ i, 0 < rhovec_minus (![2, 1] : Fin 2 → ℚ)
      (fun i => (1 : Matrix (Fin 2) (Fin 2) ℚ) i 1) i := by
    rw [Fin.forall_fin_two]
    constructor
    all_goals simp [rhovec_minus, sigma2, vsum, Fin.sum_univ_two]
    all_goals norm_num
  have hps := get_derivs_diag (ideal_gas ℚ 2) (le_refl 2) 1 _ (fun i => (hplus i).ne')
    (some (fun i => (1 : Matrix (Fin 2) (Fin 2) ℚ) i 0)) (Or.inr rfl)
  have hms := get_derivs_diag (ideal_gas ℚ 2) (le_refl 2) 1 _ (fun i => (hminus i).ne')
    (some (fun i => (1 : Matrix (Fin 2) (Fin 2) ℚ) i 0)) (Or.inr rfl)
  have hloc := locals_eq_of_base _ (diag_lib ℚ) 1 _ _ _ _ hd hp hm
  rw [secondary_centered _ _ _ _ _ _ _ hminus hplus hps hms] at hloc
  refine ⟨_, hloc, ?_⟩
  clear hd hp hm hps hms hloc
  ext i j
  fin_cases i <;> fin_cases j <;>
    simp only [tangent_solve, Matrix.transpose_apply, Matrix.mul_apply, Fin.sum_univ_two] <;>
    simp [pack_eigen, psi0_derivs_eq, Fin.sum_univ_two, ideal_gas,
      rhovec_plus, rhovec_minus, Matrix.one_apply] <;> norm_num

/-- C9 (amended) at a concrete state with a singular system: ideal-gas mixture, `T = 1`,
`rhovec = (2, 1)`. -/
theorem tangent_solve_unchecked_witness :
    ∃ r, get_drhovec_dT_crit_locals (get_derivs (diag_lib ℚ) (ideal_gas ℚ 2) (le_refl 2))
        (diag_lib ℚ) 1 ![2, 1] = .ok r ∧
      r.LHS = !![-1 / 4, 0; 1 / 4, 0] ∧
      r.drhovec_dT = (diag_lib ℚ).colPivHouseholderQr_solve r.LHS r.RHS ∧
      get_drhovec_dT_crit (diag_lib ℚ) (ideal_gas ℚ 2) 1 ![2, 1] = .ok r.drhovec_dT := by
  obtain ⟨r, hr, hL⟩ := ideal_gas_tangent_system
  exact ⟨r, hr, hL, (tangent_solve_unchecked (diag_lib ℚ) (ideal_gas ℚ 2) 1 ![2, 1]).1 r hr⟩

/-- C9 (counterexample to the claim as stated): for an ideal-gas mixture at `T = 1`,
`rhovec = (2, 1)` the system matrix `LHS` is `[[-1/4, 0], [1/4, 0]]`, of determinant 0, and
`get_drhovec_dT_crit` returns a vector instead of failing. -/
theorem singular_system_counterexample :
    ∃ r, get_drhovec_dT_crit_locals (get_derivs (diag_lib ℚ) (ideal_gas ℚ 2) (le_refl 2))
        (diag_lib ℚ) 1 ![2, 1] = .ok r ∧
      r.LHS = !![-1 / 4, 0; 1 / 4, 0] ∧ r.LHS.det = 0 ∧
      get_drhovec_dT_crit (diag_lib ℚ) (ideal_gas ℚ 2) 1 ![2, 1] = .ok r.drhovec_dT := by
  obtain ⟨r, hr, hL⟩ := ideal_gas_tangent_system
  refine ⟨r, hr, hL, ?_, ?_⟩
  · rw [hL, Matrix.det_fin_two]
    simp
  · simp [get_drhovec_dT_crit, hr]

/-! ### C10: the finiteness test of the polishers -/

/-- C10 (evaluation at failing inputs): the root-finder returns a vector whose coordinate 0 is
NaN and whose other coordinates are finite.  `critical_polish_fixedT` (which tests `T` and
`x[1]`) returns that vector, and `critical_polish_fixedrho` (which tests `T`, `x[1]`, `x[2]`)
returns NaN as temperature, instead of failing; `critical_polish_molefrac`, which tests
`x[0]` and `x[1]`, fails on the same root-finder output. -/
theorem polish_nonfinite_x0 :
    Dbl.isfinite .nan = false ∧
    critical_polish_fixedT flat_derivs nan_solver Dbl.isfinite (.fin 300) ![.fin 1, .fin 2] =
      .ok ![.nan, .fin 2] ∧
    critical_polish_fixedrho flat_derivs nan_solver Dbl.isfinite (.fin 300) ![.fin 1, .fin 2] 0 =
      .ok (.nan, ![.fin 1, .fin 2]) ∧
    critical_polish_molefrac flat_derivs nan_solver Dbl.isfinite (.fin 300) ![.fin 1, .fin 2]
        (.fin (1 / 3)) =
      .error (.invalid_argument "Something not finite; aborting polishing") := by
  refine ⟨rfl, ?_, ?_, ?_⟩
  · have h : (fun i : Fin 2 => if i.val = 0 then Dbl.nan else (![.fin 1, .fin 2] : Fin 2 → Dbl) i) =
        ![.nan, .fin 2] := by
      funext i; fin_cases i <;> rfl
    simp [critical_polish_fixedT, flat_derivs, nan_solver, bind, Except.bind, pure, Except.pure,
      Dbl.isfinite, h]
  · simp [critical_polish_fixedrho, flat_derivs, nan_solver, bind, Except.bind, pure,
      Except.pure, Dbl.isfinite]
  · simp [critical_polish_molefrac, flat_derivs, nan_solver, bind, Except.bind, pure,
      Except.pure, Dbl.isfinite, throw, throwThe, MonadExceptOf.throw]

/-- What holds of C10: a value returned by `critical_polish_molefrac` comes from a root-finder
output whose two coordinates are finite. -/
theorem polish_molefrac_finite {β : Type} [Add β] [Mul β] [Sub β] [One β] [OfScientific β]
    (gd : GetDerivsB β) (NewtonRaphson : NewtonSolver β) (isfinite : β → Bool) (T : β)
    (rhovec : Fin 2 → β) (z0 : β) (r : β × (Fin 2 → β))
    (h : critical_polish_molefrac gd NewtonRaphson isfinite T rhovec z0 = .ok r) :
    ∃ f x, NewtonRaphson 2 f ![T, rhovec 0 + rhovec 1] 1e-10 = .ok x ∧
      isfinite (x 0) = true ∧ isfinite (x 1) = true ∧
      r = (x 0, ![x 1 * z0, x 1 * (1 - z0)]) := by
  unfold critical_polish_molefrac at h
  simp only [bind, Except.bind, pure, Except.pure] at h
  split at h
  · simp at h
  · split at h
    · simp at h
    · rename_i x hx
      split at h
      · simp at h
      · split at h
        · simp [throw, throwThe, MonadExceptOf.throw] at h
        · rename_i hfin
          simp only [Except.ok.injEq] at h
          simp only [Bool.or_eq_true, Bool.not_eq_true', not_or, Bool.not_eq_false] at hfin
          exact ⟨_, x, hx, hfin.1, hfin.2, h.symm⟩

/-! ### The tracer: `xprime`, `store_point` and the loop body -/

/-- The vector written by `xprime` before the direction test, from the tangent `drhodT`. -/
theorem xprime_of_tangent (env : Env α) (c : α) (last : Option (Fin 2 → α)) (x : state_type α)
    (d : Fin 2 → α)
    (h : get_drhovec_dT_crit env.lib env.model (x 0) (fun i => x i.succ) = .ok d) :
    xprime env c last x =
      .ok (match last with
        | some l =>
          if dot (fun i => c * (d i * (1.0 / norm env.sqrt d))) l < 0 then
            fun i => ![c * (1.0 / norm env.sqrt d), c * (d 0 * (1.0 / norm env.sqrt d)),
              c * (d 1 * (1.0 / norm env.sqrt d))] i * -1
          else ![c * (1.0 / norm env.sqrt d), c * (d 0 * (1.0 / norm env.sqrt d)),
              c * (d 1 * (1.0 / norm env.sqrt d))]
        | none => ![c * (1.0 / norm env.sqrt d), c * (d 0 * (1.0 / norm env.sqrt d)),
              c * (d 1 * (1.0 / norm env.sqrt d))]) := by
  unfold xprime
  simp only [h, bind, Except.bind, pure, Except.pure]
  cases last with
  | none => rfl
  | some l =>
    simp only
    split <;> rfl

/-- The lambda `xprime` raises exactly the error of the tangent evaluation. -/
theorem xprime_error (env : Env α) (c : α) (last : Option (Fin 2 → α)) (x : state_type α)
    (e : Error)
    (h : get_drhovec_dT_crit env.lib env.model (x 0) (fun i => x i.succ) = .error e) :
    xprime env c last x = .error e := by
  unfold xprime
  simp only [h, bind, Except.bind]

/-- Whether `xprime` returns does not depend on `c` and `last_drhodt`. -/
theorem xprime_ok_iff (env : Env α) (c : α) (last : Option (Fin 2 → α)) (x : state_type α) :
    (∃ dx, xprime env c last x = .ok dx) ↔
      ∃ d, get_drhovec_dT_crit env.lib env.model (x 0) (fun i => x i.succ) = .ok d := by
  cases h : get_drhovec_dT_crit env.lib env.model (x 0) (fun i => x i.succ) with
  | error e => simp [xprime_error env c last x e h]
  | ok d => simp [xprime_of_tangent env c last x d h]

/-- The tangent evaluation begins with the derivative evaluation of the criticality
conditions: when it returns, so do they. -/
theorem conditions_ok_of_tangent (lib : EigenLib α) (model : Model α 2) (T : α)
    (rhovec : Fin 2 → α) (d : Fin 2 → α) (h : get_drhovec_dT_crit lib model T rhovec = .ok d) :
    ∃ cond, get_criticality_conditions lib model (le_refl 2) T rhovec = .ok cond := by
  unfold get_drhovec_dT_crit at h
  cases hl : get_drhovec_dT_crit_locals (get_derivs lib model (le_refl 2)) lib T rhovec with
  | error e => rw [hl] at h; simp at h
  | ok r =>
    obtain ⟨dd, p, m, ds, desc, hd, -, -, -, -⟩ := locals_ok_shape _ _ _ _ _ hl
    exact ⟨![dd.tot 2, dd.tot 3], by simp [get_criticality_conditions, hd]⟩

/-- What `store_point` does when it returns: one object is appended. -/
theorem store_point_ok (env : Env α) (c : α) (last : Option (Fin 2 → α)) (x0 : state_type α)
    (t : α) (J J1 : List (TracePoint α)) (h : store_point env c last x0 t J = .ok J1) :
    ∃ cond dxdt,
      get_criticality_conditions env.lib env.model (le_refl 2) (x0 0) (fun i => x0 i.succ) =
        .ok cond ∧
      xprime env c last x0 = .ok dxdt ∧ J1 = J ++ [trace_point env c x0 t cond dxdt] := by
  unfold store_point at h
  simp only [bind, Except.bind, pure, Except.pure] at h
  split at h
  · simp at h
  · rename_i cond hc
    split at h
    · simp at h
    · rename_i dxdt hx
      simp only [Except.ok.injEq] at h
      exact ⟨cond, dxdt, hc, hx, h.symm⟩

/-- The value of `store_point` when its two evaluations return. -/
theorem store_point_eq (env : Env α) (c : α) (last : Option (Fin 2 → α)) (x0 : state_type α)
    (t : α) (J : List (TracePoint α)) (cond : Fin 2 → α) (dxdt : state_type α)
    (hc : get_criticality_conditions env.lib env.model (le_refl 2) (x0 0)
      (fun i => x0 i.succ) = .ok cond)
    (hx : xprime env c last x0 = .ok dxdt) :
    store_point env c last x0 t J = .ok (J ++ [trace_point env c x0 t cond dxdt]) := by
  unfold store_point
  simp only [hc, hx, bind, Except.bind, pure, Except.pure]

/-- The outcomes of the part of the loop body that follows an accepted step. -/
theorem after_step_ok (env : Env α) (o : TCABOptions α) (f : String) (c : α)
    (st : TraceState α) (xs : state_type α) (fl : Flow α)
    (h : after_step env o f c st xs = .ok fl) :
    fl.state.iter = st.iter ∧ fl.state.retry_count = st.retry_count ∧ fl.state.t = st.t ∧
    fl.state.dt = st.dt ∧
    ((z0_outside st.x0 = true ∧ fl = .stop st) ∨
     (z0_outside st.x0 = false ∧ fl.state.x0 = polish_block env o st.x0 ∧
      fl.state.counter_T_converged =
        small_T_counter o (polish_block env o st.x0) xs st.counter_T_converged ∧
      direction_block env o c st xs = .ok fl.state.last_drhodt ∧
      ((z0_outside (polish_block env o st.x0) = true ∧ fl.stops = true ∧
          fl.state.JSONdata = st.JSONdata) ∨
       (z0_outside (polish_block env o st.x0) = false ∧
          store_point env c fl.state.last_drhodt (polish_block env o st.x0) st.t st.JSONdata =
            .ok fl.state.JSONdata ∧
          (fl.stops = true ↔ fl.state.counter_T_converged > o.small_T_count))))) := by
  unfold after_step at h
  by_cases h1 : z0_outside st.x0 = true
  · simp only [h1, if_true, pure, Except.pure, Except.ok.injEq] at h
    subst h
    exact ⟨rfl, rfl, rfl, rfl, Or.inl ⟨h1, rfl⟩⟩
  · simp only [h1, if_false, bind, Except.bind] at h
    rw [Bool.not_eq_true] at h1
    cases hl : direction_block env o c st xs with
    | error e => simp [hl] at h
    | ok last =>
      simp only [hl] at h
      by_cases h2 : z0_outside (polish_block env o st.x0) = true
      · simp only [h1, h2, Bool.false_eq_true, if_true, if_false, pure, Except.pure, Except.ok.injEq] at h
        subst h
        exact ⟨rfl, rfl, rfl, rfl, Or.inr ⟨h1, rfl, rfl, rfl, Or.inl ⟨h2, rfl, rfl⟩⟩⟩
      · simp only [h2, if_false] at h
        rw [Bool.not_eq_true] at h2
        cases hw : write_line_block env f (polish_block env o st.x0) with
        | error e => simp [hw] at h
        | ok u =>
          simp only [hw] at h
          cases hJ : store_point env c last (polish_block env o st.x0) st.t st.JSONdata with
          | error e => simp [hJ] at h
          | ok J =>
            simp only [hJ] at h
            by_cases h3 : small_T_counter o (polish_block env o st.x0) xs st.counter_T_converged >
                o.small_T_count
            · simp only [h1, h2, h3, Bool.false_eq_true, if_true, if_false, pure, Except.pure, Except.ok.injEq] at h
              subst h
              exact ⟨rfl, rfl, rfl, rfl, Or.inr ⟨h1, rfl, rfl, rfl, Or.inr ⟨h2, hJ,
                by simp [Flow.stops, Flow.state, h3]⟩⟩⟩
            · simp only [h1, h2, h3, Bool.false_eq_true, if_true, if_false, pure, Except.pure, Except.ok.injEq] at h
              subst h
              exact ⟨rfl, rfl, rfl, rfl, Or.inr ⟨h1, rfl, rfl, rfl, Or.inr ⟨h2, hJ,
                by simp [Flow.stops, Flow.state, h3]⟩⟩⟩

/-- The outcomes of a pass through the loop body that raises nothing. -/
theorem loop_body_ok (env : Env α) (o : TCABOptions α) (f : String) (c : α)
    (st : TraceState α) (fl : Flow α) (h : loop_body env o f c st = .ok fl) :
    ∃ dx J0, get_dxdt env c st.last_drhodt st.x0 = .ok dx ∧
      first_point_block env c st = .ok J0 ∧
      ((fl = .stop { st with JSONdata := J0 } ∧
          ((o.integration_order = 5 ∧
              ∃ e, env.stepper.try_step o.abs_err o.rel_err (xprime env c st.last_drhodt)
                st.x0 st.t st.dt = .error e) ∨
           (o.integration_order = 1 ∧
              ∃ e, env.stepper.do_step (xprime env c st.last_drhodt) st.x0 st.t st.dt =
                .error e))) ∨
       (o.integration_order = 5 ∧
          ∃ res x t dt, env.stepper.try_step o.abs_err o.rel_err (xprime env c st.last_drhodt)
              st.x0 st.t st.dt = .ok (res, x, t, dt) ∧ res ≠ .success ∧
            fl = .next { st with
                          iter := st.iter - 1, retry_count := st.retry_count + 1,
                          x0 := x, t := t, dt := dt, JSONdata := J0 }) ∨
       (o.integration_order = 5 ∧
          ∃ x t dt, env.stepper.try_step o.abs_err o.rel_err (xprime env c st.last_drhodt)
              st.x0 st.t st.dt = .ok (.success, x, t, dt) ∧
            after_step env o f c
              { st with
                  retry_count := 0, x0 := x, t := t, dt := min dt o.max_dt, JSONdata := J0 }
              st.x0 = .ok fl) ∨
       (o.integration_order = 1 ∧
          ∃ x, env.stepper.do_step (xprime env c st.last_drhodt) st.x0 st.t st.dt = .ok x ∧
            after_step env o f c { st with x0 := x, t := st.t + st.dt, JSONdata := J0 }
              st.x0 = .ok fl)) := by
  unfold loop_body at h
  simp only [bind, Except.bind] at h
  cases hd : get_dxdt env c st.last_drhodt st.x0 with
  | error e => simp [hd] at h
  | ok dx =>
    simp only [hd] at h
    cases hJ : first_point_block env c st with
    | error e => simp [hJ] at h
    | ok J0 =>
      simp only [hJ] at h
      refine ⟨dx, J0, rfl, rfl, ?_⟩
      by_cases h5 : o.integration_order = 5
      · simp only [h5, if_true] at h
        cases ht : env.stepper.try_step o.abs_err o.rel_err (xprime env c st.last_drhodt)
            st.x0 st.t st.dt with
        | error e =>
          simp only [ht, pure, Except.pure, Except.ok.injEq] at h
          exact Or.inl ⟨h.symm, Or.inl ⟨h5, e, rfl⟩⟩
        | ok r =>
          obtain ⟨res, x, t, dt⟩ := r
          simp only [ht] at h
          by_cases hr : res = .success
          · subst hr
            simp only [ne_eq, not_true_eq_false, if_false] at h
            exact Or.inr (Or.inr (Or.inl ⟨h5, x, t, dt, rfl, h⟩))
          · simp only [ne_eq, hr, not_false_eq_true, if_true, pure, Except.pure,
              Except.ok.injEq] at h
            exact Or.inr (Or.inl ⟨h5, res, x, t, dt, rfl, hr, h.symm⟩)
      · simp only [h5, if_false] at h
        by_cases h1 : o.integration_order = 1
        · simp only [h1, if_true] at h
          cases ht : env.stepper.do_step (xprime env c st.last_drhodt) st.x0 st.t st.dt with
          | error e =>
            simp only [ht, pure, Except.pure, Except.ok.injEq] at h
            exact Or.inl ⟨h.symm, Or.inr ⟨h1, e, rfl⟩⟩
          | ok x =>
            simp only [ht] at h
            exact Or.inr (Or.inr (Or.inr ⟨h1, x, rfl, h⟩))
        · simp [h1, throw, throwThe, MonadExceptOf.throw] at h

/-! ### The loop invariant -/

/-- A state that passes the mole-fraction test gives a recorded point in the domain. -/
theorem in_domain_trace_point (env : Env α) (c : α) (x0 : state_type α) (t : α)
    (cond : Fin 2 → α) (dxdt : state_type α) (h : z0_outside x0 = false) :
    in_domain (trace_point env c x0 t cond dxdt) := by
  simpa [z0_outside, in_domain, trace_point, vsum, Fin.sum_univ_two] using h

/-- The counter of small temperature steps after an update is not negative. -/
theorem small_T_counter_nonneg (o : TCABOptions α) (x0 xs : state_type α) (n : Int)
    (hn : 0 ≤ n) : 0 ≤ small_T_counter o x0 xs n := by
  unfold small_T_counter
  simp only
  split <;> omega

/-- The first-point statement at a loop head that satisfies the invariant: `JSONdata` after
it holds the initial point and `iter` further points. -/
theorem first_point_recorded (env : Env α) (o : TCABOptions α) (c T0 : α)
    (rhovec0 : Fin 2 → α) (st : TraceState α) (J0 : List (TracePoint α))
    (hI : loop_inv env o c T0 rhovec0 st) (hJ : first_point_block env c st = .ok J0) :
    recorded env c T0 rhovec0 J0 st.iter := by
  obtain ⟨-, -, -, -, hst | ⟨hne, -, -, hrec⟩⟩ := hI
  · subst hst
    simp only [first_point_block, initial_state, and_self, if_true] at hJ
    obtain ⟨cond, dxdt, hc, hx, rfl⟩ := store_point_ok _ _ _ _ _ _ _ hJ
    refine ⟨_, [], ?_, rfl, rfl, ?_⟩
    · rw [store_point_eq _ _ _ _ _ _ _ _ hc hx]
      rfl
    · intro p hp; cases hp
  · simp only [first_point_block, hne, if_false, pure, Except.pure, Except.ok.injEq] at hJ
    subst hJ
    exact hrec

/-- One more point, recorded with sign `c` in the domain, extends a recorded list. -/
theorem recorded_append (env : Env α) (c T0 : α) (rhovec0 : Fin 2 → α)
    (J : List (TracePoint α)) (n : Int) (p : TracePoint α)
    (h : recorded env c T0 rhovec0 J n) (hp : in_domain p) (hc : p.c = c) :
    recorded env c T0 rhovec0 (J ++ [p]) (n + 1) := by
  obtain ⟨p0, rest, h0, rfl, hlen, hall⟩ := h
  refine ⟨p0, rest ++ [p], h0, rfl, ?_, ?_⟩
  · rw [List.length_append, List.length_singleton]
    push_cast
    omega
  · intro x hx
    rcases List.mem_append.mp hx with hx | hx
    · exact hall x hx
    · rw [List.mem_singleton] at hx
      subst hx
      exact ⟨hp, hc⟩

/-- The part of the loop body after an accepted step keeps the invariant when the loop goes
on, and leaves a recorded list when it stops. -/
theorem after_step_inv (env : Env α) (o : TCABOptions α) (f : String) (c T0 : α)
    (rhovec0 : Fin 2 → α) (m : TraceState α) (xs : state_type α) (fl : Flow α)
    (h0 : 0 ≤ m.iter) (hr0 : 0 ≤ m.retry_count) (hc0 : 0 ≤ m.counter_T_converged)
    (hlt : m.iter < o.max_step_count)
    (hrec : recorded env c T0 rhovec0 m.JSONdata m.iter)
    (h : after_step env o f c m xs = .ok fl) :
    (∀ st1, fl = .next st1 → loop_inv env o c T0 rhovec0 { st1 with iter := st1.iter + 1 }) ∧
    (∀ st1, fl = .stop st1 →
      ∃ n, recorded env c T0 rhovec0 st1.JSONdata n ∧ n ≤ m.iter + 1) := by
  obtain ⟨hi, hr, -, -, hcase⟩ := after_step_ok env o f c m xs fl h
  rcases hcase with ⟨-, rfl⟩ | ⟨-, -, hcnt, -, ⟨-, hstop, hJ⟩ | ⟨hz, hsp, hiff⟩⟩
  · refine ⟨fun st1 h1 => (by cases h1), fun st1 h1 => ?_⟩
    cases h1
    exact ⟨_, hrec, by omega⟩
  · constructor
    · intro st1 h1
      subst h1
      simp [Flow.stops] at hstop
    · intro st1 h1
      subst h1
      simp only [Flow.state] at hJ
      rw [hJ]
      exact ⟨_, hrec, by omega⟩
  · obtain ⟨cond, dxdt, -, -, hJ1⟩ := store_point_ok _ _ _ _ _ _ _ hsp
    have hrec1 : recorded env c T0 rhovec0 fl.state.JSONdata (m.iter + 1) := by
      rw [hJ1]
      exact recorded_append _ _ _ _ _ _ _ hrec (in_domain_trace_point _ _ _ _ _ _ hz) rfl
    have hcn : 0 ≤ fl.state.counter_T_converged := by
      rw [hcnt]; exact small_T_counter_nonneg _ _ _ _ hc0
    constructor
    · intro st1 h1
      subst h1
      simp only [Flow.state, Flow.stops, Bool.false_eq_true, false_iff, not_lt] at *
      refine ⟨(by simp only; omega), (by simp only; omega), hcn, Or.inr hiff,
        Or.inr ⟨?_, (by omega), ?_, ?_⟩⟩
      · simp only; omega
      · simp only; omega
      · simp only
        rw [hi]
        exact hrec1
    · intro st1 h1
      subst h1
      exact ⟨_, hrec1, le_refl _⟩

/-- A pass through the loop body keeps the invariant when the loop goes on, and leaves a
recorded list when it stops. -/
theorem loop_body_inv (env : Env α) (o : TCABOptions α) (f : String) (c T0 : α)
    (rhovec0 : Fin 2 → α) (st : TraceState α) (fl : Flow α)
    (hI : loop_inv env o c T0 rhovec0 st) (hlt : st.iter < o.max_step_count)
    (h : loop_body env o f c st = .ok fl) :
    (∀ st1, fl = .next st1 → loop_inv env o c T0 rhovec0 { st1 with iter := st1.iter + 1 }) ∧
    (∀ st1, fl = .stop st1 →
      ∃ n, recorded env c T0 rhovec0 st1.JSONdata n ∧ n ≤ st.iter + 1) := by
  obtain ⟨dx, J0, -, hJ0, hcase⟩ := loop_body_ok env o f c st fl h
  have hrec := first_point_recorded env o c T0 rhovec0 st J0 hI hJ0
  obtain ⟨hi0, hr0, hc0, hcs, -⟩ := hI
  rcases hcase with ⟨rfl, -⟩ | ⟨-, res, x, t, dt, -, -, rfl⟩ | ⟨-, x, t, dt, -, ha⟩ | ⟨-, x, -, ha⟩
  · refine ⟨fun st1 h1 => (by cases h1), fun st1 h1 => ?_⟩
    cases h1
    exact ⟨_, hrec, by omega⟩
  · refine ⟨fun st1 h1 => ?_, fun st1 h1 => (by cases h1)⟩
    cases h1
    refine ⟨(by simp only; omega), (by simp only; omega), hc0, hcs,
      Or.inr ⟨?_, (by omega), ?_, ?_⟩⟩
    · simp only; omega
    · simp only; omega
    · simp only
      rw [sub_add_cancel]
      exact hrec
  · exact after_step_inv env o f c T0 rhovec0
      { st with retry_count := 0, x0 := x, t := t, dt := min dt o.max_dt, JSONdata := J0 }
      st.x0 fl hi0 (le_refl 0) hc0 hlt hrec ha
  · exact after_step_inv env o f c T0 rhovec0
      { st with x0 := x, t := st.t + st.dt, JSONdata := J0 } st.x0 fl hi0 hr0 hc0 hlt hrec ha

/-- The initial variables satisfy the loop invariant. -/
theorem loop_inv_initial (env : Env α) (o : TCABOptions α) (c T0 : α) (rhovec0 : Fin 2 → α) :
    loop_inv env o c T0 rhovec0 (initial_state o T0 rhovec0) :=
  ⟨le_refl 0, le_refl 0, le_refl 0, Or.inl rfl, Or.inl rfl⟩

/-- Every loop-head state of a run satisfies the loop invariant. -/
theorem loop_inv_of_reaches (env : Env α) (o : TCABOptions α) (f : String) (c T0 : α)
    (rhovec0 : Fin 2 → α) (st : TraceState α)
    (h : reaches env o f c (initial_state o T0 rhovec0) st) : loop_inv env o c T0 rhovec0 st := by
  induction h with
  | start => exact loop_inv_initial env o c T0 rhovec0
  | pass st st1 _ hlt hb ih => exact (loop_body_inv env o f c T0 rhovec0 st _ ih hlt hb).1 st1 rfl

/-- A result of the loop comes from a loop-head state of the run: the loop test fails there,
or the pass from there ends at a `break`. -/
theorem trace_loop_ok (env : Env α) (o : TCABOptions α) (f : String) (c : α)
    (st0 : TraceState α) (fuel : Nat) (st : TraceState α) (r : List (TracePoint α))
    (hst : reaches env o f c st0 st) (h : trace_loop env o f c fuel st = some (.ok r)) :
    ∃ st1, reaches env o f c st0 st1 ∧
      ((¬ st1.iter < o.max_step_count ∧ r = st1.JSONdata) ∨
       (st1.iter < o.max_step_count ∧
          ∃ st2, loop_body env o f c st1 = .ok (.stop st2) ∧ r = st2.JSONdata)) := by
  induction fuel generalizing st with
  | zero => simp [trace_loop] at h
  | succ n ih =>
    unfold trace_loop at h
    by_cases hlt : st.iter < o.max_step_count
    · simp only [hlt, if_true] at h
      cases hb : loop_body env o f c st with
      | error e => simp [hb] at h
      | ok fl =>
        cases fl with
        | next st1 =>
          simp only [hb] at h
          exact ih _ (reaches.pass st st1 hst hlt hb) h
        | stop st1 =>
          simp only [hb, Option.some.injEq, Except.ok.injEq] at h
          exact ⟨st, hst, Or.inr ⟨hlt, st1, hb, h.symm⟩⟩
    · simp only [hlt, if_false, Option.some.injEq, Except.ok.injEq] at h
      exact ⟨st, hst, Or.inl ⟨hlt, h.symm⟩⟩

/-- An error of the loop is the error of a pass from a loop-head state of the run. -/
theorem trace_loop_error (env : Env α) (o : TCABOptions α) (f : String) (c : α)
    (st0 : TraceState α) (fuel : Nat) (st : TraceState α) (e : Error)
    (hst : reaches env o f c st0 st) (h : trace_loop env o f c fuel st = some (.error e)) :
    ∃ st1, reaches env o f c st0 st1 ∧ st1.iter < o.max_step_count ∧
      loop_body env o f c st1 = .error e := by
  induction fuel generalizing st with
  | zero => simp [trace_loop] at h
  | succ n ih =>
    unfold trace_loop at h
    by_cases hlt : st.iter < o.max_step_count
    · simp only [hlt, if_true] at h
      cases hb : loop_body env o f c st with
      | error e1 =>
        simp only [hb, Option.some.injEq, Except.error.injEq] at h
        exact ⟨st, hst, hlt, h ▸ hb⟩
      | ok fl =>
        cases fl with
        | next st1 =>
          simp only [hb] at h
          exact ih _ (reaches.pass st st1 hst hlt hb) h
        | stop st1 => simp [hb] at h
    · simp [hlt] at h

/-- The shape of every list returned by the loop entered at the initial state: empty when
`max_step_count` is not positive; otherwise the initial point followed by at most
`max_step_count` points, each recorded with sign `c` and inside the domain. -/
theorem trace_loop_shape (env : Env α) (o : TCABOptions α) (f : String) (c T0 : α)
    (rhovec0 : Fin 2 → α) (fuel : Nat) (r : List (TracePoint α))
    (h : trace_loop env o f c fuel (initial_state o T0 rhovec0) = some (.ok r)) :
    (o.max_step_count ≤ 0 ∧ r = []) ∨
    (1 ≤ o.max_step_count ∧
      ∃ n, recorded env c T0 rhovec0 r n ∧ n ≤ o.max_step_count) := by
  obtain ⟨st1, hreach, hcase⟩ := trace_loop_ok env o f c _ fuel _ r reaches.start h
  have hI := loop_inv_of_reaches env o f c T0 rhovec0 st1 hreach
  rcases hcase with ⟨hge, rfl⟩ | ⟨hlt, st2, hb, rfl⟩
  · obtain ⟨hi0, -, -, -, rfl | ⟨hne, h1, hle, hrec⟩⟩ := hI
    · left
      simp only [initial_state] at hge
      exact ⟨by omega, rfl⟩
    · right
      exact ⟨h1, _, hrec, hle⟩
  · right
    obtain ⟨n, hrec, hn⟩ := (loop_body_inv env o f c T0 rhovec0 st1 _ hI hlt hb).2 st2 rfl
    have := hI.1
    exact ⟨by omega, n, hrec, by omega⟩

/-! ### Running the tracer forwards -/

/-- The tracer after a successful initial direction test is the loop. -/
theorem trace_of_direction (env : Env α) (fuel : Nat) (T0 : α) (rhovec0 : Fin 2 → α)
    (filename_ : Option String) (o : TCABOptions α) (c : α)
    (hc : initial_direction env o ![T0, rhovec0 0, rhovec0 1] = .ok c)
    (hw : write_line_block env (filename_.getD "") ![T0, rhovec0 0, rhovec0 1] = .ok ()) :
    trace_critical_arclength_binary env fuel T0 rhovec0 filename_ (some o) =
      trace_loop env o (filename_.getD "") c fuel (initial_state o T0 rhovec0) := by
  have hx : (initial_state o T0 rhovec0).x0 = ![T0, rhovec0 0, rhovec0 1] := rfl
  simp only [trace_critical_arclength_binary, Option.getD_some, hx, hc, hw]

/-- An error of the initial direction test is raised by the tracer. -/
theorem trace_of_direction_error (env : Env α) (fuel : Nat) (T0 : α) (rhovec0 : Fin 2 → α)
    (filename_ : Option String) (o : TCABOptions α) (e : Error)
    (hc : initial_direction env o ![T0, rhovec0 0, rhovec0 1] = .error e) :
    trace_critical_arclength_binary env fuel T0 rhovec0 filename_ (some o) =
      some (.error e) := by
  have hx : (initial_state o T0 rhovec0).x0 = ![T0, rhovec0 0, rhovec0 1] := rfl
  simp only [trace_critical_arclength_binary, Option.getD_some, hx, hc]

/-- With an empty file name nothing is written. -/
theorem write_line_block_empty (env : Env α) (x0 : state_type α) :
    write_line_block env "" x0 = .ok () := by
  simp [write_line_block, pure, Except.pure]

/-- The loop when its test fails. -/
theorem trace_loop_exit (env : Env α) (o : TCABOptions α) (f : String) (c : α) (fuel : Nat)
    (st : TraceState α) (h : ¬ st.iter < o.max_step_count) :
    trace_loop env o f c (fuel + 1) st = some (.ok st.JSONdata) := by
  simp only [trace_loop, h, if_false]

/-- The loop when the pass ends at a `break`. -/
theorem trace_loop_stop (env : Env α) (o : TCABOptions α) (f : String) (c : α) (fuel : Nat)
    (st st1 : TraceState α) (h : st.iter < o.max_step_count)
    (hb : loop_body env o f c st = .ok (.stop st1)) :
    trace_loop env o f c (fuel + 1) st = some (.ok st1.JSONdata) := by
  simp only [trace_loop, h, if_true, hb]

/-- The loop when the pass ends at the closing brace or at `continue`. -/
theorem trace_loop_next (env : Env α) (o : TCABOptions α) (f : String) (c : α) (fuel : Nat)
    (st st1 : TraceState α) (h : st.iter < o.max_step_count)
    (hb : loop_body env o f c st = .ok (.next st1)) :
    trace_loop env o f c (fuel + 1) st =
      trace_loop env o f c fuel { st1 with iter := st1.iter + 1 } := by
  simp only [trace_loop, h, if_true, hb]

/-- The loop when the pass raises. -/
theorem trace_loop_raise (env : Env α) (o : TCABOptions α) (f : String) (c : α) (fuel : Nat)
    (st : TraceState α) (e : Error) (h : st.iter < o.max_step_count)
    (hb : loop_body env o f c st = .error e) :
    trace_loop env o f c (fuel + 1) st = some (.error e) := by
  simp only [trace_loop, h, if_true, hb]

/-- A pass with the Euler integrator whose step returns. -/
theorem loop_body_euler (env : Env α) (o : TCABOptions α) (f : String) (c : α)
    (st : TraceState α) (dx x : state_type α) (J0 : List (TracePoint α))
    (hd : get_dxdt env c st.last_drhodt st.x0 = .ok dx)
    (hJ : first_point_block env c st = .ok J0) (h1 : o.integration_order = 1)
    (hs : env.stepper.do_step (xprime env c st.last_drhodt) st.x0 st.t st.dt = .ok x) :
    loop_body env o f c st =
      after_step env o f c { st with x0 := x, t := st.t + st.dt, JSONdata := J0 } st.x0 := by
  simp only [loop_body, hd, hJ, h1, hs, bind, Except.bind]
  rfl

/-- A pass with the adaptive integrator whose step is accepted. -/
theorem loop_body_accept (env : Env α) (o : TCABOptions α) (f : String) (c : α)
    (st : TraceState α) (dx x : state_type α) (t dt : α) (J0 : List (TracePoint α))
    (hd : get_dxdt env c st.last_drhodt st.x0 = .ok dx)
    (hJ : first_point_block env c st = .ok J0) (h5 : o.integration_order = 5)
    (hs : env.stepper.try_step o.abs_err o.rel_err (xprime env c st.last_drhodt) st.x0 st.t
      st.dt = .ok (.success, x, t, dt)) :
    loop_body env o f c st =
      after_step env o f c
        { st with retry_count := 0, x0 := x, t := t, dt := min dt o.max_dt, JSONdata := J0 }
        st.x0 := by
  simp only [loop_body, hd, hJ, h5, hs, bind, Except.bind]
  rfl

/-- A pass with the adaptive integrator whose step is rejected. -/
theorem loop_body_reject (env : Env α) (o : TCABOptions α) (f : String) (c : α)
    (st : TraceState α) (dx x : state_type α) (t dt : α) (J0 : List (TracePoint α))
    (res : controlled_step_result)
    (hd : get_dxdt env c st.last_drhodt st.x0 = .ok dx)
    (hJ : first_point_block env c st = .ok J0) (h5 : o.integration_order = 5)
    (hs : env.stepper.try_step o.abs_err o.rel_err (xprime env c st.last_drhodt) st.x0 st.t
      st.dt = .ok (res, x, t, dt)) (hres : res ≠ .success) :
    loop_body env o f c st =
      .ok (.next { st with
                    iter := st.iter - 1, retry_count := st.retry_count + 1,
                    x0 := x, t := t, dt := dt, JSONdata := J0 }) := by
  simp only [loop_body, hd, hJ, h5, hs, bind, Except.bind, hres, ne_eq, not_false_eq_true,
    if_true]
  rfl

/-- A pass whose integrator step raises: the loop is left with the points recorded so far. -/
theorem loop_body_step_error (env : Env α) (o : TCABOptions α) (f : String) (c : α)
    (st : TraceState α) (dx : state_type α) (J0 : List (TracePoint α)) (e : Error)
    (hd : get_dxdt env c st.last_drhodt st.x0 = .ok dx)
    (hJ : first_point_block env c st = .ok J0)
    (hs : (o.integration_order = 5 ∧
        env.stepper.try_step o.abs_err o.rel_err (xprime env c st.last_drhodt) st.x0 st.t
          st.dt = .error e) ∨
      (o.integration_order = 1 ∧
        env.stepper.do_step (xprime env c st.last_drhodt) st.x0 st.t st.dt = .error e)) :
    loop_body env o f c st = .ok (.stop { st with JSONdata := J0 }) := by
  rcases hs with ⟨h5, hs⟩ | ⟨h1, hs⟩
  · simp only [loop_body, hd, hJ, h5, hs, bind, Except.bind]
    rfl
  · have h5 : ¬ (1 : Int) = 5 := by decide
    simp only [loop_body, hd, hJ, h1, h5, hs, bind, Except.bind, if_false, if_true]
    rfl

/-- The part after an accepted step when the state has left the domain. -/
theorem after_step_out (env : Env α) (o : TCABOptions α) (f : String) (c : α)
    (m : TraceState α) (xs : state_type α) (h : z0_outside m.x0 = true) :
    after_step env o f c m xs = .ok (.stop m) := by
  simp only [after_step, h, if_true]
  rfl

/-- The part after an accepted step when the point is recorded. -/
theorem after_step_record (env : Env α) (o : TCABOptions α) (f : String) (c : α)
    (m : TraceState α) (xs : state_type α) (last : Option (Fin 2 → α))
    (J : List (TracePoint α)) (h1 : z0_outside m.x0 = false)
    (hl : direction_block env o c m xs = .ok last)
    (h2 : z0_outside (polish_block env o m.x0) = false)
    (hw : write_line_block env f (polish_block env o m.x0) = .ok ())
    (hJ : store_point env c last (polish_block env o m.x0) m.t m.JSONdata = .ok J) :
    after_step env o f c m xs =
      .ok (if small_T_counter o (polish_block env o m.x0) xs m.counter_T_converged >
            o.small_T_count then
          .stop { m with
                    x0 := polish_block env o m.x0, last_drhodt := last,
                    counter_T_converged :=
                      small_T_counter o (polish_block env o m.x0) xs m.counter_T_converged,
                    JSONdata := J }
        else
          .next { m with
                    x0 := polish_block env o m.x0, last_drhodt := last,
                    counter_T_converged :=
                      small_T_counter o (polish_block env o m.x0) xs m.counter_T_converged,
                    JSONdata := J }) := by
  simp only [after_step, h1, hl, h2, hw, hJ, bind, Except.bind, Bool.false_eq_true, if_false]
  split <;> rfl

/-- A list returned by the tracer is returned by its loop, entered after a successful initial
direction test. -/
theorem trace_ok (env : Env α) (fuel : Nat) (T0 : α) (rhovec0 : Fin 2 → α)
    (filename_ : Option String) (options_ : Option (TCABOptions α)) (r : List (TracePoint α))
    (h : trace_critical_arclength_binary env fuel T0 rhovec0 filename_ options_ = some (.ok r)) :
    ∃ c, initial_direction env (options_.getD {}) ![T0, rhovec0 0, rhovec0 1] = .ok c ∧
      trace_loop env (options_.getD {}) (filename_.getD "") c fuel
        (initial_state (options_.getD {}) T0 rhovec0) = some (.ok r) := by
  unfold trace_critical_arclength_binary at h
  have hx : (initial_state (options_.getD {}) T0 rhovec0).x0 = ![T0, rhovec0 0, rhovec0 1] := rfl
  simp only [hx] at h
  cases hc : initial_direction env (options_.getD {}) ![T0, rhovec0 0, rhovec0 1] with
  | error e => simp [hc] at h
  | ok c =>
    simp only [hc] at h
    cases hw : write_line_block env (filename_.getD "") ![T0, rhovec0 0, rhovec0 1] with
    | error e => simp [hw] at h
    | ok u =>
      simp only [hw] at h
      exact ⟨c, rfl, h⟩

/-- The value of `c` after the initial direction test. -/
theorem initial_direction_ok (env : Env α) (o : TCABOptions α) (x0 : state_type α) (c : α)
    (h : initial_direction env o x0 = .ok c) :
    ∃ dxdt, get_dxdt env o.init_c none x0 = .ok dxdt ∧
      c = if ∃ i : Fin 2, x0 i.succ + extract_drhodt dxdt i * o.init_dt < 0 then -o.init_c
        else o.init_c := by
  unfold initial_direction at h
  simp only [bind, Except.bind] at h
  cases hd : get_dxdt env o.init_c none x0 with
  | error e => simp [hd] at h
  | ok dxdt =>
    simp only [hd] at h
    refine ⟨dxdt, rfl, ?_⟩
    split at h
    · rename_i hneg
      simp only [pure, Except.pure, Except.ok.injEq] at h
      rw [if_pos hneg, ← h]
      ring
    · rename_i hneg
      simp only [pure, Except.pure, Except.ok.injEq] at h
      rw [if_neg hneg, ← h]

/-- The initial direction test returns when the tangent at the initial state does. -/
theorem initial_direction_of_tangent (env : Env α) (o : TCABOptions α) (x0 : state_type α)
    (d : Fin 2 → α)
    (hd : get_drhovec_dT_crit env.lib env.model (x0 0) (fun i => x0 i.succ) = .ok d) :
    ∃ c, initial_direction env o x0 = .ok c := by
  obtain ⟨dx, hdx⟩ := (xprime_ok_iff env o.init_c none x0).mpr ⟨d, hd⟩
  unfold initial_direction get_dxdt
  simp only [hdx, bind, Except.bind]
  split
  · exact ⟨_, rfl⟩
  · exact ⟨_, rfl⟩

/-- The progress line is written when the tangent at the state is returned. -/
theorem write_line_block_of_tangent (env : Env α) (f : String) (x0 : state_type α)
    (d : Fin 2 → α)
    (hd : get_drhovec_dT_crit env.lib env.model (x0 0) (fun i => x0 i.succ) = .ok d) :
    write_line_block env f x0 = .ok () := by
  obtain ⟨cond, hc⟩ := conditions_ok_of_tangent _ _ _ _ _ hd
  unfold write_line_block write_line
  split
  · simp only [hc, bind, Except.bind]
    rfl
  · rfl

/-- Without the adaptive integrator no step is rejected, every pass the loop continues after
advances `iter`, and the loop ends within `max_step_count - iter` passes: with more fuel than
that, `trace_loop` gives a result. -/
theorem trace_loop_total (env : Env α) (o : TCABOptions α) (f : String) (c : α)
    (ho : o.integration_order ≠ 5) (fuel : Nat) (st : TraceState α)
    (h : (o.max_step_count - st.iter).toNat < fuel) : trace_loop env o f c fuel st ≠ none := by
  induction fuel generalizing st with
  | zero => omega
  | succ n ih =>
    unfold trace_loop
    by_cases hlt : st.iter < o.max_step_count
    · simp only [hlt, if_true]
      cases hb : loop_body env o f c st with
      | error e => simp
      | ok fl =>
        cases fl with
        | stop st1 => simp
        | next st1 =>
          simp only
          apply ih
          have hi : st1.iter = st.iter := by
            obtain ⟨dx, J0, -, -, hc⟩ := loop_body_ok env o f c st _ hb
            rcases hc with ⟨hfl, -⟩ | ⟨h5, -⟩ | ⟨h5, -⟩ | ⟨-, x, -, ha⟩
            · cases hfl
            · exact absurd h5 ho
            · exact absurd h5 ho
            · exact (after_step_ok env o f c _ st.x0 _ ha).1
          simp only [hi]
          omega
    · simp [hlt]

/-- Without polishing the state vector is left as it is. -/
theorem polish_block_off (env : Env α) (o : TCABOptions α) (x0 : state_type α)
    (h : o.polish = false) : polish_block env o x0 = x0 := by
  simp [polish_block, h]

/-- Before `skip_dircheck_count` passes no direction is stored. -/
theorem direction_block_skip (env : Env α) (o : TCABOptions α) (c : α) (st : TraceState α)
    (xs : state_type α) (h : ¬ st.iter ≥ o.skip_dircheck_count) :
    direction_block env o c st xs = .ok st.last_drhodt := by
  simp only [direction_block, h, if_false]
  rfl

/-- A pass with the Euler integrator, without polishing and before any direction is stored,
whose step stays in the domain: the point is recorded, and the loop stops if the counter of
small temperature steps has passed `small_T_count`. -/
theorem euler_pass (env : Env α) (o : TCABOptions α) (f : String) (c : α)
    (st : TraceState α) (dx x : state_type α) (J0 J : List (TracePoint α))
    (hd : get_dxdt env c st.last_drhodt st.x0 = .ok dx)
    (hJ0 : first_point_block env c st = .ok J0) (h1 : o.integration_order = 1)
    (hs : env.stepper.do_step (xprime env c st.last_drhodt) st.x0 st.t st.dt = .ok x)
    (hpol : o.polish = false) (hskip : ¬ st.iter ≥ o.skip_dircheck_count)
    (hz : z0_outside x = false) (hw : write_line_block env f x = .ok ())
    (hJ : store_point env c st.last_drhodt x (st.t + st.dt) J0 = .ok J) :
    loop_body env o f c st =
      .ok (if small_T_counter o x st.x0 st.counter_T_converged > o.small_T_count then
          .stop { st with
                    x0 := x, t := st.t + st.dt,
                    counter_T_converged := small_T_counter o x st.x0 st.counter_T_converged,
                    JSONdata := J }
        else
          .next { st with
                    x0 := x, t := st.t + st.dt,
                    counter_T_converged := small_T_counter o x st.x0 st.counter_T_converged,
                    JSONdata := J }) := by
  rw [loop_body_euler env o f c st dx x J0 hd hJ0 h1 hs]
  have hp : polish_block env o x = x := polish_block_off env o x hpol
  refine (after_step_record env o f c
    { st with x0 := x, t := st.t + st.dt, JSONdata := J0 } st.x0 st.last_drhodt J hz
    (direction_block_skip env o c _ st.x0 hskip) (by rw [hp]; exact hz) (by rw [hp]; exact hw)
    (by rw [hp]; exact hJ)).trans ?_
  simp only [hp]

/-- A step that leaves the temperature unchanged counts as a small step. -/
theorem small_T_counter_still (o : TCABOptions α) (x xs : state_type α) (n : Int)
    (h : 0 < o.T_tol) (hx : x 0 = xs 0) : small_T_counter o x xs n = n + 1 := by
  simp [small_T_counter, hx, h]

/-- The pass of `euler_pass` when the loop goes on. -/
theorem euler_pass_next (env : Env α) (o : TCABOptions α) (f : String) (c : α)
    (st : TraceState α) (dx x : state_type α) (J0 J : List (TracePoint α)) (n : Int)
    (hd : get_dxdt env c st.last_drhodt st.x0 = .ok dx)
    (hJ0 : first_point_block env c st = .ok J0) (h1 : o.integration_order = 1)
    (hs : env.stepper.do_step (xprime env c st.last_drhodt) st.x0 st.t st.dt = .ok x)
    (hpol : o.polish = false) (hskip : ¬ st.iter ≥ o.skip_dircheck_count)
    (hz : z0_outside x = false) (hw : write_line_block env f x = .ok ())
    (hJ : store_point env c st.last_drhodt x (st.t + st.dt) J0 = .ok J)
    (hn : small_T_counter o x st.x0 st.counter_T_converged = n) (hle : ¬ n > o.small_T_count) :
    loop_body env o f c st =
      .ok (.next { st with
                    x0 := x, t := st.t + st.dt, counter_T_converged := n, JSONdata := J }) := by
  rw [euler_pass env o f c st dx x J0 J hd hJ0 h1 hs hpol hskip hz hw hJ, hn, if_neg hle]

/-- The pass of `euler_pass` when the loop stops as converged. -/
theorem euler_pass_stop (env : Env α) (o : TCABOptions α) (f : String) (c : α)
    (st : TraceState α) (dx x : state_type α) (J0 J : List (TracePoint α)) (n : Int)
    (hd : get_dxdt env c st.last_drhodt st.x0 = .ok dx)
    (hJ0 : first_point_block env c st = .ok J0) (h1 : o.integration_order = 1)
    (hs : env.stepper.do_step (xprime env c st.last_drhodt) st.x0 st.t st.dt = .ok x)
    (hpol : o.polish = false) (hskip : ¬ st.iter ≥ o.skip_dircheck_count)
    (hz : z0_outside x = false) (hw : write_line_block env f x = .ok ())
    (hJ : store_point env c st.last_drhodt x (st.t + st.dt) J0 = .ok J)
    (hn : small_T_counter o x st.x0 st.counter_T_converged = n) (hgt : n > o.small_T_count) :
    loop_body env o f c st =
      .ok (.stop { st with
                    x0 := x, t := st.t + st.dt, counter_T_converged := n, JSONdata := J }) := by
  rw [euler_pass env o f c st dx x J0 J hd hJ0 h1 hs hpol hskip hz hw hJ, hn, if_pos hgt]

/-- After the first pass the first-point statement records nothing. -/
theorem first_point_block_later (env : Env α) (c : α) (st : TraceState α)
    (h : ¬ (st.iter = 0 ∧ st.retry_count = 0)) :
    first_point_block env c st = .ok st.JSONdata := by
  simp only [first_point_block, h, if_false]
  rfl

/-- A pass with the adaptive integrator, without polishing and before any direction is stored,
whose step is accepted and stays in the domain, when the loop goes on. -/
theorem adaptive_pass_next (env : Env α) (o : TCABOptions α) (f : String) (c : α)
    (st : TraceState α) (dx x : state_type α) (t dt : α) (J0 J : List (TracePoint α)) (n : Int)
    (hd : get_dxdt env c st.last_drhodt st.x0 = .ok dx)
    (hJ0 : first_point_block env c st = .ok J0) (h5 : o.integration_order = 5)
    (hs : env.stepper.try_step o.abs_err o.rel_err (xprime env c st.last_drhodt) st.x0 st.t
      st.dt = .ok (.success, x, t, dt))
    (hpol : o.polish = false) (hskip : ¬ st.iter ≥ o.skip_dircheck_count)
    (hz : z0_outside x = false) (hw : write_line_block env f x = .ok ())
    (hJ : store_point env c st.last_drhodt x t J0 = .ok J)
    (hn : small_T_counter o x st.x0 st.counter_T_converged = n) (hle : ¬ n > o.small_T_count) :
    loop_body env o f c st =
      .ok (.next { st with
                    retry_count := 0, x0 := x, t := t, dt := min dt o.max_dt,
                    counter_T_converged := n, JSONdata := J }) := by
  rw [loop_body_accept env o f c st dx x t dt J0 hd hJ0 h5 hs]
  have hp : polish_block env o x = x := polish_block_off env o x hpol
  refine (after_step_record env o f c
    { st with retry_count := 0, x0 := x, t := t, dt := min dt o.max_dt, JSONdata := J0 }
    st.x0 st.last_drhodt J hz
    (direction_block_skip env o c _ st.x0 hskip) (by rw [hp]; exact hz) (by rw [hp]; exact hw)
    (by rw [hp]; exact hJ)).trans ?_
  simp only [hp, hn, if_neg hle]

/-- The secondary-direction block raises when the first concentration is negative and the
second eigenvector has no component along it. -/
theorem secondary_difference_negative (gd : GetDerivs α) (T : α) (rhovec : Fin 2 → α)
    (derivs : Fin 5 → α) (ei : EigenData α 2) (h0 : rhovec 0 < 0) (hv : ei.v1 0 = 0) :
    secondary_difference gd T rhovec derivs ei =
      .error (.invalid_argument "This is not possible I think.") := by
  have hplus : ¬ ∀ i, 0 < rhovec_plus rhovec ei.v1 i := by
    intro h
    have := h 0
    simp [rhovec_plus, hv] at this
    exact lt_irrefl _ (lt_trans this h0)
  have hminus : ¬ ∀ i, 0 < rhovec_minus rhovec ei.v1 i := by
    intro h
    have := h 0
    simp [rhovec_minus, hv] at this
    exact lt_irrefl _ (lt_trans this h0)
  have spec := secondary_difference_spec gd T rhovec derivs ei
  cases hs : secondary_difference gd T rhovec derivs ei with
  | ok x =>
    obtain ⟨ds, desc⟩ := x
    rw [hs] at spec
    rcases spec with ⟨-, hm, -⟩ | ⟨-, -, hp, -⟩ | ⟨-, hm, -⟩
    · exact absurd hm hminus
    · exact absurd hp hplus
    · exact absurd hm hminus
  | error e =>
    rw [hs] at spec
    rcases spec with ⟨he, -⟩ | ⟨-, -, -, hm | hp⟩
    · rw [he]
    · exact absurd hm hminus
    · exact absurd hp hplus

/-- With two zero concentrations `get_drhovec_dT_crit` raises the error of `eigen_problem`. -/
theorem tangent_error_zero (lib : EigenLib α) (model : Model α 2) (T : α) :
    get_drhovec_dT_crit lib model T ![0, 0] =
      .error (.invalid_argument
        "More than one non-zero concentration value found; not currently supported") := by
  have hz : 2 ≤ zero_count (![0, 0] : Fin 2 → α) := by
    rw [zero_count_eq_card]
    have hall : Finset.univ.filter (fun i : Fin 2 => (![0, 0] : Fin 2 → α) i = 0) =
        Finset.univ := by
      rw [Finset.filter_eq_self]
      intro i _
      fin_cases i <;> rfl
    rw [hall]
    simp
  have he := eigen_problem_of_many lib model (le_refl 2) T ![0, 0] none hz
  have hg : get_derivs lib model (le_refl 2) T ![0, 0] none =
      .error (.invalid_argument
        "More than one non-zero concentration value found; not currently supported") := by
    simp [get_derivs, he]
  simp [get_drhovec_dT_crit, get_drhovec_dT_crit_locals, hg, bind, Except.bind]

/-! ### Evaluation of the tracer in the environment `crit_env` -/

/-- The derivatives of `crit_model` on the line `rho0 = 1`. -/
theorem crit_derivs (T r : ℚ) (hr : r ≠ 0) (a : Option (Fin 2 → ℚ))
    (ha : a = none ∨ a = some (fun i => (1 : Matrix (Fin 2) (Fin 2) ℚ) i 0)) :
    ∃ d, get_derivs (diag_lib ℚ) (crit_model ℚ) (le_refl 2) T ![1, r] a = .ok d ∧
      d.tot 2 = T - 2 + 3 * (T - 1) + r ∧ d.tot 3 = -T - 8 * (T - 1) + 1 ∧ d.tot 4 = 2 * T + 1 ∧
      d.ei.v0 = ![1, 0] ∧ d.ei.v1 = ![0, 1] ∧ d.ei.eigenvectorscols = 1 := by
  have hne : ∀ i : Fin 2, (![1, r] : Fin 2 → ℚ) i ≠ 0 := by
    intro i; fin_cases i
    · norm_num
    · exact hr
  refine ⟨_, get_derivs_diag (crit_model ℚ) (le_refl 2) T _ hne a ha, ?_, ?_, ?_, ?_, ?_, ?_⟩
  · simp [psi0_derivs_eq, Fin.sum_univ_two, crit_model, Matrix.one_apply]
    ring
  · simp [psi0_derivs_eq, Fin.sum_univ_two, crit_model, Matrix.one_apply]
    ring
  · simp [psi0_derivs_eq, Fin.sum_univ_two, crit_model, Matrix.one_apply]
  · funext i; fin_cases i
    · exact Matrix.one_apply_eq 0
    · exact Matrix.one_apply_ne (by decide)
  · funext i; fin_cases i
    · exact Matrix.one_apply_ne (by decide)
    · exact Matrix.one_apply_eq 1
  · rfl

/-- The run of `get_drhovec_dT_crit` for `crit_model` at `T = 1` on the line `rho0 = 1`, where
the secondary stepping is centered: the eigenvector matrix is the identity, `deriv_sigma2[2]`
is 1, the system is `[[0, 1], [3, 0]] x = (-4, 9)` and its solution is `(3, -4)`. -/
theorem crit_locals_line (r : ℚ) (hr : 2e-5 * (1 + r) < r) :
    ∃ l d, get_drhovec_dT_crit_locals (get_derivs (diag_lib ℚ) (crit_model ℚ) (le_refl 2))
        (diag_lib ℚ) 1 ![1, r] = .ok l ∧
      get_derivs (diag_lib ℚ) (crit_model ℚ) (le_refl 2) 1 ![1, r] none = .ok d ∧
      d.tot 2 = r - 1 ∧ d.ei.v0 = ![1, 0] ∧ d.ei.v1 = ![0, 1] ∧ d.ei.eigenvectorscols = 1 ∧
      l.stepping_desc = "conventional centered" ∧ l.deriv_sigma2 2 = 1 ∧
      l.LHS = !![0, 1; 3, 0] ∧ l.RHS = ![-4, 9] ∧ l.drhovec_dT = ![3, -4] := by
  have hs : sigma2 (![1, r] : Fin 2 → ℚ) = 2e-5 * (1 + r) := by
    simp [sigma2, vsum, Fin.sum_univ_two]
  have hs0 : 0 < (2e-5 : ℚ) * (1 + r) := by
    have : (0:ℚ) < 1 + r := by linarith
    positivity
  have hr0 : r ≠ 0 := by
    intro h; rw [h] at hr; norm_num at hr
  obtain ⟨d, hd, d2, d3, d4, dv0, dv1, dU⟩ := crit_derivs 1 r hr0 none (Or.inl rfl)
  obtain ⟨p, hp, p2, p3, -, -, -, -⟩ := crit_derivs (1 + 1e-7) r hr0 none (Or.inl rfl)
  obtain ⟨m, hm, m2, m3, -, -, -, -⟩ := crit_derivs (1 - 1e-7) r hr0 none (Or.inl rfl)
  have e0 : (fun i => (1 : Matrix (Fin 2) (Fin 2) ℚ) i 0) = ![1, 0] := by
    funext i; fin_cases i
    · exact Matrix.one_apply_eq 0
    · exact Matrix.one_apply_ne (by decide)
  have hplusv : rhovec_plus (![1, r] : Fin 2 → ℚ) d.ei.v1 = ![1, r + 2e-5 * (1 + r)] := by
    funext i; fin_cases i
    all_goals simp [rhovec_plus, hs, dv1]
  have hminusv : rhovec_minus (![1, r] : Fin 2 → ℚ) d.ei.v1 = ![1, r - 2e-5 * (1 + r)] := by
    funext i; fin_cases i
    all_goals simp [rhovec_minus, hs, dv1]
  have hplus : ∀ i, 0 < rhovec_plus (![1, r] : Fin 2 → ℚ) d.ei.v1 i := by
    rw [hplusv, Fin.forall_fin_two]
    constructor
    · norm_num
    · show 0 < r + 2e-5 * (1 + r)
      linarith
  have hminus : ∀ i, 0 < rhovec_minus (![1, r] : Fin 2 → ℚ) d.ei.v1 i := by
    rw [hminusv, Fin.forall_fin_two]
    constructor
    · norm_num
    · show 0 < r - 2e-5 * (1 + r)
      linarith
  obtain ⟨ps, hps, ps2, ps3, -, -, -, -⟩ := crit_derivs 1 (r + 2e-5 * (1 + r))
    (by linarith [hplus 1] : r + 2e-5 * (1 + r) ≠ 0 ) (some (fun i => (1 : Matrix (Fin 2) (Fin 2) ℚ) i 0)) (Or.inr rfl)
  obtain ⟨ms, hms, ms2, ms3, -, -, -, -⟩ := crit_derivs 1 (r - 2e-5 * (1 + r))
    (by linarith : r - 2e-5 * (1 + r) ≠ 0 ) (some (fun i => (1 : Matrix (Fin 2) (Fin 2) ℚ) i 0)) (Or.inr rfl)
  rw [e0, ← dv0, ← hplusv] at hps
  rw [e0, ← dv0, ← hminusv] at hms
  have hloc := locals_eq_of_base _ (diag_lib ℚ) 1 _ _ _ _ hd hp hm
  rw [secondary_centered _ _ _ _ _ _ _ hminus hplus hps hms] at hloc
  have h2 : (2.0 : ℚ) = 2 := by norm_num
  have hA : ((1 : ℚ) - 2 + 3 * (1 - 1) + (r + 2e-5 * (1 + r)) -
      (1 - 2 + 3 * (1 - 1) + (r - 2e-5 * (1 + r)))) / (2 * (2e-5 * (1 + r))) = 1 := by
    rw [div_eq_one_iff_eq (by positivity)]
    ring
  refine ⟨_, d, hloc, hd, by rw [d2]; ring, dv0, dv1, dU, rfl, ?_, ?_, ?_, ?_⟩
  · simp only [tangent_solve, ps2, ms2, hs, h2]
    exact hA
  · simp only [tangent_solve, dU, Matrix.one_mul]
    ext i j
    fin_cases i <;> fin_cases j
    all_goals simp only [Matrix.transpose_apply, Matrix.of_apply, Matrix.cons_val',
      Matrix.cons_val_zero, Matrix.cons_val_one, Matrix.head_cons, Matrix.empty_val',
      Matrix.cons_val_fin_one, d3, d4, ps2, ps3, ms2, ms3, hs, h2, Fin.zero_eta, Fin.mk_one]
    · norm_num
    · exact hA
    · norm_num
    · norm_num
  · simp only [tangent_solve, p2, p3, m2, m3, h2]
    funext i
    fin_cases i
    all_goals simp
    all_goals norm_num
  · clear hd hp hm hps hms hloc
    simp only [tangent_solve, diag_lib, dU, Matrix.one_mul]
    simp only [Matrix.transpose_apply, Matrix.of_apply, Matrix.cons_val', Matrix.cons_val_zero,
      Matrix.cons_val_one, Matrix.head_cons, Matrix.empty_val', Matrix.cons_val_fin_one,
      d2, d3, d4, p2, p3, m2, m3, ps2, ps3, ms2, ms3, hs, h2]
    simp only [Matrix.vecHead, hA]
    norm_num

/-- The tangent of `crit_model` at `T = 1` on the line `rho0 = 1`. -/
theorem crit_tangent_line (r : ℚ) (hr : 2e-5 * (1 + r) < r) :
    get_drhovec_dT_crit (diag_lib ℚ) (crit_model ℚ) 1 ![1, r] = .ok ![3, -4] := by
  obtain ⟨l, d, hl, -, -, -, -, -, -, -, -, -, hx⟩ := crit_locals_line r hr
  simp [get_drhovec_dT_crit, hl, hx]

/-- The entries after the first of a state vector. -/
theorem state_tail {β : Type} (a b c : β) :
    (fun i : Fin 2 => (![a, b, c] : Fin 3 → β) i.succ) = ![b, c] := by
  funext i
  fin_cases i <;> rfl

/-- The square root `rat_sqrt` at 25. -/
theorem rat_sqrt_25 : rat_sqrt 25 = 5 := by
  have h : Nat.sqrt 25 = 5 := (Nat.eq_sqrt.mpr ⟨by norm_num, by norm_num⟩).symm
  have hn : ((25 : ℚ).num).toNat = 25 := by
    rw [show (25 : ℚ) = ((25 : ℕ) : ℚ) by norm_num, Rat.num_natCast]
    rfl
  have hd : (25 : ℚ).den = 1 := by
    rw [show (25 : ℚ) = ((25 : ℕ) : ℚ) by norm_num, Rat.den_natCast]
  unfold rat_sqrt
  rw [hn, hd, h]
  norm_num

/-- The norm of the tangent `(3, -4)` with the square root `rat_sqrt`. -/
theorem norm_crit : norm rat_sqrt (![3, -4] : Fin 2 → ℚ) = 5 := by
  have : vsum (fun i => (![3, -4] : Fin 2 → ℚ) i * (![3, -4] : Fin 2 → ℚ) i) = 25 := by
    simp [vsum, Fin.sum_univ_two]
    norm_num
  rw [norm, this, rat_sqrt_25]

/-- The local derivative at the states `[1, 1, r]` of `crit_env`, with no stored direction. -/
theorem xprime_crit (c r : ℚ) (hr : 2e-5 * (1 + r) < r) :
    xprime crit_env c none ![1, 1, r] = .ok ![c / 5, c * 3 / 5, c * -4 / 5] := by
  have ht : get_drhovec_dT_crit crit_env.lib crit_env.model ((![1, 1, r] : Fin 3 → ℚ) 0)
      (fun i => (![1, 1, r] : Fin 3 → ℚ) i.succ) = .ok ![3, -4] := by
    rw [state_tail]
    exact crit_tangent_line r hr
  rw [xprime_of_tangent crit_env c none _ _ ht]
  simp only [crit_env, norm_crit]
  congr 1
  funext i
  fin_cases i
  all_goals simp
  all_goals ring

/-- The criticality conditions of `crit_model` on the line `rho0 = 1` at `T = 1`. -/
theorem conditions_crit (r : ℚ) (hr : r ≠ 0) :
    get_criticality_conditions (diag_lib ℚ) (crit_model ℚ) (le_refl 2) 1 ![1, r] =
      .ok ![r - 1, 0] := by
  obtain ⟨d, hd, d2, d3, -⟩ := crit_derivs 1 r hr none (Or.inl rfl)
  simp only [get_criticality_conditions, hd, d2, d3]
  congr 1
  funext i
  fin_cases i
  all_goals simp
  all_goals ring

/-- The initial direction test at the critical point of `crit_env` with the default step 10:
the trial step `(7, -7)` has a negative entry and the sign flips. -/
theorem initial_direction_crit (o : TCABOptions ℚ) (hc : o.init_c = 1) (hdt : o.init_dt = 10) :
    initial_direction crit_env o ![1, 1, 1] = .ok (-1) := by
  unfold initial_direction get_dxdt
  rw [hc, hdt]
  simp only [xprime_crit 1 1 (by norm_num), bind, Except.bind, extract_drhodt]
  rw [if_pos]
  · simp [pure, Except.pure]
  · exact ⟨1, by simp; norm_num⟩

/-- Recording a point at the states `[1, 1, r]` of `crit_env` with no stored direction. -/
theorem store_point_crit (c r t : ℚ) (hr : 2e-5 * (1 + r) < r) (J : List (TracePoint ℚ)) :
    store_point crit_env c none ![1, 1, r] t J =
      .ok (J ++ [trace_point crit_env c ![1, 1, r] t ![r - 1, 0]
        ![c / 5, c * 3 / 5, c * -4 / 5]]) := by
  have hr0 : r ≠ 0 := by
    intro h; rw [h] at hr; norm_num at hr
  apply store_point_eq
  · rw [state_tail]
    exact conditions_crit r hr0
  · exact xprime_crit c r hr

/-- The Euler step of `toy_odeint` at the states `[1, 1, r]` of `crit_env`. -/
theorem do_step_crit (c r t dt : ℚ) (hr : 2e-5 * (1 + r) < r) :
    crit_env.stepper.do_step (xprime crit_env c none) ![1, 1, r] t dt =
      .ok ![1 + dt * (c / 5), 1 + dt * (c * 3 / 5), r + dt * (c * -4 / 5)] := by
  have hst : crit_env.stepper = toy_odeint ℚ := rfl
  rw [hst]
  simp only [toy_odeint, xprime_crit c r hr, Except.ok.injEq]
  funext i
  fin_cases i <;> rfl

/-- A run that flips the initial sign: from the critical point of `crit_env` with the default
options but for the Euler integrator, the first trial step `(7, -7)` is negative in `rho1`, the
sign becomes -1, the initial point is recorded, and the Euler step of length 10 to
`rhovec = (-5, 9)` leaves the domain. -/
theorem run_flip :
    trace_critical_arclength_binary crit_env 1 1 ![1, 1] none
        (some { integration_order := 1 }) =
      some (.ok [trace_point crit_env (-1) ![1, 1, 1] 0 ![0, 0] ![-1 / 5, -3 / 5, 4 / 5]]) := by
  have hz : z0_outside (![1 + 10 * (-1 / 5), 1 + 10 * (-1 * 3 / 5), 1 + 10 * (-1 * -4 / 5)] :
      Fin 3 → ℚ) = true := by
    simp [z0_outside, vsum, Fin.sum_univ_two]
    left
    norm_num
  have hd : get_dxdt crit_env (-1)
      (initial_state ({ integration_order := 1 } : TCABOptions ℚ) 1 ![1, 1]).last_drhodt
      (initial_state ({ integration_order := 1 } : TCABOptions ℚ) 1 ![1, 1]).x0 =
      .ok ![-1 / 5, -1 * 3 / 5, -1 * -4 / 5] := xprime_crit (-1) 1 (by norm_num)
  have hJ : first_point_block crit_env (-1)
      (initial_state ({ integration_order := 1 } : TCABOptions ℚ) 1 ![1, 1]) =
      .ok ([] ++ [trace_point crit_env (-1) ![1, 1, 1] 0 ![1 - 1, 0]
        ![-1 / 5, -1 * 3 / 5, -1 * -4 / 5]]) :=
    store_point_crit (-1) 1 0 (by norm_num) []
  have hs : crit_env.stepper.do_step (xprime crit_env (-1)
      (initial_state ({ integration_order := 1 } : TCABOptions ℚ) 1 ![1, 1]).last_drhodt)
      (initial_state ({ integration_order := 1 } : TCABOptions ℚ) 1 ![1, 1]).x0
      (initial_state ({ integration_order := 1 } : TCABOptions ℚ) 1 ![1, 1]).t
      (initial_state ({ integration_order := 1 } : TCABOptions ℚ) 1 ![1, 1]).dt =
      .ok ![1 + 10 * (-1 / 5), 1 + 10 * (-1 * 3 / 5), 1 + 10 * (-1 * -4 / 5)] :=
    do_step_crit (-1) 1 0 10 (by norm_num)
  rw [trace_of_direction crit_env 1 1 ![1, 1] none _ (-1)
    (initial_direction_crit _ (by norm_num) rfl) (write_line_block_empty _ _)]
  rw [trace_loop_stop crit_env _ _ _ 0 _ _ (by decide)
    ((loop_body_euler crit_env _ _ _ _ _ _ _ hd hJ rfl hs).trans
      (after_step_out _ _ _ _ _ _ hz))]
  norm_num

/-- With the solver `diag_lib`, the padded matrix of the states `(a, 0)`, `a != 0`, is the
identity. -/
theorem padded_U_boundary (a : ℚ) (ha : a ≠ 0) :
    padded_U (by decide) (![a, 0] : Fin 2 → ℚ) 1 = 1 := by
  have hk : (![a, 0] : Fin 2 → ℚ) 1 = 0 := rfl
  have hne : ∀ i : Fin 2, i ≠ 1 → (![a, 0] : Fin 2 → ℚ) i ≠ 0 := by
    intro i hi
    fin_cases i
    · exact ha
    · exact absurd rfl hi
  have hz := zero_count_one_of_unique _ 1 hk hne
  ext i j
  fin_cases i
  · fin_cases j
    · have hpos := keep_length_pos (le_refl 2) (![a, 0] : Fin 2 → ℚ) hz
      have hg : (keep_loop (![a, 0] : Fin 2 → ℚ)).1.get ⟨0, hpos⟩ = 0 := by
        have hmem := (mem_keep_iff (![a, 0] : Fin 2 → ℚ) _).mp (List.get_mem _ 0 hpos)
        generalize (keep_loop (![a, 0] : Fin 2 → ℚ)).1.get ⟨0, hpos⟩ = x at hmem
        fin_cases x
        · rfl
        · exact absurd rfl hmem
      have h := padded_U_row_zero_get (le_refl 2) (![a, 0] : Fin 2 → ℚ) hz 1 ⟨0, hpos⟩
      rw [hg] at h
      exact h.trans (Matrix.one_apply_eq _)
    · exact (padded_U_row_zero_of_zero (le_refl 2) (![a, 0] : Fin 2 → ℚ) hz 1 1 hk).trans
        (Matrix.one_apply_ne (by decide)).symm
  · fin_cases j
    · exact (padded_U_last_row (le_refl 2) (![a, 0] : Fin 2 → ℚ) 1 hk hne 1 0).trans
        ((if_neg (by decide)).trans (Matrix.one_apply_ne (by decide)).symm)
    · exact (padded_U_last_row (le_refl 2) (![a, 0] : Fin 2 → ℚ) 1 hk hne 1 1).trans
        ((if_pos rfl).trans (Matrix.one_apply_eq _).symm)

/-- The derivatives of `crit_model` at the boundary state `rhovec = (1, 0)`. -/
theorem crit_derivs_boundary (T : ℚ) :
    ∃ d, get_derivs (diag_lib ℚ) (crit_model ℚ) (le_refl 2) T ![1, 0] none = .ok d ∧
      d.tot 2 = T - 2 + 3 * (T - 1) ∧ d.tot 3 = -T - 8 * (T - 1) + 1 ∧ d.tot 4 = 2 * T + 1 ∧
      d.ei.v0 = ![1, 0] ∧ d.ei.v1 = ![0, 1] ∧ d.ei.eigenvectorscols = 1 := by
  have hk : (![1, 0] : Fin 2 → ℚ) 1 = 0 := rfl
  have hne : ∀ i : Fin 2, i ≠ 1 → (![1, 0] : Fin 2 → ℚ) i ≠ 0 := by
    intro i hi
    fin_cases i
    · norm_num
    · exact absurd rfl hi
  have hz := zero_count_one_of_unique _ 1 hk hne
  have he := eigen_problem_of_one (diag_lib ℚ) (crit_model ℚ) (le_refl 2) T ![1, 0] none hz
  have h1 : (diag_lib ℚ).eigenvectors _ (Hprime (crit_model ℚ) T ![1, 0]) = 1 := rfl
  rw [h1, padded_U_boundary 1 (by norm_num), Matrix.transpose_one] at he
  have hv0 : (fun i => (1 : Matrix (Fin 2) (Fin 2) ℚ) i 0) = ![1, 0] := by
    funext i; fin_cases i
    · exact Matrix.one_apply_eq 0
    · exact Matrix.one_apply_ne (by decide)
  have hv1 : (fun i => (1 : Matrix (Fin 2) (Fin 2) ℚ) i 1) = ![0, 1] := by
    funext i; fin_cases i
    · exact Matrix.one_apply_ne (by decide)
    · exact Matrix.one_apply_eq 1
  refine ⟨_, get_derivs_of_eigen _ _ _ _ _ _ _ he, ?_, ?_, ?_, ?_, ?_, ?_⟩
  · simp [psi0_derivs_eq, Fin.sum_univ_two, crit_model, pack_eigen, align_col0, Matrix.one_apply]
    ring
  · simp [psi0_derivs_eq, Fin.sum_univ_two, crit_model, pack_eigen, align_col0, Matrix.one_apply]
    ring
  · simp [psi0_derivs_eq, Fin.sum_univ_two, crit_model, pack_eigen, align_col0, Matrix.one_apply]
  · exact hv0
  · exact hv1
  · rfl

/-- The tangent of `crit_model` at the boundary state `T = 1`, `rhovec = (1, 0)`, where the
secondary stepping is forward. -/
theorem crit_tangent_boundary :
    get_drhovec_dT_crit (diag_lib ℚ) (crit_model ℚ) 1 ![1, 0] = .ok ![3, -4] := by
  have hs : sigma2 (![1, 0] : Fin 2 → ℚ) = 2e-5 := by
    simp [sigma2, vsum, Fin.sum_univ_two]
  obtain ⟨d, hd, d2, d3, d4, dv0, dv1, dU⟩ := crit_derivs_boundary 1
  obtain ⟨p, hp, p2, p3, -, -, -, -⟩ := crit_derivs_boundary (1 + 1e-7)
  obtain ⟨m, hm, m2, m3, -, -, -, -⟩ := crit_derivs_boundary (1 - 1e-7)
  have e0 : (fun i => (1 : Matrix (Fin 2) (Fin 2) ℚ) i 0) = ![1, 0] := by
    funext i; fin_cases i
    · exact Matrix.one_apply_eq 0
    · exact Matrix.one_apply_ne (by decide)
  have hplusv : rhovec_plus (![1, 0] : Fin 2 → ℚ) d.ei.v1 = ![1, 2e-5] := by
    funext i; fin_cases i
    all_goals simp [rhovec_plus, hs, dv1]
  have h2plusv : rhovec_2plus (![1, 0] : Fin 2 → ℚ) d.ei.v1 = ![1, 2 * 2e-5] := by
    funext i; fin_cases i
    all_goals simp [rhovec_2plus, hs, dv1]
  have hplus : ∀ i, 0 < rhovec_plus (![1, 0] : Fin 2 → ℚ) d.ei.v1 i := by
    rw [hplusv, Fin.forall_fin_two]
    constructor
    all_goals norm_num
  have hminus : ¬ ∀ i, 0 < rhovec_minus (![1, 0] : Fin 2 → ℚ) d.ei.v1 i := by
    intro h
    have h1 := h 1
    simp [rhovec_minus, hs, dv1] at h1
    norm_num at h1
  obtain ⟨ps, hps, ps2, ps3, -, -, -, -⟩ := crit_derivs 1 (2e-5)
    (by norm_num) (some (fun i => (1 : Matrix (Fin 2) (Fin 2) ℚ) i 0)) (Or.inr rfl)
  obtain ⟨p2s, hp2s, p2s2, p2s3, -, -, -, -⟩ := crit_derivs 1 (2 * 2e-5)
    (by norm_num) (some (fun i => (1 : Matrix (Fin 2) (Fin 2) ℚ) i 0)) (Or.inr rfl)
  rw [e0, ← dv0, ← hplusv] at hps
  rw [e0, ← dv0, ← h2plusv] at hp2s
  have hloc := locals_eq_of_base _ (diag_lib ℚ) 1 _ _ _ _ hd hp hm
  rw [secondary_forward _ _ _ _ _ _ _ hminus hplus hps hp2s] at hloc
  unfold get_drhovec_dT_crit
  rw [hloc]
  clear hd hp hm hps hp2s hloc
  simp only [Functor.map, Except.map, Except.ok.injEq, tangent_solve, diag_lib, dU, Matrix.one_mul]
  have h2 : (2.0 : ℚ) = 2 := by norm_num
  simp only [Matrix.transpose_apply, Matrix.of_apply, Matrix.cons_val', Matrix.cons_val_zero,
    Matrix.cons_val_one, Matrix.head_cons, Matrix.empty_val', Matrix.cons_val_fin_one,
    d2, d3, d4, p2, p3, m2, m3, ps2, ps3, p2s2, p2s3, hs, h2, Matrix.vecHead]
  norm_num

/-- The local derivative at the boundary state `[1, 1, 0]` of `crit_env`, with no stored
direction. -/
theorem xprime_boundary (c : ℚ) :
    xprime crit_env c none ![1, 1, 0] = .ok ![c / 5, c * 3 / 5, c * -4 / 5] := by
  have ht : get_drhovec_dT_crit crit_env.lib crit_env.model ((![1, 1, 0] : Fin 3 → ℚ) 0)
      (fun i => (![1, 1, 0] : Fin 3 → ℚ) i.succ) = .ok ![3, -4] := by
    rw [state_tail]
    exact crit_tangent_boundary
  rw [xprime_of_tangent crit_env c none _ _ ht]
  simp only [crit_env, norm_crit]
  congr 1
  funext i
  fin_cases i
  all_goals simp
  all_goals ring

/-- The criticality conditions of `crit_model` at `T = 1`, `rhovec = (1, 0)`. -/
theorem conditions_boundary :
    get_criticality_conditions (diag_lib ℚ) (crit_model ℚ) (le_refl 2) 1 ![1, 0] =
      .ok ![-1, 0] := by
  obtain ⟨d, hd, d2, d3, -⟩ := crit_derivs_boundary 1
  simp only [get_criticality_conditions, hd, d2, d3]
  congr 1
  funext i
  fin_cases i
  all_goals simp
  all_goals norm_num

/-- Recording a point at the boundary state `[1, 1, 0]` of `crit_env`. -/
theorem store_point_boundary (c t : ℚ) (J : List (TracePoint ℚ)) :
    store_point crit_env c none ![1, 1, 0] t J =
      .ok (J ++ [trace_point crit_env c ![1, 1, 0] t ![-1, 0]
        ![c / 5, c * 3 / 5, c * -4 / 5]]) := by
  apply store_point_eq
  · rw [state_tail]
    exact conditions_boundary
  · exact xprime_boundary c

/-- The initial direction test at the boundary state with a step of length 0: no flip. -/
theorem initial_direction_boundary (o : TCABOptions ℚ) (hc : o.init_c = 1)
    (hdt : o.init_dt = 0) : initial_direction crit_env o ![1, 1, 0] = .ok 1 := by
  unfold initial_direction get_dxdt
  rw [hc, hdt]
  simp only [xprime_boundary 1, bind, Except.bind, extract_drhodt]
  rw [if_neg]
  · rfl
  · rw [Fin.exists_fin_two]
    simp

/-- The Euler step of length 0 of `toy_odeint` at the boundary state. -/
theorem do_step_boundary (c t : ℚ) :
    crit_env.stepper.do_step (xprime crit_env c none) ![1, 1, 0] t 0 = .ok ![1, 1, 0] := by
  have hst : crit_env.stepper = toy_odeint ℚ := rfl
  rw [hst]
  simp only [toy_odeint, xprime_boundary c, Except.ok.injEq]
  funext i
  fin_cases i <;> simp

/-- A run on the boundary: from `T = 1`, `rhovec = (1, 0)` in `crit_env`, with the Euler
integrator, a step of length 0 and one step allowed.  The sign stays 1, the initial point is
recorded, the step leaves the state at `rhovec = (1, 0)`, whose mole fraction is 1, and that
point is recorded too. -/
theorem run_boundary :
    trace_critical_arclength_binary crit_env 2 1 ![1, 0] none
        (some { integration_order := 1, init_dt := 0, max_step_count := 1 }) =
      some (.ok [trace_point crit_env 1 ![1, 1, 0] 0 ![-1, 0] ![1 / 5, 3 / 5, -4 / 5],
        trace_point crit_env 1 ![1, 1, 0] 0 ![-1, 0] ![1 / 5, 3 / 5, -4 / 5]]) := by
  have hz : z0_outside (![1, 1, 0] : Fin 3 → ℚ) = false := by
    simp [z0_outside, vsum, Fin.sum_univ_two]
  have hb := euler_pass_next crit_env
    ({ integration_order := 1, init_dt := 0, max_step_count := 1 } : TCABOptions ℚ) "" 1
    (initial_state { integration_order := 1, init_dt := 0, max_step_count := 1 } 1 ![1, 0])
    _ ![1, 1, 0] _ _ 1
    (xprime_boundary 1) (store_point_boundary 1 0 []) rfl (do_step_boundary 1 0) rfl
    (by decide) hz (write_line_block_empty _ _) (store_point_boundary 1 (0 + 0) _)
    (small_T_counter_still _ _ _ _ (by norm_num) rfl) (by decide)
  rw [trace_of_direction crit_env 2 1 ![1, 0] none _ 1
    (initial_direction_boundary _ (by norm_num) rfl) (write_line_block_empty _ _)]
  refine ((trace_loop_next crit_env _ _ _ 1 _ _ (by decide) hb).trans
    (trace_loop_exit crit_env _ _ _ 0 _ (by decide))).trans ?_
  norm_num

/-- With the solver `diag_lib`, at a state with a negative first concentration and a non-zero
second one, neither secondary step is all positive and `get_drhovec_dT_crit` raises. -/
theorem tangent_error_negative (model : Model ℚ 2) (T : ℚ) (rhovec : Fin 2 → ℚ)
    (h0 : rhovec 0 < 0) (h1 : rhovec 1 ≠ 0) :
    get_drhovec_dT_crit (diag_lib ℚ) model T rhovec =
      .error (.invalid_argument "This is not possible I think.") := by
  have hne : ∀ i : Fin 2, rhovec i ≠ 0 := by
    intro i; fin_cases i
    · exact h0.ne
    · exact h1
  have hd := get_derivs_diag model (le_refl 2) T _ hne none (Or.inl rfl)
  have hp := get_derivs_diag model (le_refl 2) (T + 1e-7) _ hne none (Or.inl rfl)
  have hm := get_derivs_diag model (le_refl 2) (T - 1e-7) _ hne none (Or.inl rfl)
  have hloc := locals_eq_of_base _ (diag_lib ℚ) T _ _ _ _ hd hp hm
  rw [secondary_difference_negative _ _ _ _ _ h0 (Matrix.one_apply_ne (by decide))] at hloc
  unfold get_drhovec_dT_crit
  rw [hloc]
  rfl

/-- The initial direction test at the critical point of `crit_env` with a step of length 0:
no flip. -/
theorem initial_direction_still (o : TCABOptions ℚ) (hc : o.init_c = 1) (hdt : o.init_dt = 0) :
    initial_direction crit_env o ![1, 1, 1] = .ok 1 := by
  unfold initial_direction get_dxdt
  rw [hc, hdt]
  simp only [xprime_crit 1 1 (by norm_num), bind, Except.bind, extract_drhodt]
  rw [if_neg]
  · rfl
  · rw [Fin.exists_fin_two]
    simp

/-- The Euler step of length 0 of `toy_odeint` at the critical point of `crit_env`. -/
theorem do_step_still (c t : ℚ) :
    crit_env.stepper.do_step (xprime crit_env c none) ![1, 1, 1] t 0 = .ok ![1, 1, 1] := by
  have hst : crit_env.stepper = toy_odeint ℚ := rfl
  rw [hst]
  simp only [toy_odeint, xprime_crit c 1 (by norm_num), Except.ok.injEq]
  funext i
  fin_cases i <;> simp

/-- A pass that converges: at the critical point of `crit_env`, with the Euler integrator, a
step of length 0 and `small_T_count = 0`, the step leaves the temperature unchanged, the
counter becomes 1, the point is recorded and the loop is left. -/
theorem pass_still :
    loop_body crit_env
        ({ integration_order := 1, init_dt := 0, small_T_count := 0 } : TCABOptions ℚ) "" 1
        (initial_state { integration_order := 1, init_dt := 0, small_T_count := 0 } 1 ![1, 1]) =
      .ok (.stop
        { iter := 0, retry_count := 0, counter_T_converged := 1, last_drhodt := none,
          x0 := ![1, 1, 1], t := 0 + 0, dt := 0,
          JSONdata := [trace_point crit_env 1 ![1, 1, 1] 0 ![0, 0] ![1 / 5, 3 / 5, -4 / 5],
            trace_point crit_env 1 ![1, 1, 1] 0 ![0, 0] ![1 / 5, 3 / 5, -4 / 5]] }) := by
  have hz : z0_outside (![1, 1, 1] : Fin 3 → ℚ) = false := by
    simp [z0_outside, vsum, Fin.sum_univ_two]
    norm_num
  have hb := euler_pass_stop crit_env
    ({ integration_order := 1, init_dt := 0, small_T_count := 0 } : TCABOptions ℚ) "" 1
    (initial_state { integration_order := 1, init_dt := 0, small_T_count := 0 } 1 ![1, 1])
    _ ![1, 1, 1] _ _ 1
    (xprime_crit 1 1 (by norm_num)) (store_point_crit 1 1 0 (by norm_num) []) rfl
    (do_step_still 1 0) rfl (by decide) hz (write_line_block_empty _ _)
    (store_point_crit 1 1 (0 + 0) (by norm_num) _)
    (small_T_counter_still _ _ _ _ (by norm_num) rfl) (by decide)
  rw [hb]
  simp only [initial_state]
  norm_num

/-- The run of `pass_still`: two points are returned. -/
theorem run_still :
    trace_critical_arclength_binary crit_env 1 1 ![1, 1] none
        (some { integration_order := 1, init_dt := 0, small_T_count := 0 }) =
      some (.ok [trace_point crit_env 1 ![1, 1, 1] 0 ![0, 0] ![1 / 5, 3 / 5, -4 / 5],
        trace_point crit_env 1 ![1, 1, 1] 0 ![0, 0] ![1 / 5, 3 / 5, -4 / 5]]) := by
  rw [trace_of_direction crit_env 1 1 ![1, 1] none _ 1
    (initial_direction_still _ (by norm_num) rfl) (write_line_block_empty _ _)]
  exact trace_loop_stop crit_env _ _ _ 0 _ _ (by decide) pass_still

/-- With the solver `diag_lib`, at a state with a positive first concentration and a second
one above the secondary step, every evaluation of `get_derivs` is in the non-degenerate regime
and `get_drhovec_dT_crit` returns. -/
theorem diag_tangent_ok (model : Model ℚ 2) (T : ℚ) (rhovec : Fin 2 → ℚ)
    (h0 : 0 < rhovec 0) (h1 : 2e-5 * (rhovec 0 + rhovec 1) < rhovec 1) :
    ∃ d, get_drhovec_dT_crit (diag_lib ℚ) model T rhovec = .ok d := by
  have hs : sigma2 rhovec = 2e-5 * (rhovec 0 + rhovec 1) := by
    simp [sigma2, vsum, Fin.sum_univ_two]
  have hs0 : 0 < (2e-5 : ℚ) * (rhovec 0 + rhovec 1) := by
    by_contra hneg
    have h3 : (2e-5 : ℚ) * (rhovec 0 + rhovec 1) ≤ 0 := not_lt.mp hneg
    have h4 : rhovec 0 + rhovec 1 ≤ 0 := by
      by_contra h5
      have h6 : 0 < rhovec 0 + rhovec 1 := not_le.mp h5
      have : 0 < (2e-5 : ℚ) * (rhovec 0 + rhovec 1) := by positivity
      linarith
    have h7 : (2e-5 : ℚ) * (rhovec 0 + rhovec 1) < rhovec 1 := h1
    nlinarith
  have hne : ∀ i : Fin 2, rhovec i ≠ 0 := by
    intro i; fin_cases i
    · exact h0.ne'
    · show rhovec 1 ≠ 0
      intro h; rw [h] at h1; linarith
  have hd := get_derivs_diag model (le_refl 2) T _ hne none (Or.inl rfl)
  have hp := get_derivs_diag model (le_refl 2) (T + 1e-7) _ hne none (Or.inl rfl)
  have hm := get_derivs_diag model (le_refl 2) (T - 1e-7) _ hne none (Or.inl rfl)
  have hplus : ∀ i, 0 < rhovec_plus rhovec (fun i => (1 : Matrix (Fin 2) (Fin 2) ℚ) i 1) i := by
    rw [Fin.forall_fin_two]
    constructor
    · simpa [rhovec_plus] using h0
    · simp only [rhovec_plus, hs, Matrix.one_apply_eq, one_mul]
      linarith
  have hminus : ∀ i, 0 < rhovec_minus rhovec (fun i => (1 : Matrix (Fin 2) (Fin 2) ℚ) i 1) i := by
    rw [Fin.forall_fin_two]
    constructor
    · simpa [rhovec_minus] using h0
    · simp only [rhovec_minus, hs, Matrix.one_apply_eq, one_mul]
      linarith
  have hps := get_derivs_diag model (le_refl 2) T _ (fun i => (hplus i).ne')
    (some (fun i => (1 : Matrix (Fin 2) (Fin 2) ℚ) i 0)) (Or.inr rfl)
  have hms := get_derivs_diag model (le_refl 2) T _ (fun i => (hminus i).ne')
    (some (fun i => (1 : Matrix (Fin 2) (Fin 2) ℚ) i 0)) (Or.inr rfl)
  have hloc := locals_eq_of_base _ (diag_lib ℚ) T _ _ _ _ hd hp hm
  rw [secondary_centered _ _ _ _ _ _ _ hminus hplus hps hms] at hloc
  unfold get_drhovec_dT_crit
  rw [hloc]
  exact ⟨_, rfl⟩

/-- The local derivative of `crit_env` is returned at every interior state with `rho1` above
the secondary step. -/
theorem xprime_ok_interior (c : ℚ) (last : Option (Fin 2 → ℚ)) (x : state_type ℚ)
    (h0 : 0 < x 1) (h1 : 2e-5 * (x 1 + x 2) < x 2) :
    ∃ dx, xprime crit_env c last x = .ok dx :=
  (xprime_ok_iff crit_env c last x).mpr
    (diag_tangent_ok (crit_model ℚ) (x 0) (fun i => x i.succ) h0 h1)

/-- A point is recorded by `crit_env` at every interior state with `rho1` above the secondary
step. -/
theorem store_point_ok_interior (c : ℚ) (last : Option (Fin 2 → ℚ)) (x : state_type ℚ) (t : ℚ)
    (J : List (TracePoint ℚ)) (h0 : 0 < x 1) (h1 : 2e-5 * (x 1 + x 2) < x 2) :
    ∃ p, store_point crit_env c last x t J = .ok (J ++ [p]) ∧ p.t = t ∧ p.T = x 0 ∧
      p.rho0 = x 1 ∧ p.rho1 = x 2 ∧ p.c = c := by
  obtain ⟨d, hd⟩ := diag_tangent_ok (crit_model ℚ) (x 0) (fun i => x i.succ) h0 h1
  obtain ⟨cond, hc⟩ := conditions_ok_of_tangent _ _ _ _ _ hd
  obtain ⟨dx, hx⟩ := xprime_ok_interior c last x h0 h1
  exact ⟨_, store_point_eq crit_env c last x t J cond dx hc hx, rfl, rfl, rfl, rfl, rfl⟩

/-- The adaptive step of `toy_odeint` from the critical point of `crit_env` with sign -1: a
step of length 2 is rejected and `dt` halved; a step of length 1 is accepted and leads to
`[4/5, 2/5, 9/5]`. -/
theorem try_step_crit (a b : ℚ) :
    crit_env.stepper.try_step a b (xprime crit_env (-1) none) ![1, 1, 1] 0 2 =
      .ok (.fail, ![1, 1, 1], 0, 2 / 2) ∧
    crit_env.stepper.try_step a b (xprime crit_env (-1) none) ![1, 1, 1] 0 (2 / 2) =
      .ok (.success, ![4 / 5, 2 / 5, 9 / 5], 0 + 2 / 2, 2 / 2) := by
  have hst : crit_env.stepper = toy_odeint ℚ := rfl
  obtain ⟨k2, hk2⟩ := xprime_ok_interior (-1) none
    (fun i => (![1, 1, 1] : Fin 3 → ℚ) i + 2 / 2 * (![-1 / 5, -1 * 3 / 5, -1 * -4 / 5] :
      Fin 3 → ℚ) i) (by simp; norm_num) (by simp; norm_num)
  obtain ⟨k3, hk3⟩ := xprime_ok_interior (-1) none
    (fun i => (![1, 1, 1] : Fin 3 → ℚ) i + 2 / 2 / 2 * (![-1 / 5, -1 * 3 / 5, -1 * -4 / 5] :
      Fin 3 → ℚ) i) (by simp; norm_num) (by simp; norm_num)
  rw [hst]
  constructor
  · simp only [toy_odeint, xprime_crit (-1) 1 (by norm_num), hk2]
    rw [if_pos (by norm_num)]
  · simp only [toy_odeint, xprime_crit (-1) 1 (by norm_num), hk3]
    rw [if_neg (by norm_num)]
    simp only [Except.ok.injEq, Prod.mk.injEq, and_true, true_and]
    funext i
    fin_cases i
    all_goals simp
    all_goals norm_num

/-- The initial direction test at the critical point of `crit_env` with a step of length 2:
the trial step `(11/5, -3/5)` has a negative entry and the sign flips. -/
theorem initial_direction_crit2 (o : TCABOptions ℚ) (hc : o.init_c = 1) (hdt : o.init_dt = 2) :
    initial_direction crit_env o ![1, 1, 1] = .ok (-1) := by
  unfold initial_direction get_dxdt
  rw [hc, hdt]
  simp only [xprime_crit 1 1 (by norm_num), bind, Except.bind, extract_drhodt]
  rw [if_pos]
  · simp [pure, Except.pure]
  · exact ⟨1, by simp; norm_num⟩

/-- A run with a rejected step: from the critical point of `crit_env` with the adaptive
integrator, `init_dt = 2` and one step allowed.  The sign flips to -1; the first pass records
the initial point and its step of length 2 is rejected; the second pass, with `iter` still 0,
records no initial point again, its step of length 1 is accepted and the point at
`[4/5, 2/5, 9/5]` is recorded. -/
theorem run_retry :
    ∃ p1 : TracePoint ℚ,
      trace_critical_arclength_binary crit_env 3 1 ![1, 1] none
        (some { init_dt := 2, max_step_count := 1 }) =
        some (.ok [trace_point crit_env (-1) ![1, 1, 1] 0 ![0, 0] ![-1 / 5, -3 / 5, 4 / 5],
          p1]) ∧
      p1.t = 1 ∧ p1.T = 4 / 5 ∧ p1.rho0 = 2 / 5 ∧ p1.rho1 = 9 / 5 := by
  have hz : z0_outside (![4 / 5, 2 / 5, 9 / 5] : Fin 3 → ℚ) = false := by
    simp [z0_outside, vsum, Fin.sum_univ_two]
    constructor <;> norm_num
  have hcnt : small_T_counter ({ init_dt := 2, max_step_count := 1 } : TCABOptions ℚ)
      ![4 / 5, 2 / 5, 9 / 5] ![1, 1, 1] 0 = 0 := by
    have habs : |(4 / 5 : ℚ) - 1| = 1 / 5 := by
      rw [abs_of_neg (by norm_num)]
      norm_num
    simp only [small_T_counter, Matrix.cons_val_zero, habs]
    rw [if_neg (by norm_num)]
  obtain ⟨p1, hp1, ht, hT, hr0, hr1, -⟩ := store_point_ok_interior (-1) none
    ![4 / 5, 2 / 5, 9 / 5] (0 + 2 / 2)
    ([] ++ [trace_point crit_env (-1) ![1, 1, 1] 0 ![1 - 1, 0]
      ![-1 / 5, -1 * 3 / 5, -1 * -4 / 5]]) (by norm_num) (by norm_num)
  have hb1 := loop_body_reject crit_env
    ({ init_dt := 2, max_step_count := 1 } : TCABOptions ℚ) "" (-1)
    (initial_state { init_dt := 2, max_step_count := 1 } 1 ![1, 1]) _ _ _ _ _ _
    (xprime_crit (-1) 1 (by norm_num)) (store_point_crit (-1) 1 0 (by norm_num) []) rfl
    (try_step_crit _ _).1 (by decide)
  have hb2 := adaptive_pass_next crit_env
    ({ init_dt := 2, max_step_count := 1 } : TCABOptions ℚ) "" (-1)
    { iter := 0 - 1 + 1, retry_count := 0 + 1, counter_T_converged := 0, last_drhodt := none,
      x0 := ![1, 1, 1], t := 0, dt := 2 / 2,
      JSONdata := [] ++ [trace_point crit_env (-1) ![1, 1, 1] 0 ![1 - 1, 0]
        ![-1 / 5, -1 * 3 / 5, -1 * -4 / 5]] }
    _ _ _ _ _ _ 0
    (xprime_crit (-1) 1 (by norm_num)) (first_point_block_later _ _ _ (by decide)) rfl
    (try_step_crit _ _).2 rfl (by decide) hz (write_line_block_empty _ _) hp1 hcnt (by decide)
  have hexit := trace_loop_exit crit_env
    ({ init_dt := 2, max_step_count := 1 } : TCABOptions ℚ) "" (-1) 0
    { iter := 0 - 1 + 1 + 1, retry_count := 0, counter_T_converged := 0, last_drhodt := none,
      x0 := ![4 / 5, 2 / 5, 9 / 5], t := 0 + 2 / 2,
      dt := min (2 / 2) ({ init_dt := 2, max_step_count := 1 } : TCABOptions ℚ).max_dt,
      JSONdata := [] ++ [trace_point crit_env (-1) ![1, 1, 1] 0 ![1 - 1, 0]
        ![-1 / 5, -1 * 3 / 5, -1 * -4 / 5]] ++ [p1] } (by norm_num)
  refine ⟨p1, ?_, by rw [ht]; norm_num, hT, hr0, hr1⟩
  rw [trace_of_direction crit_env 3 1 ![1, 1] none _ (-1)
    (initial_direction_crit2 _ (by norm_num) rfl) (write_line_block_empty _ _)]
  refine ((trace_loop_next crit_env _ _ _ 2 _ _ (by decide) hb1).trans
    ((trace_loop_next crit_env _ _ _ 1 _ _ (by decide) hb2).trans hexit)).trans ?_
  norm_num

/-! ### C11: the initial direction sign -/

/-- C11: whenever `trace_critical_arclength_binary` returns a sequence with a first point, the
sign `c` recorded in that point is `-init_c` if some component of
`rho0 + init_dt * drho/dt(T0, rho0)` is negative (the derivative being evaluated with
`c = init_c` and no stored direction) and `init_c` otherwise; and the derivative recorded in
that point is the local derivative at the initial state for that recorded (flipped) sign. -/
theorem first_point_direction (env : Env α) (fuel : Nat) (T0 : α) (rhovec0 : Fin 2 → α)
    (filename_ : Option String) (options_ : Option (TCABOptions α)) (p : TracePoint α)
    (rest : List (TracePoint α))
    (h : trace_critical_arclength_binary env fuel T0 rhovec0 filename_ options_ =
      some (.ok (p :: rest))) :
    ∃ dxdt, xprime env (options_.getD {}).init_c none ![T0, rhovec0 0, rhovec0 1] = .ok dxdt ∧
      p.c = (if ∃ i : Fin 2, rhovec0 i + dxdt i.succ * (options_.getD {}).init_dt < 0
        then -(options_.getD {}).init_c else (options_.getD {}).init_c) ∧
      xprime env p.c none ![T0, rhovec0 0, rhovec0 1] = .ok ![p.dTdt, p.drho0dt, p.drho1dt] := by
  obtain ⟨c, hc, hl⟩ := trace_ok env fuel T0 rhovec0 filename_ options_ _ h
  obtain ⟨dxdt, hd, hcv⟩ := initial_direction_ok env _ _ c hc
  have hstep : (∃ i : Fin 2, (![T0, rhovec0 0, rhovec0 1] : Fin 3 → α) i.succ +
      extract_drhodt dxdt i * (options_.getD {}).init_dt < 0) ↔
      ∃ i : Fin 2, rhovec0 i + dxdt i.succ * (options_.getD {}).init_dt < 0 := by
    simp only [Fin.exists_fin_two, extract_drhodt]
    rfl
  rcases trace_loop_shape env _ _ c T0 rhovec0 fuel _ hl with ⟨-, hnil⟩ | ⟨-, n, hrec, -⟩
  · cases hnil
  · obtain ⟨p0, rest0, hp0, hr, -, -⟩ := hrec
    simp only [List.cons.injEq] at hr
    obtain ⟨rfl, -⟩ := hr
    obtain ⟨cond, dx, -, hx, hJ⟩ := store_point_ok _ _ _ _ _ _ _ hp0
    simp only [List.nil_append, List.cons.injEq, and_true] at hJ
    subst hJ
    refine ⟨dxdt, hd, ?_, ?_⟩
    · simp only [trace_point]
      rw [hcv]
      simp only [hstep]
    · simp only [trace_point]
      rw [hx]
      congr 1
      funext i
      fin_cases i <;> rfl

/-- C11 on a run of `crit_env` whose first trial step `(7, -7)` is negative: the recorded sign
is `-1 = -init_c`. -/
theorem first_point_direction_witness :
    ∃ p : TracePoint ℚ,
      trace_critical_arclength_binary crit_env 1 1 ![1, 1] none
        (some { integration_order := 1 }) = some (.ok [p]) ∧ p.c = -1 ∧
      ∃ dxdt, xprime crit_env ((some ({ integration_order := 1 } : TCABOptions ℚ)).getD {}).init_c
          none ![1, (![1, 1] : Fin 2 → ℚ) 0, (![1, 1] : Fin 2 → ℚ) 1] = .ok dxdt ∧
        p.c = (if ∃ i : Fin 2, (![1, 1] : Fin 2 → ℚ) i + dxdt i.succ *
            ((some ({ integration_order := 1 } : TCABOptions ℚ)).getD {}).init_dt < 0
          then -((some ({ integration_order := 1 } : TCABOptions ℚ)).getD {}).init_c
          else ((some ({ integration_order := 1 } : TCABOptions ℚ)).getD {}).init_c) ∧
        xprime crit_env p.c none ![1, (![1, 1] : Fin 2 → ℚ) 0, (![1, 1] : Fin 2 → ℚ) 1] =
          .ok ![p.dTdt, p.drho0dt, p.drho1dt] :=
  ⟨_, run_flip, rfl,
    first_point_direction crit_env 1 1 ![1, 1] none (some { integration_order := 1 }) _ []
      run_flip⟩

/-! ### C12: the initial point -/

/-- C12 (counterexample to the claim as stated): at the critical point of `crit_env` the
initial derivative evaluation succeeds, and with `max_step_count = 0` the tracer returns the
empty sequence. -/
theorem zero_steps_empty :
    xprime crit_env 1 none ![1, 1, 1] = .ok ![1 / 5, 3 / 5, -4 / 5] ∧
    trace_critical_arclength_binary crit_env 1 1 ![1, 1] none
      (some { max_step_count := 0 }) = some (.ok []) := by
  constructor
  · have h := xprime_crit 1 1 (by norm_num)
    norm_num at h
    rw [h]
    norm_num
  · rw [trace_of_direction crit_env 1 1 ![1, 1] none _ (-1)
      (initial_direction_crit _ (by norm_num) rfl) (write_line_block_empty _ _)]
    exact trace_loop_exit _ _ _ _ 0 _ (by decide)

/-- C12 (amended): for an option set with `max_step_count >= 1`, whenever the tangent at the
initial state is returned, the initial direction test returns a sign `c` and the first pass
through the loop records the point `p0` of the initial state (pseudo-time 0, `T = T0`,
composition `rho0`, its two criticality residuals); at every later loop head, also after a
rejected and retried first step, `JSONdata` is `p0` followed by `iter` points and the
first-point statement records nothing more; every sequence the tracer returns is `p0` followed
by at most `max_step_count` points; and with an integration order other than 5 the tracer
ends (it returns or raises) within `max_step_count` passes of the loop. -/
theorem initial_point_recorded (env : Env α) (T0 : α) (rhovec0 : Fin 2 → α)
    (filename_ : Option String) (o : TCABOptions α) (d : Fin 2 → α)
    (hmax : 1 ≤ o.max_step_count)
    (hd : get_drhovec_dT_crit env.lib env.model T0 rhovec0 = .ok d) :
    ∃ c p0, initial_direction env o ![T0, rhovec0 0, rhovec0 1] = .ok c ∧
      first_point_block env c (initial_state o T0 rhovec0) = .ok [p0] ∧
      p0.t = 0 ∧ p0.T = T0 ∧ p0.rho0 = rhovec0 0 ∧ p0.rho1 = rhovec0 1 ∧
      get_criticality_conditions env.lib env.model (le_refl 2) T0 rhovec0 =
        .ok ![p0.lambda1, p0.dirderiv] ∧
      (∀ st, reaches env o (filename_.getD "") c (initial_state o T0 rhovec0) st →
        st ≠ initial_state o T0 rhovec0 →
        first_point_block env c st = .ok st.JSONdata ∧
          ∃ rest, st.JSONdata = p0 :: rest ∧ (rest.length : Int) = st.iter) ∧
      (∀ fuel r, trace_critical_arclength_binary env fuel T0 rhovec0 filename_ (some o) =
          some (.ok r) →
        ∃ rest, r = p0 :: rest ∧ (rest.length : Int) ≤ o.max_step_count) ∧
      (o.integration_order ≠ 5 → ∀ fuel, o.max_step_count.toNat < fuel →
        trace_critical_arclength_binary env fuel T0 rhovec0 filename_ (some o) ≠ none) := by
  have htail : (fun i : Fin 2 => (![T0, rhovec0 0, rhovec0 1] : Fin 3 → α) i.succ) = rhovec0 := by
    funext i
    fin_cases i <;> rfl
  have hd1 : get_drhovec_dT_crit env.lib env.model ((![T0, rhovec0 0, rhovec0 1] : Fin 3 → α) 0)
      (fun i => (![T0, rhovec0 0, rhovec0 1] : Fin 3 → α) i.succ) = .ok d := by
    rw [htail]; exact hd
  obtain ⟨c, hc⟩ := initial_direction_of_tangent env o _ d hd1
  obtain ⟨dx, hdx⟩ := (xprime_ok_iff env c none _).mpr ⟨d, hd1⟩
  obtain ⟨cond, hcond⟩ := conditions_ok_of_tangent _ _ _ _ _ hd
  have hcond1 : get_criticality_conditions env.lib env.model (le_refl 2)
      ((![T0, rhovec0 0, rhovec0 1] : Fin 3 → α) 0)
      (fun i => (![T0, rhovec0 0, rhovec0 1] : Fin 3 → α) i.succ) = .ok cond := by
    rw [htail]; exact hcond
  have hsp := store_point_eq env c none ![T0, rhovec0 0, rhovec0 1] 0 [] cond dx hcond1 hdx
  rw [List.nil_append] at hsp
  refine ⟨c, trace_point env c ![T0, rhovec0 0, rhovec0 1] 0 cond dx, hc, ?_, rfl, rfl, rfl, rfl,
    ?_, ?_, ?_, ?_⟩
  · simp only [first_point_block, initial_state, and_self, if_true]
    exact hsp
  · rw [hcond]
    congr 1
    funext i
    fin_cases i <;> rfl
  · intro st hst hne
    obtain ⟨-, -, -, -, hinit | ⟨hne0, -, -, p0, rest, hp0, hJ, hlen, -⟩⟩ :=
      loop_inv_of_reaches env o _ c T0 rhovec0 st hst
    · exact absurd hinit hne
    · rw [hsp] at hp0
      simp only [Except.ok.injEq, List.cons.injEq, and_true] at hp0
      subst hp0
      refine ⟨?_, rest, hJ, hlen⟩
      simp only [first_point_block, hne0, if_false]
      rfl
  · intro fuel r hr
    obtain ⟨c1, hc1, hl⟩ := trace_ok env fuel T0 rhovec0 filename_ (some o) r hr
    simp only [Option.getD_some] at hc1 hl
    rw [hc] at hc1
    simp only [Except.ok.injEq] at hc1
    subst hc1
    rcases trace_loop_shape env _ _ c T0 rhovec0 fuel _ hl with ⟨hle, -⟩ | ⟨-, n, hrec, hn⟩
    · omega
    · obtain ⟨p0, rest, hp0, hJ, hlen, -⟩ := hrec
      rw [hsp] at hp0
      simp only [Except.ok.injEq, List.cons.injEq, and_true] at hp0
      subst hp0
      exact ⟨rest, hJ, by omega⟩
  · intro ho fuel hf
    rw [trace_of_direction env fuel T0 rhovec0 filename_ o c hc
      (write_line_block_of_tangent env _ _ d hd1)]
    apply trace_loop_total env o _ c ho
    simpa [initial_state] using hf

/-- C12 (amended) on the run of `crit_env` whose first step is rejected and retried: the
initial point is recorded once, first in the returned sequence of two points. -/
theorem initial_point_recorded_witness :
    1 ≤ ({ init_dt := 2, max_step_count := 1 } : TCABOptions ℚ).max_step_count ∧
    get_drhovec_dT_crit crit_env.lib crit_env.model 1 ![1, 1] = .ok ![3, -4] ∧
    ∃ p0 p1,
      trace_critical_arclength_binary crit_env 3 1 ![1, 1] none
        (some { init_dt := 2, max_step_count := 1 }) = some (.ok [p0, p1]) ∧
      (∃ c, first_point_block crit_env c
        (initial_state { init_dt := 2, max_step_count := 1 } 1 ![1, 1]) = .ok [p0]) ∧
      p0.t = 0 ∧ p0.T = 1 ∧ p0.rho0 = 1 ∧ p0.rho1 = 1 := by
  obtain ⟨c, p0, -, hfp, h3, h4, h5, h6, -, -, hret, -⟩ :=
    initial_point_recorded crit_env 1 ![1, 1] none { init_dt := 2, max_step_count := 1 }
      ![3, -4] (by decide) (crit_tangent_line 1 (by norm_num))
  obtain ⟨p1, hrun, -⟩ := run_retry
  obtain ⟨rest, hr, -⟩ := hret 3 _ hrun
  simp only [List.cons.injEq] at hr
  obtain ⟨hp0, -⟩ := hr
  rw [hp0] at hrun
  exact ⟨by decide, crit_tangent_line 1 (by norm_num), p0, p1, hrun, ⟨c, hfp⟩, h3, h4, h5, h6⟩

/-! ### C13: the mole-fraction test -/

/-- C13 (counterexample to the claim as stated): in `crit_env`, from `T = 1`,
`rhovec = (1, 0)` with the Euler integrator and a step of length 0, the accepted step ends at
`rhovec = (1, 0)`, of mole fraction `z0 = 1`, which is not strictly inside `(0, 1)`; tracing
goes on and that point is recorded. -/
theorem boundary_point_recorded :
    ∃ p0 p1 : TracePoint ℚ,
      trace_critical_arclength_binary crit_env 2 1 ![1, 0] none
        (some { integration_order := 1, init_dt := 0, max_step_count := 1 }) =
        some (.ok [p0, p1]) ∧
      p1.rho0 / (p1.rho0 + p1.rho1) = 1 ∧
      ¬ (0 < p1.rho0 / (p1.rho0 + p1.rho1) ∧ p1.rho0 / (p1.rho0 + p1.rho1) < 1) := by
  refine ⟨_, _, run_boundary, ?_, ?_⟩
  · simp [trace_point]
  · simp [trace_point]

/-- C13 (amended): after an accepted step whose mole fraction `z0 = rho0 / (rho0 + rho1)`
satisfies `z0 < 0` or `z0 > 1`, before or after polishing, the pass ends at a `break` and the
point is not recorded; hence every point of a returned sequence after the first has
`0 <= z0 <= 1`. -/
theorem recorded_points_in_domain (env : Env α) (fuel : Nat) (T0 : α) (rhovec0 : Fin 2 → α)
    (filename_ : Option String) (options_ : Option (TCABOptions α)) (r : List (TracePoint α))
    (h : trace_critical_arclength_binary env fuel T0 rhovec0 filename_ options_ =
      some (.ok r)) :
    (∀ p ∈ r.tail, 0 ≤ p.rho0 / (p.rho0 + p.rho1) ∧ p.rho0 / (p.rho0 + p.rho1) ≤ 1) ∧
    ∀ (c : α) (st : TraceState α) (xs : state_type α) (fl : Flow α),
      after_step env (options_.getD {}) (filename_.getD "") c st xs = .ok fl →
      (z0_outside st.x0 = true ∨ z0_outside (polish_block env (options_.getD {}) st.x0) = true) →
      fl.stops = true ∧ fl.state.JSONdata = st.JSONdata := by
  constructor
  · obtain ⟨c, -, hl⟩ := trace_ok env fuel T0 rhovec0 filename_ options_ _ h
    rcases trace_loop_shape env _ _ c T0 rhovec0 fuel _ hl with ⟨-, rfl⟩ | ⟨-, n, hrec, -⟩
    · intro p hp
      cases hp
    · obtain ⟨p0, rest, -, rfl, -, hall⟩ := hrec
      intro p hp
      have hd := (hall p hp).1
      unfold in_domain at hd
      rw [not_or, not_lt, not_lt] at hd
      exact hd
  · intro c st xs fl ha hz
    obtain ⟨-, -, -, -, hcase⟩ := after_step_ok env _ _ c st xs fl ha
    rcases hcase with ⟨-, rfl⟩ | ⟨h1, -, -, -, ⟨-, hstop, hJ⟩ | ⟨h2, -, -⟩⟩
    · exact ⟨rfl, rfl⟩
    · exact ⟨hstop, hJ⟩
    · rcases hz with hz | hz
      · rw [h1] at hz; cases hz
      · rw [h2] at hz; cases hz

/-- C13 (amended) on the run of `crit_env` along the boundary: the second recorded point has
`z0 = 1`. -/
theorem recorded_points_in_domain_witness :
    ∃ r : List (TracePoint ℚ),
      trace_critical_arclength_binary crit_env 2 1 ![1, 0] none
        (some { integration_order := 1, init_dt := 0, max_step_count := 1 }) = some (.ok r) ∧
      r.length = 2 ∧
      ∀ p ∈ r.tail, 0 ≤ p.rho0 / (p.rho0 + p.rho1) ∧ p.rho0 / (p.rho0 + p.rho1) ≤ 1 :=
  ⟨_, run_boundary, rfl,
    (recorded_points_in_domain crit_env 2 1 ![1, 0] none
      (some { integration_order := 1, init_dt := 0, max_step_count := 1 }) _ run_boundary).1⟩

/-! ### C14: errors of the derivative evaluations -/

/-- The adaptive step of `toy_odeint` from the critical point of `crit_env` with sign -1 and
`dt = 10`: the half-step state is `[0, -2, 5]`, where the tangent evaluation raises. -/
theorem try_step_crit_error (a b : ℚ) :
    crit_env.stepper.try_step a b (xprime crit_env (-1) none) ![1, 1, 1] 0 10 =
      .error (.invalid_argument "This is not possible I think.") := by
  have hst : crit_env.stepper = toy_odeint ℚ := rfl
  have hstage : xprime crit_env (-1) none
      (fun i => (![1, 1, 1] : Fin 3 → ℚ) i + 10 / 2 * (![-1 / 5, -1 * 3 / 5, -1 * -4 / 5] :
        Fin 3 → ℚ) i) = .error (.invalid_argument "This is not possible I think.") := by
    apply xprime_error
    apply tangent_error_negative
    · simp
      norm_num
    · simp
      norm_num
  rw [hst]
  simp only [toy_odeint, xprime_crit (-1) 1 (by norm_num), hstage]

/-- C14 (counterexample to the claim as stated): with both concentrations zero the eigen
construction raises at the initial direction test, and `trace_critical_arclength_binary`
raises that error instead of returning the (empty) list of points. -/
theorem initial_error_escapes :
    trace_critical_arclength_binary crit_env 1 1 ![0, 0] none none =
      some (.error (.invalid_argument
        "More than one non-zero concentration value found; not currently supported")) := by
  have ht := tangent_error_zero crit_env.lib crit_env.model (1 : ℚ)
  have hx : xprime crit_env ({} : TCABOptions ℚ).init_c none ![1, 0, 0] =
      .error (.invalid_argument
        "More than one non-zero concentration value found; not currently supported") := by
    apply xprime_error
    rw [state_tail]
    exact ht
  have hi : initial_direction crit_env ({} : TCABOptions ℚ)
      ![1, (![0, 0] : Fin 2 → ℚ) 0, (![0, 0] : Fin 2 → ℚ) 1] =
      .error (.invalid_argument
        "More than one non-zero concentration value found; not currently supported") := by
    unfold initial_direction get_dxdt
    simp only [Matrix.cons_val_zero, Matrix.cons_val_one, Matrix.head_cons, hx, bind,
      Except.bind]
  exact trace_of_direction_error crit_env 1 1 ![0, 0] none {} _ hi

/-- C14 (amended): an error raised inside the integrator step (`try_step` for order 5,
`do_step` for order 1) ends the loop, and the points recorded so far are returned.  An error of
the eigen construction, the derivative construction or the tangent solve raised at the other
evaluations is raised by `trace_critical_arclength_binary` itself: at the initial direction
test, at the start of a pass (`get_dxdt`), while the direction of the start of the step is
stored (`store_drhodt`) and while a point is recorded (`store_point`). -/
theorem integrator_error_returns_points (env : Env α) (o : TCABOptions α) (f : String) (c : α) :
    (∀ (st : TraceState α) (dx : state_type α) (J0 : List (TracePoint α)) (e : Error)
        (fuel : Nat),
      st.iter < o.max_step_count → get_dxdt env c st.last_drhodt st.x0 = .ok dx →
      first_point_block env c st = .ok J0 →
      ((o.integration_order = 5 ∧
          env.stepper.try_step o.abs_err o.rel_err (xprime env c st.last_drhodt) st.x0 st.t
            st.dt = .error e) ∨
        (o.integration_order = 1 ∧
          env.stepper.do_step (xprime env c st.last_drhodt) st.x0 st.t st.dt = .error e)) →
      trace_loop env o f c (fuel + 1) st = some (.ok J0)) ∧
    (∀ (T0 : α) (rhovec0 : Fin 2 → α) (filename_ : Option String) (fuel : Nat) (e : Error),
      get_drhovec_dT_crit env.lib env.model T0 rhovec0 = .error e →
      trace_critical_arclength_binary env fuel T0 rhovec0 filename_ (some o) =
        some (.error e)) ∧
    (∀ (st : TraceState α) (e : Error) (fuel : Nat), st.iter < o.max_step_count →
      get_drhovec_dT_crit env.lib env.model (st.x0 0) (fun i => st.x0 i.succ) = .error e →
      trace_loop env o f c (fuel + 1) st = some (.error e)) ∧
    (∀ (m : TraceState α) (xs : state_type α) (e : Error), z0_outside m.x0 = false →
      direction_block env o c m xs = .error e → after_step env o f c m xs = .error e) ∧
    (∀ (m : TraceState α) (xs : state_type α) (last : Option (Fin 2 → α)) (e : Error),
      z0_outside m.x0 = false → direction_block env o c m xs = .ok last →
      z0_outside (polish_block env o m.x0) = false →
      write_line_block env f (polish_block env o m.x0) = .ok () →
      store_point env c last (polish_block env o m.x0) m.t m.JSONdata = .error e →
      after_step env o f c m xs = .error e) := by
  refine ⟨?_, ?_, ?_, ?_, ?_⟩
  · intro st dx J0 e fuel hlt hd hJ hs
    exact trace_loop_stop env o f c fuel st _ hlt (loop_body_step_error env o f c st dx J0 e hd hJ hs)
  · intro T0 rhovec0 filename_ fuel e he
    apply trace_of_direction_error
    have hx : xprime env o.init_c none ![T0, rhovec0 0, rhovec0 1] = .error e := by
      apply xprime_error
      have htail : (fun i : Fin 2 => (![T0, rhovec0 0, rhovec0 1] : Fin 3 → α) i.succ) =
          rhovec0 := by
        funext i
        fin_cases i <;> rfl
      rw [htail]
      exact he
    unfold initial_direction get_dxdt
    simp only [hx, bind, Except.bind]
  · intro st e fuel hlt he
    apply trace_loop_raise env o f c fuel st e hlt
    unfold loop_body get_dxdt
    simp only [xprime_error env c st.last_drhodt st.x0 e he, bind, Except.bind]
  · intro m xs e h1 hl
    simp only [after_step, h1, hl, bind, Except.bind, Bool.false_eq_true, if_false]
  · intro m xs last e h1 hl h2 hw hJ
    simp only [after_step, h1, hl, h2, hw, hJ, bind, Except.bind, Bool.false_eq_true, if_false]

/-- C14 (amended) on the run of `crit_env` with the default options: the sign flips to -1,
the initial point is recorded, the adaptive step raises at its half-step state `[0, -2, 5]`,
and the recorded point is returned. -/
theorem integrator_error_returns_points_witness :
    (initial_state ({} : TCABOptions ℚ) 1 ![1, 1]).iter < ({} : TCABOptions ℚ).max_step_count ∧
    first_point_block crit_env (-1) (initial_state ({} : TCABOptions ℚ) 1 ![1, 1]) =
      .ok [trace_point crit_env (-1) ![1, 1, 1] 0 ![0, 0] ![-1 / 5, -3 / 5, 4 / 5]] ∧
    crit_env.stepper.try_step ({} : TCABOptions ℚ).abs_err ({} : TCABOptions ℚ).rel_err
        (xprime crit_env (-1) none) ![1, 1, 1] 0 10 =
      .error (.invalid_argument "This is not possible I think.") ∧
    trace_loop crit_env ({} : TCABOptions ℚ) "" (-1) 1 (initial_state {} 1 ![1, 1]) =
      some (.ok [trace_point crit_env (-1) ![1, 1, 1] 0 ![0, 0] ![-1 / 5, -3 / 5, 4 / 5]]) := by
  have hJ : first_point_block crit_env (-1) (initial_state ({} : TCABOptions ℚ) 1 ![1, 1]) =
      .ok [trace_point crit_env (-1) ![1, 1, 1] 0 ![0, 0] ![-1 / 5, -3 / 5, 4 / 5]] := by
    show store_point crit_env (-1) none ![1, 1, 1] 0 [] = _
    rw [store_point_crit (-1) 1 0 (by norm_num) []]
    norm_num
  exact ⟨by decide, hJ, try_step_crit_error _ _,
    (integrator_error_returns_points crit_env {} "" (-1)).1 (initial_state {} 1 ![1, 1])
      ![-1 / 5, -1 * 3 / 5, -1 * -4 / 5] _ _ 0 (by decide) (xprime_crit (-1) 1 (by norm_num)) hJ
      (Or.inl ⟨rfl, try_step_crit_error _ _⟩)⟩

/-! ### C15: the counter of small temperature steps -/

/-- C15: at every loop head of a run, `counter_T_converged` is not negative and has not passed
`small_T_count`.  A pass that raises nothing either leaves the counter as it is (the step was
rejected, or the loop is left on an integrator error or at the first mole-fraction test), or
it made an accepted step to a state `x` inside the domain, and then the counter becomes
`counter + 1` if `|T_after - T_before| < T_tol`, measured after polishing, and `0` otherwise.
If the state after polishing is inside the domain its point is recorded, and the loop is left
as converged exactly if the new counter exceeds `small_T_count`; for `small_T_count >= 0` the
new counter is then `small_T_count + 1`. -/
theorem small_T_convergence (env : Env α) (o : TCABOptions α) (f : String) (c T0 : α)
    (rhovec0 : Fin 2 → α) (st : TraceState α) (fl : Flow α)
    (hst : reaches env o f c (initial_state o T0 rhovec0) st)
    (hb : loop_body env o f c st = .ok fl) :
    0 ≤ st.counter_T_converged ∧
    (st.counter_T_converged = 0 ∨ st.counter_T_converged ≤ o.small_T_count) ∧
    ∃ J0, first_point_block env c st = .ok J0 ∧
      ((fl.state.counter_T_converged = st.counter_T_converged ∧
          fl.state.JSONdata = J0 ∧
          ((fl.stops = false ∧ o.integration_order = 5 ∧
              ∃ res x t dt, env.stepper.try_step o.abs_err o.rel_err
                  (xprime env c st.last_drhodt) st.x0 st.t st.dt = .ok (res, x, t, dt) ∧
                res ≠ .success) ∨
            fl.stops = true)) ∨
        ∃ x : state_type α,
          ((o.integration_order = 5 ∧
              ∃ t dt, env.stepper.try_step o.abs_err o.rel_err (xprime env c st.last_drhodt)
                st.x0 st.t st.dt = .ok (.success, x, t, dt)) ∨
            (o.integration_order = 1 ∧
              env.stepper.do_step (xprime env c st.last_drhodt) st.x0 st.t st.dt = .ok x)) ∧
          z0_outside x = false ∧ fl.state.x0 = polish_block env o x ∧
          fl.state.counter_T_converged =
            (if |polish_block env o x 0 - st.x0 0| < o.T_tol then st.counter_T_converged + 1
              else 0) ∧
          ((z0_outside (polish_block env o x) = true ∧ fl.stops = true ∧
              fl.state.JSONdata = J0) ∨
            (z0_outside (polish_block env o x) = false ∧
              (∃ p, fl.state.JSONdata = J0 ++ [p]) ∧
              (fl.stops = true ↔ fl.state.counter_T_converged > o.small_T_count) ∧
              (fl.stops = true → 0 ≤ o.small_T_count →
                fl.state.counter_T_converged = o.small_T_count + 1)))) := by
  obtain ⟨-, -, hc0, hcs, -⟩ := loop_inv_of_reaches env o f c T0 rhovec0 st hst
  obtain ⟨dx, J0, -, hJ0, hcase⟩ := loop_body_ok env o f c st fl hb
  refine ⟨hc0, hcs, J0, hJ0, ?_⟩
  have key : ∀ (m : TraceState α), m.counter_T_converged = st.counter_T_converged →
      m.JSONdata = J0 → after_step env o f c m st.x0 = .ok fl →
      ((fl.state.counter_T_converged = st.counter_T_converged ∧ fl.state.JSONdata = J0 ∧
          fl.stops = true) ∨
        (z0_outside m.x0 = false ∧ fl.state.x0 = polish_block env o m.x0 ∧
          fl.state.counter_T_converged =
            (if |polish_block env o m.x0 0 - st.x0 0| < o.T_tol then st.counter_T_converged + 1
              else 0) ∧
          ((z0_outside (polish_block env o m.x0) = true ∧ fl.stops = true ∧
              fl.state.JSONdata = J0) ∨
            (z0_outside (polish_block env o m.x0) = false ∧
              (∃ p, fl.state.JSONdata = J0 ++ [p]) ∧
              (fl.stops = true ↔ fl.state.counter_T_converged > o.small_T_count) ∧
              (fl.stops = true → 0 ≤ o.small_T_count →
                fl.state.counter_T_converged = o.small_T_count + 1))))) := by
    intro m hmc hmJ ha
    obtain ⟨-, -, -, -, hcase⟩ := after_step_ok env o f c m st.x0 fl ha
    rcases hcase with ⟨-, rfl⟩ | ⟨h1, hx, hcnt, -, hrest⟩
    · exact Or.inl ⟨hmc, hmJ, rfl⟩
    · right
      have hcnt1 : fl.state.counter_T_converged =
          (if |polish_block env o m.x0 0 - st.x0 0| < o.T_tol then st.counter_T_converged + 1
            else 0) := by
        rw [hcnt, ← hmc]
        rfl
      refine ⟨h1, hx, hcnt1, ?_⟩
      rcases hrest with ⟨h2, hstop, hJ⟩ | ⟨h2, hsp, hiff⟩
      · exact Or.inl ⟨h2, hstop, hJ.trans hmJ⟩
      · right
        obtain ⟨cond, dxdt, -, -, hJ1⟩ := store_point_ok _ _ _ _ _ _ _ hsp
        refine ⟨h2, ⟨_, hJ1.trans (by rw [hmJ])⟩, hiff, ?_⟩
        intro hstop hs0
        have hgt := hiff.mp hstop
        rw [hcnt1] at hgt ⊢
        split at hgt
        · rw [if_pos (by assumption)]
          omega
        · omega
  rcases hcase with ⟨rfl, -⟩ | ⟨h5, res, x, t, dt, hs, hres, rfl⟩ | ⟨h5, x, t, dt, hs, ha⟩ |
    ⟨h1, x, hs, ha⟩
  · exact Or.inl ⟨rfl, rfl, Or.inr rfl⟩
  · exact Or.inl ⟨rfl, rfl, Or.inl ⟨rfl, h5, res, x, t, dt, hs, hres⟩⟩
  · rcases key
      { st with retry_count := 0, x0 := x, t := t, dt := min dt o.max_dt, JSONdata := J0 }
      rfl rfl ha with h | h
    · exact Or.inl ⟨h.1, h.2.1, Or.inr h.2.2⟩
    · exact Or.inr ⟨x, Or.inl ⟨h5, t, dt, hs⟩, h⟩
  · rcases key { st with x0 := x, t := st.t + st.dt, JSONdata := J0 } rfl rfl ha with h | h
    · exact Or.inl ⟨h.1, h.2.1, Or.inr h.2.2⟩
    · exact Or.inr ⟨x, Or.inr ⟨h1, hs⟩, h⟩

/-- C15 on the converging pass of `crit_env`: with `small_T_count = 0` the first accepted step,
which leaves the temperature unchanged, brings the counter from 0 to 1 and the loop is left. -/
theorem small_T_convergence_witness :
    ∃ fl : Flow ℚ,
      loop_body crit_env
        ({ integration_order := 1, init_dt := 0, small_T_count := 0 } : TCABOptions ℚ) "" 1
        (initial_state { integration_order := 1, init_dt := 0, small_T_count := 0 } 1 ![1, 1]) =
        .ok fl ∧
      fl.stops = true ∧ fl.state.counter_T_converged = 1 ∧
      0 ≤ (initial_state ({ integration_order := 1, init_dt := 0, small_T_count := 0 } :
        TCABOptions ℚ) 1 ![1, 1]).counter_T_converged ∧
      ∃ J0, first_point_block crit_env 1
        (initial_state ({ integration_order := 1, init_dt := 0, small_T_count := 0 } :
          TCABOptions ℚ) 1 ![1, 1]) = .ok J0 := by
  obtain ⟨h0, -, J0, hJ0, -⟩ := small_T_convergence crit_env
    ({ integration_order := 1, init_dt := 0, small_T_count := 0 } : TCABOptions ℚ) "" 1 1 ![1, 1]
    _ _ reaches.start pass_still
  exact ⟨_, pass_still, rfl, rfl, h0, J0, hJ0⟩

/-! ### C16: the length of the returned sequence -/

/-- C16 (counterexample to the claim as stated): at the critical point of `crit_env`, with
`max_step_count = 0` the returned sequence holds no point for the initial state, and with
`max_step_count = -2` its length 0 exceeds `max_step_count + 1 = -1`. -/
theorem nonpositive_step_count :
    trace_critical_arclength_binary crit_env 1 1 ![1, 1] none
      (some { integration_order := 1, max_step_count := 0 }) = some (.ok []) ∧
    trace_critical_arclength_binary crit_env 1 1 ![1, 1] none
      (some { integration_order := 1, max_step_count := -2 }) = some (.ok []) ∧
    ¬ ((([] : List (TracePoint ℚ)).length : Int) ≤
      ({ integration_order := 1, max_step_count := -2 } : TCABOptions ℚ).max_step_count + 1) := by
  refine ⟨?_, ?_, by decide⟩
  · rw [trace_of_direction crit_env 1 1 ![1, 1] none _ (-1)
      (initial_direction_crit _ (by norm_num) rfl) (write_line_block_empty _ _)]
    exact trace_loop_exit _ _ _ _ 0 _ (by decide)
  · rw [trace_of_direction crit_env 1 1 ![1, 1] none _ (-1)
      (initial_direction_crit _ (by norm_num) rfl) (write_line_block_empty _ _)]
    exact trace_loop_exit _ _ _ _ 0 _ (by decide)

/-- C16 (amended): a sequence returned by the tracer is empty when `max_step_count <= 0`, and
for `max_step_count >= 1` has between 1 and `max_step_count + 1` points.  At every loop head
of a run, once the loop has been entered, `iter` is between 0 and `max_step_count` and
`JSONdata` holds `iter + 1` points.  A pass that the loop continues after is either a rejected
order-5 step, which records no point beyond the first-point statement and sets `iter` back by
one (so that `++iter` leaves it unchanged), or an accepted step inside the domain, which
records exactly one point and leaves `iter` to be advanced by `++iter`. -/
theorem trace_length_bound (env : Env α) (fuel : Nat) (T0 : α) (rhovec0 : Fin 2 → α)
    (filename_ : Option String) (o : TCABOptions α) (r : List (TracePoint α))
    (h : trace_critical_arclength_binary env fuel T0 rhovec0 filename_ (some o) =
      some (.ok r)) :
    ((o.max_step_count ≤ 0 ∧ r = []) ∨
      (1 ≤ o.max_step_count ∧ 1 ≤ r.length ∧ (r.length : Int) ≤ o.max_step_count + 1)) ∧
    ∀ (c : α) (st : TraceState α),
      reaches env o (filename_.getD "") c (initial_state o T0 rhovec0) st →
      0 ≤ st.iter ∧
      (st = initial_state o T0 rhovec0 ∨
        (st.iter ≤ o.max_step_count ∧ (st.JSONdata.length : Int) = st.iter + 1)) ∧
      ∀ st1, loop_body env o (filename_.getD "") c st = .ok (.next st1) →
        ∃ J0, first_point_block env c st = .ok J0 ∧
          ((st1.iter + 1 = st.iter ∧ st1.JSONdata = J0 ∧ o.integration_order = 5 ∧
              ∃ res x t dt, env.stepper.try_step o.abs_err o.rel_err
                  (xprime env c st.last_drhodt) st.x0 st.t st.dt = .ok (res, x, t, dt) ∧
                res ≠ .success) ∨
            (st1.iter = st.iter ∧ (∃ p, st1.JSONdata = J0 ++ [p] ∧ in_domain p) ∧
              ((o.integration_order = 5 ∧
                  ∃ x t dt, env.stepper.try_step o.abs_err o.rel_err
                    (xprime env c st.last_drhodt) st.x0 st.t st.dt = .ok (.success, x, t, dt)) ∨
                (o.integration_order = 1 ∧
                  ∃ x, env.stepper.do_step (xprime env c st.last_drhodt) st.x0 st.t st.dt =
                    .ok x)))) := by
  constructor
  · obtain ⟨c, -, hl⟩ := trace_ok env fuel T0 rhovec0 filename_ (some o) _ h
    simp only [Option.getD_some] at hl
    rcases trace_loop_shape env _ _ c T0 rhovec0 fuel _ hl with ⟨hle, rfl⟩ | ⟨h1, n, hrec, hn⟩
    · exact Or.inl ⟨hle, rfl⟩
    · obtain ⟨p0, rest, -, rfl, hlen, -⟩ := hrec
      refine Or.inr ⟨h1, ?_, ?_⟩
      · simp
      · rw [List.length_cons]
        push_cast
        omega
  · intro c st hst
    obtain ⟨hi0, -, -, -, hcase⟩ := loop_inv_of_reaches env o _ c T0 rhovec0 st hst
    refine ⟨hi0, ?_, ?_⟩
    · rcases hcase with hinit | ⟨-, -, hle, p0, rest, -, hJ, hlen, -⟩
      · exact Or.inl hinit
      · refine Or.inr ⟨hle, ?_⟩
        rw [hJ, List.length_cons]
        push_cast
        omega
    · intro st1 hb
      obtain ⟨dx, J0, -, hJ0, hc⟩ := loop_body_ok env o _ c st _ hb
      refine ⟨J0, hJ0, ?_⟩
      have key : ∀ (m : TraceState α), m.iter = st.iter → m.JSONdata = J0 →
          after_step env o (filename_.getD "") c m st.x0 = .ok (.next st1) →
          st1.iter = st.iter ∧ ∃ p, st1.JSONdata = J0 ++ [p] ∧ in_domain p := by
        intro m hmi hmJ ha
        obtain ⟨hi, -, -, -, hcase⟩ := after_step_ok env o _ c m st.x0 _ ha
        simp only [Flow.state] at hi
        rcases hcase with ⟨-, hfl⟩ | ⟨-, -, -, -, ⟨-, hstop, -⟩ | ⟨hz, hsp, -⟩⟩
        · cases hfl
        · simp [Flow.stops] at hstop
        · obtain ⟨cond, dxdt, -, -, hJ1⟩ := store_point_ok _ _ _ _ _ _ _ hsp
          simp only [Flow.state] at hJ1
          exact ⟨hi.trans hmi, _, hJ1.trans (by rw [hmJ]),
            in_domain_trace_point _ _ _ _ _ _ hz⟩
      rcases hc with ⟨hfl, -⟩ | ⟨h5, res, x, t, dt, hs, hres, hfl⟩ | ⟨h5, x, t, dt, hs, ha⟩ |
        ⟨h1, x, hs, ha⟩
      · cases hfl
      · simp only [Flow.next.injEq] at hfl
        subst hfl
        exact Or.inl ⟨by simp, rfl, h5, res, x, t, dt, hs, hres⟩
      · obtain ⟨hi, hp⟩ := key
          { st with retry_count := 0, x0 := x, t := t, dt := min dt o.max_dt, JSONdata := J0 }
          rfl rfl ha
        exact Or.inr ⟨hi, hp, Or.inl ⟨h5, x, t, dt, hs⟩⟩
      · obtain ⟨hi, hp⟩ := key { st with x0 := x, t := st.t + st.dt, JSONdata := J0 } rfl rfl ha
        exact Or.inr ⟨hi, hp, Or.inr ⟨h1, x, hs⟩⟩

/-- C16 (amended) on the run of `crit_env` whose first step is rejected and retried: with
`max_step_count = 1` the returned sequence has `2 = max_step_count + 1` points. -/
theorem trace_length_bound_witness :
    ∃ r : List (TracePoint ℚ),
      trace_critical_arclength_binary crit_env 3 1 ![1, 1] none
        (some { init_dt := 2, max_step_count := 1 }) = some (.ok r) ∧
      r.length = 2 ∧
      ((({ init_dt := 2, max_step_count := 1 } : TCABOptions ℚ).max_step_count ≤ 0 ∧ r = []) ∨
        (1 ≤ ({ init_dt := 2, max_step_count := 1 } : TCABOptions ℚ).max_step_count ∧
          1 ≤ r.length ∧
          (r.length : Int) ≤
            ({ init_dt := 2, max_step_count := 1 } : TCABOptions ℚ).max_step_count + 1)) := by
  obtain ⟨p1, hrun, -⟩ := run_retry
  exact ⟨_, hrun, rfl,
    (trace_length_bound crit_env 3 1 ![1, 1] none { init_dt := 2, max_step_count := 1 } _
      hrun).1⟩

/-! ### C17: the default options -/

/-- C17: a default-constructed `TCABOptions` has `abs_err = 1e-6`, `rel_err = 1e-6`,
`init_dt = 10`, `max_dt = 1e10`, `T_tol = 1e-6`, `init_c = 1`, `small_T_count = 5`,
`integration_order = 5`, `max_step_count = 1000`, `skip_dircheck_count = 1` and
`polish = false`; and `trace_critical_arclength_binary` called without options runs with
exactly these. -/
theorem default_options (env : Env α) (fuel : Nat) (T0 : α) (rhovec0 : Fin 2 → α)
    (filename_ : Option String) :
    ({} : TCABOptions α).abs_err = 1 / 1000000 ∧ ({} : TCABOptions α).rel_err = 1 / 1000000 ∧
    ({} : TCABOptions α).init_dt = 10 ∧ ({} : TCABOptions α).max_dt = 10 ^ 10 ∧
    ({} : TCABOptions α).T_tol = 1 / 1000000 ∧ ({} : TCABOptions α).init_c = 1 ∧
    ({} : TCABOptions α).small_T_count = 5 ∧ ({} : TCABOptions α).integration_order = 5 ∧
    ({} : TCABOptions α).max_step_count = 1000 ∧
    ({} : TCABOptions α).skip_dircheck_count = 1 ∧ ({} : TCABOptions α).polish = false ∧
    trace_critical_arclength_binary env fuel T0 rhovec0 filename_ none =
      trace_critical_arclength_binary env fuel T0 rhovec0 filename_
        (some
          { abs_err := 1 / 1000000, rel_err := 1 / 1000000, init_dt := 10, max_dt := 10 ^ 10,
            T_tol := 1 / 1000000, init_c := 1, small_T_count := 5, integration_order := 5,
            max_step_count := 1000, skip_dircheck_count := 1, polish := false }) := by
  have h1 : (1.0e-6 : α) = 1 / 1000000 := by norm_num
  have h2 : (1e-6 : α) = 1 / 1000000 := by norm_num
  have h3 : (10000000000 : α) = 10 ^ 10 := by norm_num
  have h4 : (1.0 : α) = 1 := by norm_num
  have hd : ({} : TCABOptions α) =
      { abs_err := 1 / 1000000, rel_err := 1 / 1000000, init_dt := 10, max_dt := 10 ^ 10,
        T_tol := 1 / 1000000, init_c := 1, small_T_count := 5, integration_order := 5,
        max_step_count := 1000, skip_dircheck_count := 1, polish := false } := by
    rw [h1, h2, h3, h4]
  refine ⟨h1, h1, rfl, h3, h2, h4, rfl, rfl, rfl, rfl, rfl, ?_⟩
  simp only [trace_critical_arclength_binary, Option.getD_none, Option.getD_some, hd]

/-! ### C18: the tangent in the eigenvector basis -/

/-- A square matrix with orthonormal columns has a two-sided inverse, its transpose. -/
theorem orthonormal_cols_mul_transpose {m : Nat} (U : Matrix (Fin m) (Fin m) α)
    (hU : orthonormal_cols U) : U.transpose * U = 1 ∧ U * U.transpose = 1 := by
  have h1 : U.transpose * U = 1 := by
    ext i j
    rw [Matrix.mul_apply, Matrix.one_apply]
    simpa [Matrix.transpose_apply] using hU i j
  exact ⟨h1, Matrix.mul_eq_one_comm.mp h1⟩

/-- The solution of a non-singular square system is unique. -/
theorem mulVec_unique {m : Nat} (A : Matrix (Fin m) (Fin m) α) (hA : A.det ≠ 0)
    (s s1 : Fin m → α) (h : A.mulVec s1 = A.mulVec s) : s1 = s := by
  have hu : IsUnit A.det := isUnit_iff_ne_zero.mpr hA
  have h1 : (A⁻¹ * A).mulVec s1 = (A⁻¹ * A).mulVec s := by
    rw [← Matrix.mulVec_mulVec, ← Matrix.mulVec_mulVec, h]
  rwa [Matrix.nonsing_inv_mul A hu, Matrix.one_mulVec, Matrix.one_mulVec] at h1

/-- C18: at a binary state where `get_drhovec_dT_crit` runs to its end, the eigenvector matrix
`U = eigenvectorscols` has orthonormal columns and the system matrix `LHS = (U * b)^T` is
non-singular, so that `colPivHouseholderQr().solve` returns the solution of
`LHS * x = RHS`: with `b = [[Psi3, Psi4], [dPsi2/dsigma2, dPsi3/dsigma2]]` and
`RHS = (-dPsi2/dT, -dPsi3/dT)`, the returned vector is `x = U * s` for the unique solution
`s = (s1, s2)` of `Psi3 * s1 + dPsi2/dsigma2 * s2 = -dPsi2/dT`,
`Psi4 * s1 + dPsi3/dsigma2 * s2 = -dPsi3/dT`. -/
theorem tangent_in_eigenbasis (lib : EigenLib α) (model : Model α 2) (T : α)
    (rhovec : Fin 2 → α) (r : DrhovecLocals α) (d : psi1derivs α 2)
    (hr : get_drhovec_dT_crit_locals (get_derivs lib model (le_refl 2)) lib T rhovec = .ok r)
    (hd : get_derivs lib model (le_refl 2) T rhovec none = .ok d)
    (hU : orthonormal_cols d.ei.eigenvectorscols) (hdet : r.LHS.det ≠ 0)
    (hsolve : ∀ (A : Matrix (Fin 2) (Fin 2) α) (y : Fin 2 → α), A.det ≠ 0 →
      A.mulVec (lib.colPivHouseholderQr_solve A y) = y) :
    r.b = !![d.tot 3, d.tot 4; r.deriv_sigma2 2, r.deriv_sigma2 3] ∧
    r.LHS = (d.ei.eigenvectorscols * r.b).transpose ∧
    (∃ p m, get_derivs lib model (le_refl 2) (T + 1e-7) rhovec none = .ok p ∧
      get_derivs lib model (le_refl 2) (T - 1e-7) rhovec none = .ok m ∧
      r.RHS = ![-((p.tot 2 - m.tot 2) / (2.0 * 1e-7)), -((p.tot 3 - m.tot 3) / (2.0 * 1e-7))]) ∧
    ∃ s : Fin 2 → α,
      (d.tot 3 * s 0 + r.deriv_sigma2 2 * s 1 = r.RHS 0 ∧
        d.tot 4 * s 0 + r.deriv_sigma2 3 * s 1 = r.RHS 1) ∧
      (∀ s1 : Fin 2 → α, d.tot 3 * s1 0 + r.deriv_sigma2 2 * s1 1 = r.RHS 0 →
        d.tot 4 * s1 0 + r.deriv_sigma2 3 * s1 1 = r.RHS 1 → s1 = s) ∧
      get_drhovec_dT_crit lib model T rhovec = .ok (d.ei.eigenvectorscols.mulVec s) := by
  obtain ⟨d1, p, m, ds, desc, hd1, hp, hm, -, hr1⟩ := locals_ok_shape _ _ _ _ _ hr
  rw [hd] at hd1
  simp only [Except.ok.injEq] at hd1
  subst hd1
  have hb : r.b = !![d.tot 3, d.tot 4; r.deriv_sigma2 2, r.deriv_sigma2 3] := by rw [hr1]; rfl
  have hL : r.LHS = (d.ei.eigenvectorscols * r.b).transpose := by rw [hr1]; rfl
  have hR : r.RHS =
      ![-((p.tot 2 - m.tot 2) / (2.0 * 1e-7)), -((p.tot 3 - m.tot 3) / (2.0 * 1e-7))] := by
    rw [hr1]; rfl
  have hx : r.drhovec_dT = lib.colPivHouseholderQr_solve r.LHS r.RHS := by rw [hr1]; rfl
  obtain ⟨hUtU, hUUt⟩ := orthonormal_cols_mul_transpose _ hU
  have hsol : r.LHS.mulVec r.drhovec_dT = r.RHS := by rw [hx]; exact hsolve _ _ hdet
  have hbt : r.b.transpose.det ≠ 0 := by
    intro h0
    apply hdet
    rw [hL, Matrix.transpose_mul, Matrix.det_mul, h0, zero_mul]
  have hsys : ∀ s : Fin 2 → α, r.b.transpose.mulVec s = r.RHS ↔
      (d.tot 3 * s 0 + r.deriv_sigma2 2 * s 1 = r.RHS 0 ∧
        d.tot 4 * s 0 + r.deriv_sigma2 3 * s 1 = r.RHS 1) := by
    intro s
    rw [hb]
    constructor
    · intro h
      have e0 := congrFun h 0
      have e1 := congrFun h 1
      simp [Matrix.mulVec, Matrix.dotProduct, Fin.sum_univ_two] at e0 e1
      exact ⟨e0, e1⟩
    · rintro ⟨e0, e1⟩
      funext i
      fin_cases i
      · simpa [Matrix.mulVec, Matrix.dotProduct, Fin.sum_univ_two] using e0
      · simpa [Matrix.mulVec, Matrix.dotProduct, Fin.sum_univ_two] using e1
  have hs : r.b.transpose.mulVec (d.ei.eigenvectorscols.transpose.mulVec r.drhovec_dT) =
      r.RHS := by
    rw [Matrix.mulVec_mulVec, ← Matrix.transpose_mul, ← hL]
    exact hsol
  refine ⟨hb, hL, ⟨p, m, hp, hm, hR⟩,
    d.ei.eigenvectorscols.transpose.mulVec r.drhovec_dT, (hsys _).mp hs, ?_, ?_⟩
  · intro s1 e0 e1
    exact mulVec_unique _ hbt _ _ (((hsys s1).mpr ⟨e0, e1⟩).trans hs.symm)
  · rw [Matrix.mulVec_mulVec, hUUt, Matrix.one_mulVec]
    simp [get_drhovec_dT_crit, hr]

/-- The linear solve of `diag_lib` solves every non-singular system. -/
theorem diag_lib_solve (A : Matrix (Fin 2) (Fin 2) ℚ) (y : Fin 2 → ℚ) (hA : A.det ≠ 0) :
    A.mulVec ((diag_lib ℚ).colPivHouseholderQr_solve A y) = y := by
  rw [Matrix.det_fin_two] at hA
  simp only [diag_lib, if_neg hA]
  funext i
  fin_cases i
  · simp [Matrix.mulVec, Matrix.dotProduct, Fin.sum_univ_two]
    field_simp
    ring
  · simp [Matrix.mulVec, Matrix.dotProduct, Fin.sum_univ_two]
    field_simp
    ring

/-- C18 at the critical point of `crit_model` with the solver `diag_lib`: the system is
`[[0, 1], [3, 0]] x = (-4, 9)`, of determinant -3. -/
theorem tangent_in_eigenbasis_witness :
    ∃ l d, get_drhovec_dT_crit_locals (get_derivs (diag_lib ℚ) (crit_model ℚ) (le_refl 2))
        (diag_lib ℚ) 1 ![1, 1] = .ok l ∧
      get_derivs (diag_lib ℚ) (crit_model ℚ) (le_refl 2) 1 ![1, 1] none = .ok d ∧
      orthonormal_cols d.ei.eigenvectorscols ∧ l.LHS.det ≠ 0 ∧
      (∀ (A : Matrix (Fin 2) (Fin 2) ℚ) (y : Fin 2 → ℚ), A.det ≠ 0 →
        A.mulVec ((diag_lib ℚ).colPivHouseholderQr_solve A y) = y) ∧
      ∃ s : Fin 2 → ℚ,
        (d.tot 3 * s 0 + l.deriv_sigma2 2 * s 1 = l.RHS 0 ∧
          d.tot 4 * s 0 + l.deriv_sigma2 3 * s 1 = l.RHS 1) ∧
        get_drhovec_dT_crit (diag_lib ℚ) (crit_model ℚ) 1 ![1, 1] =
          .ok (d.ei.eigenvectorscols.mulVec s) := by
  obtain ⟨l, d, hl, hd, -, -, -, dU, -, -, hL, -, -⟩ := crit_locals_line 1 (by norm_num)
  have hU : orthonormal_cols d.ei.eigenvectorscols := by
    rw [dU]; exact orthonormal_cols_one
  have hdet : l.LHS.det ≠ 0 := by
    rw [hL, Matrix.det_fin_two]
    simp
  obtain ⟨-, -, -, s, hs, -, hx⟩ :=
    tangent_in_eigenbasis (diag_lib ℚ) (crit_model ℚ) 1 ![1, 1] l d hl hd hU hdet diag_lib_solve
  exact ⟨l, d, hl, hd, hU, hdet, diag_lib_solve, s, hs, hx⟩

/-! ### C19: the direction rule of `xprime` -/

/-- The vector written by `xprime` before its direction test is `unit_tangent`. -/
theorem unit_tangent_eq (sqrt : α → α) (c : α) (d : Fin 2 → α) :
    (![c * (1.0 / norm sqrt d), c * (d 0 * (1.0 / norm sqrt d)),
        c * (d 1 * (1.0 / norm sqrt d))] : Fin 3 → α) = unit_tangent sqrt c d := by
  have h1 : (1.0 : α) = 1 := by norm_num
  funext i
  fin_cases i
  all_goals simp [unit_tangent, h1, div_eq_mul_inv, mul_assoc]

/-- The composition part of `unit_tangent` is the array `drhodt` of `xprime`. -/
theorem extract_unit_tangent (sqrt : α → α) (c : α) (d : Fin 2 → α) :
    extract_drhodt (unit_tangent sqrt c d) = fun i => c * (d i * (1.0 / norm sqrt d)) := by
  have h1 : (1.0 : α) = 1 := by norm_num
  funext i
  fin_cases i
  all_goals simp [unit_tangent, extract_drhodt, h1, div_eq_mul_inv, mul_assoc]

/-- The dot product with the negated array. -/
theorem dot_neg (v l : Fin 2 → α) : dot (fun i => -v i) l = -dot v l := by
  simp [dot, vsum, Fin.sum_univ_two]

/-- C19: at a state where the tangent `drhodT` is returned with a non-zero norm, and for a
non-zero sign `c`, the local derivative produced by `xprime` is
`d = c * (1, drhodT) / ||drhodT||` or its negation on all three components: it is `d` when
no last direction is stored; when a last direction is stored it is `-d` exactly if the
composition part of `d` has negative dot product with the stored direction, and the composition
part of the returned derivative has non-negative dot product with the stored direction. -/
theorem xprime_direction (env : Env α) (c : α) (last : Option (Fin 2 → α)) (x : state_type α)
    (d : Fin 2 → α)
    (hd : get_drhovec_dT_crit env.lib env.model (x 0) (fun i => x i.succ) = .ok d)
    (hc : c ≠ 0) (hn : norm env.sqrt d ≠ 0) :
    ∃ dx, xprime env c last x = .ok dx ∧
      (dx = unit_tangent env.sqrt c d ∨ dx = fun i => -unit_tangent env.sqrt c d i) ∧
      (last = none → dx = unit_tangent env.sqrt c d) ∧
      ∀ l, last = some l →
        ((dx = fun i => -unit_tangent env.sqrt c d i) ↔
          dot (extract_drhodt (unit_tangent env.sqrt c d)) l < 0) ∧
        (dx = unit_tangent env.sqrt c d ↔
          ¬ dot (extract_drhodt (unit_tangent env.sqrt c d)) l < 0) ∧
        0 ≤ dot (extract_drhodt dx) l := by
  have hne : unit_tangent env.sqrt c d ≠ fun i => -unit_tangent env.sqrt c d i := by
    intro h
    have h0 := congrFun h 0
    have hv : unit_tangent env.sqrt c d 0 = c / norm env.sqrt d := by
      simp [unit_tangent]
    rw [hv] at h0
    have hpos : c / norm env.sqrt d ≠ 0 := div_ne_zero hc hn
    have : c / norm env.sqrt d = 0 := by linarith
    exact hpos this
  rw [xprime_of_tangent env c last x d hd]
  cases last with
  | none =>
    refine ⟨_, rfl, Or.inl (unit_tangent_eq _ _ _), fun _ => unit_tangent_eq _ _ _, ?_⟩
    intro l hl
    cases hl
  | some l0 =>
    simp only [unit_tangent_eq, ← extract_unit_tangent]
    have hneg : (fun i => unit_tangent env.sqrt c d i * -1) =
        fun i => -unit_tangent env.sqrt c d i := by
      funext i; ring
    by_cases hlt : dot (extract_drhodt (unit_tangent env.sqrt c d)) l0 < 0
    · rw [if_pos hlt, hneg]
      refine ⟨_, rfl, Or.inr rfl, fun h => Option.noConfusion h, ?_⟩
      intro l hl
      simp only [Option.some.injEq] at hl
      subst hl
      refine ⟨⟨fun _ => hlt, fun _ => rfl⟩, ⟨fun h => absurd h.symm hne, fun h => absurd hlt h⟩, ?_⟩
      have : extract_drhodt (fun i => -unit_tangent env.sqrt c d i) =
          fun i => -extract_drhodt (unit_tangent env.sqrt c d) i := rfl
      rw [this, dot_neg]
      linarith
    · rw [if_neg hlt]
      refine ⟨_, rfl, Or.inl rfl, fun h => Option.noConfusion h, ?_⟩
      intro l hl
      simp only [Option.some.injEq] at hl
      subst hl
      exact ⟨⟨fun h => absurd h hne, fun h => absurd h hlt⟩, ⟨fun _ => hlt, fun _ => rfl⟩,
        not_lt.mp hlt⟩

/-- C19 at the critical point of `crit_env` with sign 1 and the stored direction `(0, 1)`:
the composition part `(3/5, -4/5)` of `d` has dot product `-4/5` with it, and the returned
derivative is `-d`. -/
theorem xprime_direction_witness :
    get_drhovec_dT_crit crit_env.lib crit_env.model ((![1, 1, 1] : Fin 3 → ℚ) 0)
      (fun i => (![1, 1, 1] : Fin 3 → ℚ) i.succ) = .ok ![3, -4] ∧
    (1 : ℚ) ≠ 0 ∧ norm crit_env.sqrt (![3, -4] : Fin 2 → ℚ) ≠ 0 ∧
    ∃ dx, xprime crit_env 1 (some ![0, 1]) ![1, 1, 1] = .ok dx ∧
      (dx = fun i => -unit_tangent crit_env.sqrt 1 ![3, -4] i) ∧
      0 ≤ dot (extract_drhodt dx) ![0, 1] := by
  have ht : get_drhovec_dT_crit crit_env.lib crit_env.model ((![1, 1, 1] : Fin 3 → ℚ) 0)
      (fun i => (![1, 1, 1] : Fin 3 → ℚ) i.succ) = .ok ![3, -4] := by
    rw [state_tail]
    exact crit_tangent_line 1 (by norm_num)
  have hn : norm crit_env.sqrt (![3, -4] : Fin 2 → ℚ) ≠ 0 := by
    have h5 : norm crit_env.sqrt (![3, -4] : Fin 2 → ℚ) = 5 := norm_crit
    rw [h5]
    norm_num
  obtain ⟨dx, hx, -, -, hl⟩ :=
    xprime_direction crit_env 1 (some ![0, 1]) ![1, 1, 1] ![3, -4] ht one_ne_zero hn
  obtain ⟨hneg, -, hdot⟩ := hl ![0, 1] rfl
  refine ⟨ht, one_ne_zero, hn, dx, hx, hneg.mpr ?_, hdot⟩
  have h5 : norm crit_env.sqrt (![3, -4] : Fin 2 → ℚ) = 5 := norm_crit
  simp [dot, vsum, Fin.sum_univ_two, extract_drhodt, unit_tangent, h5]
  norm_num

/-! ### C20: the secondary-direction formulas are exact on quadratics -/

/-- C20: let the order-`k` total derivative be the quadratic `f(s) = a + b * s + q * s^2` of
the displacement `s` along `v1`: `f(0)` at the base state and `f(sigma2)`, `f(2 * sigma2)`,
`f(-sigma2)`, `f(-2 * sigma2)` at the perturbed states that `get_drhovec_dT_crit` may evaluate,
with `sigma2 != 0`.  Then whichever of the centered, forward (`(-3 f(0) + 4 f(h) - f(2h)) / (2h)`)
and backward (`(-3 f(0) + 4 f(-h) - f(-2h)) / (-2h)`) formulas the routine takes, its
`deriv_sigma2[k]` is `f'(0) = b` exactly; the one-sided formulas take `f(0)` from the base
derivatives `all_derivs.tot`. -/
theorem secondary_second_order (gd : GetDerivs α) (lib : EigenLib α) (T : α)
    (rhovec : Fin 2 → α) (r : DrhovecLocals α) (d : psi1derivs α 2) (k : Fin 5) (a b q : α)
    (hr : get_drhovec_dT_crit_locals gd lib T rhovec = .ok r)
    (hd : gd T rhovec none = .ok d) (hs : sigma2 rhovec ≠ 0) (h0 : d.tot k = a)
    (hp : ∀ e, gd T (rhovec_plus rhovec d.ei.v1) (some d.ei.v0) = .ok e →
      e.tot k = a + b * sigma2 rhovec + q * sigma2 rhovec ^ 2)
    (h2p : ∀ e, gd T (rhovec_2plus rhovec d.ei.v1) (some d.ei.v0) = .ok e →
      e.tot k = a + b * (2 * sigma2 rhovec) + q * (2 * sigma2 rhovec) ^ 2)
    (hm : ∀ e, gd T (rhovec_minus rhovec d.ei.v1) (some d.ei.v0) = .ok e →
      e.tot k = a + b * (-sigma2 rhovec) + q * (-sigma2 rhovec) ^ 2)
    (h2m : ∀ e, gd T (rhovec_2minus rhovec d.ei.v1) (some d.ei.v0) = .ok e →
      e.tot k = a + b * (-(2 * sigma2 rhovec)) + q * (-(2 * sigma2 rhovec)) ^ 2) :
    r.deriv_sigma2 k = b ∧
      (r.stepping_desc = "conventional centered" ∨ r.stepping_desc = "forward" ∨
        r.stepping_desc = "backwards") := by
  obtain ⟨d1, p, m, ds, desc, hd1, -, -, hsec, hr1⟩ := locals_ok_shape _ _ _ _ _ hr
  rw [hd] at hd1
  simp only [Except.ok.injEq] at hd1
  subst hd1
  have hds : r.deriv_sigma2 = ds := by rw [hr1]; rfl
  have hdesc : r.stepping_desc = desc := by rw [hr1]; rfl
  have h2 : (2.0 : α) = 2 := by norm_num
  have spec := secondary_difference_spec gd T rhovec d.tot d.ei
  rw [hsec] at spec
  rw [hds, hdesc]
  rcases spec with ⟨hdesc, -, -, ps, ms, hps, hms, rfl⟩ | ⟨hdesc, -, -, ps, p2, hps, hp2, rfl⟩ |
    ⟨hdesc, -, -, ms, m2, hms, hm2, rfl⟩
  · refine ⟨?_, Or.inl hdesc⟩
    simp only [hp ps hps, hm ms hms, h2]
    field_simp
    ring
  · refine ⟨?_, Or.inr (Or.inl hdesc)⟩
    simp only [hp ps hps, h2p p2 hp2, h0, h2]
    field_simp
    ring
  · refine ⟨?_, Or.inr (Or.inr hdesc)⟩
    have h2n : (-2.0 : α) = -2 := by norm_num
    simp only [hm ms hms, h2m m2 hm2, h0, h2n]
    field_simp
    ring

/-- The order-2 total derivative of `crit_model` at `T = 1` on the line `rho0 = 1`, aligned
with `(1, 0)`. -/
theorem crit_tot2_line (r : ℚ) (hr : r ≠ 0) (e : psi1derivs ℚ 2)
    (h : get_derivs (diag_lib ℚ) (crit_model ℚ) (le_refl 2) 1 ![1, r] (some ![1, 0]) = .ok e) :
    e.tot 2 = r - 1 := by
  have e0 : (fun i => (1 : Matrix (Fin 2) (Fin 2) ℚ) i 0) = ![1, 0] := by
    funext i; fin_cases i
    · exact Matrix.one_apply_eq 0
    · exact Matrix.one_apply_ne (by decide)
  obtain ⟨e1, he1, h2, -⟩ := crit_derivs 1 r hr (some (fun i => (1 : Matrix (Fin 2) (Fin 2) ℚ) i 0))
    (Or.inr rfl)
  rw [e0, h] at he1
  simp only [Except.ok.injEq] at he1
  subst he1
  rw [h2]
  ring

/-- C20 at the critical point of `crit_model` with the solver `diag_lib`, for the order-2
derivative: along `v1 = (0, 1)` it is `f(s) = s`, and `deriv_sigma2[2] = 1`. -/
theorem secondary_second_order_witness :
    ∃ l d, get_drhovec_dT_crit_locals (get_derivs (diag_lib ℚ) (crit_model ℚ) (le_refl 2))
        (diag_lib ℚ) 1 ![1, 1] = .ok l ∧
      get_derivs (diag_lib ℚ) (crit_model ℚ) (le_refl 2) 1 ![1, 1] none = .ok d ∧
      sigma2 (![1, 1] : Fin 2 → ℚ) ≠ 0 ∧ d.tot 2 = 0 ∧
      l.deriv_sigma2 2 = 1 ∧
      (l.stepping_desc = "conventional centered" ∨ l.stepping_desc = "forward" ∨
        l.stepping_desc = "backwards") := by
  obtain ⟨l, d, hl, hd, d2, dv0, dv1, -⟩ := crit_locals_line 1 (by norm_num)
  have hs : sigma2 (![1, 1] : Fin 2 → ℚ) = 4e-5 := by
    simp [sigma2, vsum, Fin.sum_univ_two]
    norm_num
  have hs0 : sigma2 (![1, 1] : Fin 2 → ℚ) ≠ 0 := by
    rw [hs]; norm_num
  have d20 : d.tot 2 = 0 := by rw [d2]; norm_num
  have hp : rhovec_plus (![1, 1] : Fin 2 → ℚ) d.ei.v1 = ![1, 1 + 4e-5] := by
    funext i; fin_cases i
    all_goals simp [rhovec_plus, hs, dv1]
  have h2p : rhovec_2plus (![1, 1] : Fin 2 → ℚ) d.ei.v1 = ![1, 1 + 2 * 4e-5] := by
    funext i; fin_cases i
    all_goals simp [rhovec_2plus, hs, dv1]
  have hm : rhovec_minus (![1, 1] : Fin 2 → ℚ) d.ei.v1 = ![1, 1 - 4e-5] := by
    funext i; fin_cases i
    all_goals simp [rhovec_minus, hs, dv1]
  have h2m : rhovec_2minus (![1, 1] : Fin 2 → ℚ) d.ei.v1 = ![1, 1 - 2 * 4e-5] := by
    funext i; fin_cases i
    all_goals simp [rhovec_2minus, hs, dv1]
  obtain ⟨h1, h2⟩ := secondary_second_order (get_derivs (diag_lib ℚ) (crit_model ℚ) (le_refl 2))
    (diag_lib ℚ) 1 ![1, 1] l d 2 0 1 0 hl hd hs0 d20
    (by
      intro e he
      rw [hp, dv0] at he
      rw [crit_tot2_line _ (by norm_num) e he, hs]
      ring)
    (by
      intro e he
      rw [h2p, dv0] at he
      rw [crit_tot2_line _ (by norm_num) e he, hs]
      ring)
    (by
      intro e he
      rw [hm, dv0] at he
      rw [crit_tot2_line _ (by norm_num) e he, hs]
      ring)
    (by
      intro e he
      rw [h2m, dv0] at he
      rw [crit_tot2_line _ (by norm_num) e he, hs]
      ring)
  exact ⟨l, d, hl, hd, hs0, d20, h1, h2⟩

end Theorems

end teqp
